import Mathlib

/-! ACPC dealer and all-in rollout: a shallow embedding

Definitions are translated from `src/ACPCServer/dealer.c`,
`src/ACPCServer/all_in_expectation.c` and `src/ACPCServer/net.c`.

Conventions of the embedding

* C arrays are maps from the index to the stored value (`Nat → Nat`); an
  access outside the declared bounds is undefined behaviour in C and is not
  given a meaning of its own.
* `uint32_t` / `uint64_t` / `uint8_t` values are naturals, every store that can
  wrap is written with an explicit `% 2 ^ w`.
* `time_t` and `suseconds_t` are integers; the conversion of a `long` to
  `uint64_t` is `% 2 ^ 64`.
* functions returning `0` / `-1` return an `Int` return code together with
  the objects they write through pointers.
-/

namespace Dealer

/-! ## Definitions: time and invalid-action budgets (dealer.c, lines 46-198) -/

/-- The C `struct timeval`: seconds and microseconds. -/
structure Timeval where
  tv_sec : Int
  tv_usec : Int
deriving DecidableEq, Repr

/-- The struct `ErrorInfo` of dealer.c: four limits and three per-seat arrays. -/
structure ErrorInfo where
  maxInvalidActions : Nat
  maxResponseMicros : Nat
  maxUsedHandMicros : Nat
  maxUsedMatchMicros : Nat
  numInvalidActions : Nat → Nat
  usedHandMicros : Nat → Nat
  usedMatchMicros : Nat → Nat

/-- Body of the loop of `initErrorInfo` for seat `s`. -/
def initErrorInfoSeat (info : ErrorInfo) (s : Nat) : ErrorInfo :=
  { info with
    numInvalidActions := Function.update info.numInvalidActions s 0
    usedHandMicros := Function.update info.usedHandMicros s 0
    usedMatchMicros := Function.update info.usedMatchMicros s 0 }

/-- The function `initErrorInfo`: stores the four limits, then clears the three
counters of every seat `s < MAX_PLAYERS`.  `info` is the struct being
initialised (its previous content is arbitrary). -/
def initErrorInfo (MAX_PLAYERS : Nat)
    (maxInvalidActions maxResponseMicros maxUsedHandMicros maxUsedMatchMicros : Nat)
    (info : ErrorInfo) : ErrorInfo :=
  (List.range MAX_PLAYERS).foldl initErrorInfoSeat
    { info with
      maxInvalidActions := maxInvalidActions
      maxResponseMicros := maxResponseMicros
      maxUsedHandMicros := maxUsedHandMicros
      maxUsedMatchMicros := maxUsedMatchMicros }

/-- The function `checkErrorInvalidAction`: `++numInvalidActions[seat]` on a
`uint32_t`, then the comparison with `maxInvalidActions`. -/
def checkErrorInvalidAction (seat : Nat) (info : ErrorInfo) : Int × ErrorInfo :=
  let info1 : ErrorInfo :=
    { info with
      numInvalidActions :=
        Function.update info.numInvalidActions seat
          ((info.numInvalidActions seat + 1) % 2 ^ 32) }
  if info1.numInvalidActions seat > info1.maxInvalidActions then (-1, info1)
  else (0, info1)

/-- The value stored in `responseMicros` (dealer.c, lines 162-163): the `long`
expression converted to `uint64_t`. -/
def responseMicros (sendTime recvTime : Timeval) : Nat :=
  (((recvTime.tv_sec - sendTime.tv_sec) * 1000000
      + recvTime.tv_usec - sendTime.tv_usec) % (2 ^ 64 : Int)).toNat

/-- The function `checkErrorTimes`. -/
def checkErrorTimes (seat : Nat) (sendTime recvTime : Timeval) (info : ErrorInfo) :
    Int × ErrorInfo :=
  if recvTime.tv_sec < sendTime.tv_sec
      ∨ (recvTime.tv_sec = sendTime.tv_sec ∧ recvTime.tv_usec < sendTime.tv_usec) then
    (0, info)
  else
    let resp := responseMicros sendTime recvTime
    let info1 : ErrorInfo :=
      { info with
        usedHandMicros :=
          Function.update info.usedHandMicros seat
            ((info.usedHandMicros seat + resp) % 2 ^ 64) }
    let info2 : ErrorInfo :=
      { info1 with
        usedMatchMicros :=
          Function.update info1.usedMatchMicros seat
            ((info1.usedMatchMicros seat + resp) % 2 ^ 64) }
    if resp > info2.maxResponseMicros then (-1, info2)
    else if info2.usedHandMicros seat > info2.maxUsedHandMicros then (-1, info2)
    else if info2.usedMatchMicros seat > info2.maxUsedMatchMicros then (-1, info2)
    else (0, info2)

/-- Body of the loop of `checkErrorNewHand` for player `p`. -/
def checkErrorNewHandSeat (info : ErrorInfo) (p : Nat) : ErrorInfo :=
  { info with usedHandMicros := Function.update info.usedHandMicros p 0 }

/-- The function `checkErrorNewHand`; `numPlayers` is `game->numPlayers`. -/
def checkErrorNewHand (numPlayers : Nat) (info : ErrorInfo) : Int × ErrorInfo :=
  (0, (List.range numPlayers).foldl checkErrorNewHandSeat info)

/-- One call of the three budget functions, with its arguments. -/
inductive ErrorCall where
  | times (seat : Nat) (sendTime recvTime : Timeval)
  | newHand (numPlayers : Nat)
  | invalidAction (seat : Nat)

/-- The `ErrorInfo` left by one call. -/
def ErrorCall.run : ErrorCall → ErrorInfo → ErrorInfo
  | .times seat sendTime recvTime, info => (checkErrorTimes seat sendTime recvTime info).2
  | .newHand numPlayers, info => (checkErrorNewHand numPlayers info).2
  | .invalidAction seat, info => (checkErrorInvalidAction seat info).2

/-- The 64-bit sums a call executes do not wrap: a call of `checkErrorTimes`
whose receive time precedes its send time returns before the two sums and
executes none, otherwise its two sums fit 64 bits; the other two functions
add nothing to the time counters. -/
def ErrorCall.noOverflow : ErrorCall → ErrorInfo → Prop
  | .times seat sendTime recvTime, info =>
      (recvTime.tv_sec < sendTime.tv_sec
        ∨ (recvTime.tv_sec = sendTime.tv_sec ∧ recvTime.tv_usec < sendTime.tv_usec))
      ∨ (info.usedHandMicros seat + responseMicros sendTime recvTime < 2 ^ 64
        ∧ info.usedMatchMicros seat + responseMicros sendTime recvTime < 2 ^ 64)
  | .newHand _, _ => True
  | .invalidAction _, _ => True

/-- The `ErrorInfo` after a sequence of calls. -/
def runCalls : List ErrorCall → ErrorInfo → ErrorInfo
  | [], info => info
  | c :: cs, info => runCalls cs (c.run info)

/-- No call of the sequence wraps a 64-bit sum it executes. -/
def callsNoOverflow : List ErrorCall → ErrorInfo → Prop
  | [], _ => True
  | c :: cs, info => c.noOverflow info ∧ callsNoOverflow cs (c.run info)

/-! ## Definitions: version handshake and reading a response (dealer.c, lines 255-369, 519-549)

`game.h` and `game.c` are not part of the sources.  The types `Action` and
`MatchState` follow the data model of the specification; the functions of
`game.c` that `dealer.c` calls are parameters of the embedding, collected in
`GameOps`. -/

/-- Modelled from the spec: the enumeration of action types of `game.h`
(`fold`, `call`, `raise`); `a_invalid` is what an unreadable action is. -/
inductive ActionType where
  | a_fold
  | a_call
  | a_raise
  | a_invalid
deriving DecidableEq, Repr

/-- Modelled from the spec: the struct `Action` of `game.h`,
`Action {type, size}`. -/
structure Action where
  type : ActionType
  size : Int
deriving DecidableEq, Repr

/-- Modelled from the spec: the struct `MatchState` of `game.h`,
`MatchState = {State, viewingPlayer}`; the hand state `σ` is kept abstract. -/
structure MatchState (σ : Type) where
  state : σ
  viewingPlayer : Nat

/-- The functions of `game.c` called by `dealer.c` (absent from the sources),
for a fixed `game`: hand states `σ`, generator states `ρ`, values `V` (C
`double`).  A reader returns `none` where the C function returns a
negative number, otherwise the number of characters consumed and the object
read.  `isValidAction` returns its verdict and the action it leaves in
`*action`; `handId` is the field `handId` of a hand state. -/
structure GameOps (σ ρ V : Type) where
  numPlayers : Nat
  handId : σ → Nat
  initState : Nat → σ → σ
  dealCards : ρ → σ → ρ × σ
  currentPlayer : σ → Nat
  stateFinished : σ → Bool
  isValidAction : σ → Bool → Action → Bool × Action
  doAction : Action → σ → σ
  valueOfState : σ → Nat → V
  readMatchState : List Char → Option (Nat × MatchState σ)
  matchStatesEqual : MatchState σ → MatchState σ → Bool
  readAction : List Char → Option (Nat × Action)

/-- What `getLine` and `sscanf` of `checkVersion` deliver: no line, a line on
which `sscanf` converts fewer than three numbers, or the three numbers. -/
inductive VersionLine where
  | noLine
  | unparsed
  | version (major minor rev : Nat)
deriving DecidableEq, Repr

/-- The function `checkVersion`.  The test on `major` and `minor`
(dealer.c, line 543) only guards an `fprintf`; both branches reach
`return 0`.  The second component tells whether that error message is
printed. -/
def checkVersion (VERSION_MAJOR VERSION_MINOR : Nat) : VersionLine → Int × Bool
  | .noLine => (-1, false)
  | .unparsed => (-1, false)
  | .version major minor _ =>
    if major ≠ VERSION_MAJOR ∨ minor > VERSION_MINOR then (0, true) else (0, false)

/-- Outcome of `readPlayerResponse`: `-1`, or `0` with the objects written
through `action`, `recvTime`, and the unread lines left in `readBuf`. -/
inductive ReadOutcome where
  | failure (errorInfo : ErrorInfo)
  | success (action : Action) (recvTime : Timeval) (errorInfo : ErrorInfo)
      (rest : List (List Char × Timeval))

/-- The value `readPlayerResponse` returns. -/
def ReadOutcome.code : ReadOutcome → Int
  | .failure _ => -1
  | .success _ _ _ _ => 0

/-- The `ErrorInfo` left by `readPlayerResponse`. -/
def ReadOutcome.errorInfo : ReadOutcome → ErrorInfo
  | .failure errorInfo => errorInfo
  | .success _ _ errorInfo _ => errorInfo

/-- The action handed back on success. -/
def ReadOutcome.action? : ReadOutcome → Option Action
  | .failure _ => none
  | .success action _ _ _ => some action

/-- The function `readPlayerResponse`.  The input is the sequence of lines
`getLine` delivers, each with the time `gettimeofday` gives right after it;
when there is no further line `getLine` returns `<= 0`. -/
def readPlayerResponse {σ ρ V : Type} (ops : GameOps σ ρ V) (state : MatchState σ)
    (seat : Nat) (sendTime : Timeval) :
    ErrorInfo → List (List Char × Timeval) → ReadOutcome
  | errorInfo, [] => .failure errorInfo
  | errorInfo, (line, recvTime) :: rest =>
    if line.head? = some '#' ∨ line.head? = some ';' then
      readPlayerResponse ops state seat sendTime errorInfo rest
    else
      let t := checkErrorTimes seat sendTime recvTime errorInfo
      if t.1 < 0 then .failure t.2
      else
        match ops.readMatchState line with
        | none => readPlayerResponse ops state seat sendTime t.2 rest
        | some (c, tempState) =>
          if ops.matchStatesEqual state tempState = false then
            readPlayerResponse ops state seat sendTime t.2 rest
          else
            match (if line.getD c (Char.ofNat 0) ≠ ':' then none
                    else ops.readAction (line.drop (c + 1))) with
            | none =>
              -- bad action format: the result of checkErrorInvalidAction only
              -- selects a message, there is no return in this branch
              let e := checkErrorInvalidAction seat t.2
              .success ⟨.a_call, 0⟩ recvTime e.2 rest
            | some (_, action) =>
              let v := ops.isValidAction state.state true action
              if v.1 = false then
                let e := checkErrorInvalidAction seat t.2
                if e.1 < 0 then .failure e.2
                else .success ⟨.a_call, 0⟩ recvTime e.2 rest
              else .success v.2 recvTime t.2 rest

/-- A small concrete instance of the `game.c` parameters, used to evaluate
the dealer on explicit inputs: a hand state is its hand id and the number of
actions taken, and the hand is finished after two actions; a match state is
written as the letter `S` followed by one digit for each of the two; the
actions are the letters `f`, `c`, `r`, and a fold is never valid. -/
def toyOps : GameOps (Nat × Nat) Nat Int where
  numPlayers := 2
  handId := fun s => s.1
  initState := fun h _ => (h, 0)
  dealCards := fun rng s => (rng + 1, s)
  currentPlayer := fun s => s.2 % 2
  stateFinished := fun s => decide (2 ≤ s.2)
  isValidAction := fun _ _ a => (decide (a.type ≠ ActionType.a_fold), a)
  doAction := fun _ s => (s.1, s.2 + 1)
  valueOfState := fun _ p => if p = 0 then 1 else -1
  readMatchState := fun line =>
    match line with
    | 'S' :: h :: d :: _ => some (3, ⟨(h.toNat - 48, d.toNat - 48), 0⟩)
    | _ => none
  matchStatesEqual := fun a b => decide (a.state = b.state)
  readAction := fun line =>
    match line with
    | 'f' :: _ => some (1, ⟨.a_fold, 0⟩)
    | 'c' :: _ => some (1, ⟨.a_call, 0⟩)
    | 'r' :: _ => some (1, ⟨.a_raise, 0⟩)
    | _ => none

/-! ## Definitions: hands, journal replay and the match loop (dealer.c, lines 201-211, 371-517, 700-884) -/

/-- The function `seatToPlayer`: `( seat + numPlayers - player0Seat ) % numPlayers`
computed on `int` and returned as a `uint8_t`. -/
def seatToPlayer (numPlayers player0Seat seat : Nat) : Nat :=
  ((((seat : Int) + (numPlayers : Int) - (player0Seat : Int)).tmod (numPlayers : Int))
    % 256).toNat

/-- The function `playerToSeat`: `( player + player0Seat ) % numPlayers`
returned as a `uint8_t`. -/
def playerToSeat (numPlayers player0Seat player : Nat) : Nat :=
  ((player + player0Seat) % numPlayers) % 256

/-- The variables of `gameLoop` that `setUpNewHand` and
`processTransactionFile` receive by pointer: `handId`, `player0Seat`, `rng`,
`errorInfo`, `totalValue` and the match state. -/
structure Match (σ ρ V : Type) where
  handId : Nat
  player0Seat : Nat
  rng : ρ
  errorInfo : ErrorInfo
  totalValue : Nat → V
  state : MatchState σ

/-- The function `setUpNewHand`; `fixedSeats` is converted to `uint8_t` by the
call. -/
def setUpNewHand {σ ρ V : Type} (ops : GameOps σ ρ V) (fixedSeats : Nat)
    (m : Match σ ρ V) : Int × Match σ ρ V :=
  let handId := (m.handId + 1) % 2 ^ 32
  let player0Seat :=
    if fixedSeats % 256 = 0 then ((m.player0Seat + 1) % ops.numPlayers) % 256
    else m.player0Seat
  let e := checkErrorNewHand ops.numPlayers m.errorInfo
  if e.1 < 0 then
    (-1, { m with handId := handId, player0Seat := player0Seat, errorInfo := e.2 })
  else
    let d := ops.dealCards m.rng (ops.initState handId m.state.state)
    (0, { m with
          handId := handId
          player0Seat := player0Seat
          errorInfo := e.2
          rng := d.1
          state := { m.state with state := d.2 } })

/-- A line of the transaction file as the two readers of
`processTransactionFile` see it: what `readAction` makes of its head (`none`
when it returns a negative number), the number of conversions `sscanf`
makes on the rest, and the values it stores for the converted fields. -/
structure JournalLine where
  action : Option Action
  fields : Nat
  handId : Nat
  sendTime : Timeval
  recvTime : Timeval

/-- The locals `h`, `sendTime`, `recvTime` of `processTransactionFile`. -/
structure ReplayLocals where
  h : Nat
  sendTime : Timeval
  recvTime : Timeval

/-- The effect of the `sscanf` of line 422 on the locals: the first
`fields` of `h`, `sendTime.tv_sec`, `sendTime.tv_usec`, `recvTime.tv_sec`,
`recvTime.tv_usec` are stored, the others keep their value. -/
def scanStamp (loc : ReplayLocals) (line : JournalLine) : ReplayLocals :=
  { h := if 1 ≤ line.fields then line.handId else loc.h
    sendTime :=
      { tv_sec := if 2 ≤ line.fields then line.sendTime.tv_sec else loc.sendTime.tv_sec
        tv_usec := if 3 ≤ line.fields then line.sendTime.tv_usec else loc.sendTime.tv_usec }
    recvTime :=
      { tv_sec := if 4 ≤ line.fields then line.recvTime.tv_sec else loc.recvTime.tv_sec
        tv_usec := if 5 ≤ line.fields then line.recvTime.tv_usec else loc.recvTime.tv_usec } }

/-- The loop of lines 462-467: `totalValue[ s ] += valueOfState( ..., seatToPlayer( s ) )`
for every seat `s`. -/
def creditSeats {σ ρ V : Type} [Add V] (ops : GameOps σ ρ V) (player0Seat : Nat) (state : σ)
    (totalValue : Nat → V) : Nat → V :=
  (List.range ops.numPlayers).foldl
    (fun tv s =>
      Function.update tv s
        (tv s + ops.valueOfState state (seatToPlayer ops.numPlayers player0Seat s)))
    totalValue

/-- The body of the loop of `processTransactionFile` for one line (lines
411-475); `loc` holds the locals after the `sscanf` of this line.  A negative
first component is the `return -1`. -/
def replayLine {σ ρ V : Type} [Add V] (ops : GameOps σ ρ V) (fixedSeats : Nat)
    (line : JournalLine) (loc : ReplayLocals) (m : Match σ ρ V) : Int × Match σ ρ V :=
  match line.action with
  | none => (-1, m)
  | some action =>
    if line.fields < 4 then (-1, m)
    else if loc.h ≠ m.handId then (-1, m)
    else
      let v := ops.isValidAction m.state.state false action
      if v.1 = false then (-1, m)
      else
        let s := playerToSeat ops.numPlayers m.player0Seat (ops.currentPlayer m.state.state)
        let t := checkErrorTimes s loc.sendTime loc.recvTime m.errorInfo
        if t.1 < 0 then (-1, { m with errorInfo := t.2 })
        else
          let m1 : Match σ ρ V :=
            { m with
              errorInfo := t.2
              state := { m.state with state := ops.doAction v.2 m.state.state } }
          if ops.stateFinished m1.state.state = true then
            setUpNewHand ops fixedSeats
              { m1 with
                totalValue := creditSeats ops m1.player0Seat m1.state.state m1.totalValue }
          else (0, m1)

/-- The function `processTransactionFile`: one iteration of the loop per line
that `fgets` delivers; the locals written by `sscanf` persist from one line
to the next. -/
def processTransactionFile {σ ρ V : Type} [Add V] (ops : GameOps σ ρ V) (fixedSeats : Nat) :
    List JournalLine → ReplayLocals → Match σ ρ V → Int × Match σ ρ V
  | [], _, m => (0, m)
  | line :: rest, loc, m =>
    let r := replayLine ops fixedSeats line (scanStamp loc line) m
    if r.1 < 0 then (-1, r.2)
    else processTransactionFile ops fixedSeats rest (scanStamp loc line) r.2

/-- The line `logTransaction` appends for an action: `printAction` followed
by the hand id of the state and the two timestamps.  Modelled from the spec:
the codec of `game.c` is round-trip stable, so on this line `readAction` gives
the action back and `sscanf` converts the five numbers. -/
def logTransaction {σ ρ V : Type} (ops : GameOps σ ρ V) (state : σ) (action : Action)
    (sendTime recvTime : Timeval) : JournalLine :=
  { action := some action
    fields := 5
    handId := ops.handId state
    sendTime := sendTime
    recvTime := recvTime }

/-- The content of a line of the log: the final state, the values in player
order and the names in player order (dealer.c, lines 570-600). -/
structure LogLine (σ V : Type) where
  state : σ
  values : List V
  names : List (List Char)

/-- The function `addToLogFile`, as the content of the line it prints. -/
def addToLogFile {σ ρ V : Type} (ops : GameOps σ ρ V) (state : σ) (value : Nat → V)
    (player0Seat : Nat) (seatName : Nat → List Char) : LogLine σ V :=
  { state := state
    values := (List.range ops.numPlayers).map value
    names := (List.range ops.numPlayers).map
      (fun p => seatName (playerToSeat ops.numPlayers player0Seat p)) }

/-- The function `printFinalMessage`, as the content of the `SCORE` line: the
totals and the names in seat order. -/
def printFinalMessage {σ ρ V : Type} (ops : GameOps σ ρ V) (seatName : Nat → List Char)
    (totalValue : Nat → V) : List V × List (List Char) :=
  ((List.range ops.numPlayers).map totalValue, (List.range ops.numPlayers).map seatName)

/-- What the outside world does during one step of the match loop: for each
seat the time `gettimeofday` gives after a successful `sendPlayerMessage`
(`none`: the send fails), and whether the writes to the transaction file and
to the log succeed. -/
structure StepInput where
  sendTimes : Nat → Option Timeval
  journalOk : Bool
  logOk : Bool

/-- The state of `gameLoop` between two steps: its local variables, the lines
each seat will deliver to `getLine` (with the time of their arrival), the
lines written to the transaction file and to the log, and - as a ghost
variable - the hand state and action of every turn played. -/
structure Live (σ ρ V : Type) where
  m : Match σ ρ V
  sendTime : Timeval
  value : Nat → V
  readBuf : Nat → List (List Char × Timeval)
  journal : List JournalLine
  log : List (LogLine σ V)
  history : List (σ × Action)

/-- The loops "send state to each player": `state.viewingPlayer` is set for
every seat in turn, a failed send ends the match, and in the loop of a turn
(`remember = true`) the send time of the seat whose player is `currentP`
is kept in `sendTime`.  Returns `sendTime` and `state.viewingPlayer`. -/
def broadcast (numPlayers player0Seat currentP : Nat) (remember : Bool)
    (sendTimes : Nat → Option Timeval) (sendTime : Timeval) (viewingPlayer : Nat) :
    Option (Timeval × Nat) :=
  (List.range numPlayers).foldl
    (fun acc seat =>
      match acc with
      | none => none
      | some (sendTime, _) =>
        match sendTimes seat with
        | none => none
        | some t =>
          some (if remember = true ∧ seatToPlayer numPlayers player0Seat seat = currentP then t
                else sendTime,
            seatToPlayer numPlayers player0Seat seat))
    (some (sendTime, viewingPlayer))

/-- The body of the loop "play the hand" (lines 787-832): broadcast, read the
response of the current player, journal it, apply it.  `none`: the loop
returns `-1`. -/
def playTurn {σ ρ V : Type} (ops : GameOps σ ρ V) (useJournal : Bool) (io : StepInput)
    (st : Live σ ρ V) : Option (Live σ ρ V) :=
  let currentP := ops.currentPlayer st.m.state.state
  match broadcast ops.numPlayers st.m.player0Seat currentP true io.sendTimes st.sendTime
      st.m.state.viewingPlayer with
  | none => none
  | some (sendTime, _) =>
    let state : MatchState σ := { st.m.state with viewingPlayer := currentP }
    let currentSeat := playerToSeat ops.numPlayers st.m.player0Seat currentP
    match readPlayerResponse ops state currentSeat sendTime st.m.errorInfo
        (st.readBuf currentSeat) with
    | .failure _ => none
    | .success action recvTime errorInfo rest =>
      if useJournal = true ∧ io.journalOk = false then none
      else
        some
          { st with
            m := { st.m with
                   errorInfo := errorInfo
                   state := { state with state := ops.doAction action state.state } }
            sendTime := sendTime
            readBuf := Function.update st.readBuf currentSeat rest
            journal :=
              if useJournal = true then
                st.journal ++ [logTransaction ops state.state action sendTime recvTime]
              else st.journal
            history := st.history ++ [(state.state, action)] }

/-- The loop "get values" (lines 834-839): `value[ p ] = valueOfState( ..., p )`
and `totalValue[ playerToSeat( p ) ] += value[ p ]`. -/
def creditPlayers {σ ρ V : Type} [Add V] (ops : GameOps σ ρ V) (player0Seat : Nat) (state : σ)
    (value totalValue : Nat → V) : (Nat → V) × (Nat → V) :=
  (List.range ops.numPlayers).foldl
    (fun acc p =>
      (Function.update acc.1 p (ops.valueOfState state p),
        Function.update acc.2 (playerToSeat ops.numPlayers player0Seat p)
          (acc.2 (playerToSeat ops.numPlayers player0Seat p) + ops.valueOfState state p)))
    (value, totalValue)

/-- The end of a hand (lines 834-879): values, log line, final state to every
seat, `setUpNewHand`.  `none`: the loop returns `-1`. -/
def finishHand {σ ρ V : Type} [Add V] (ops : GameOps σ ρ V) (useLog : Bool) (fixedSeats : Nat)
    (seatName : Nat → List Char) (io : StepInput) (st : Live σ ρ V) : Option (Live σ ρ V) :=
  let c := creditPlayers ops st.m.player0Seat st.m.state.state st.value st.m.totalValue
  if useLog = true ∧ io.logOk = false then none
  else
    match broadcast ops.numPlayers st.m.player0Seat 0 false io.sendTimes st.sendTime
        st.m.state.viewingPlayer with
    | none => none
    | some (_, viewingPlayer) =>
      let r := setUpNewHand ops fixedSeats
        { st.m with
          totalValue := c.2
          state := { st.m.state with viewingPlayer := viewingPlayer } }
      if r.1 < 0 then none
      else
        some
          { st with
            m := r.2
            value := c.1
            log :=
              if useLog = true then
                st.log ++ [addToLogFile ops st.m.state.state c.1 st.m.player0Seat seatName]
              else st.log }

/-- How a run of the match loop ends: it returns `-1`, it is still running
when the steps given to it are used up, or it reaches `finishedGameLoop`
and prints the `SCORE` line. -/
inductive Outcome (σ ρ V : Type) where
  | failed
  | running (st : Live σ ρ V)
  | finished (st : Live σ ρ V) (score : List V × List (List Char))

/-- One pass through the loops of lines 782-882, from the test of the inner
`while`: a finished hand is closed (and the match ends when `handId` reaches
`numHands`), otherwise one turn is played.  Each step uses one `StepInput`; with
no step left the run is still running. -/
def gameLoopFrom {σ ρ V : Type} [Add V] (ops : GameOps σ ρ V) (numHands : Nat)
    (useLog useJournal : Bool) (fixedSeats : Nat) (seatName : Nat → List Char) :
    List StepInput → Live σ ρ V → Outcome σ ρ V
  | [], st => .running st
  | io :: ios, st =>
    if ops.stateFinished st.m.state.state = true then
      match finishHand ops useLog fixedSeats seatName io st with
      | none => .failed
      | some st1 =>
        if st1.m.handId ≥ numHands then
          .finished st1 (printFinalMessage ops seatName st1.m.totalValue)
        else gameLoopFrom ops numHands useLog useJournal fixedSeats seatName ios st1
    else
      match playTurn ops useJournal io st with
      | none => .failed
      | some st1 => gameLoopFrom ops numHands useLog useJournal fixedSeats seatName ios st1

/-- Lines 749-763 of `gameLoop`: hand 0 is set up and dealt, the totals of
the seats are cleared, seat 0 is player 0.  `m` holds the generator and the
`ErrorInfo` passed to `gameLoop` and the uninitialised locals. -/
def startMatch {σ ρ V : Type} [Zero V] (ops : GameOps σ ρ V) (m : Match σ ρ V) :
    Int × Match σ ρ V :=
  let e := checkErrorNewHand ops.numPlayers m.errorInfo
  if e.1 < 0 then (-1, { m with handId := 0, errorInfo := e.2 })
  else
    let d := ops.dealCards m.rng (ops.initState 0 m.state.state)
    (0, { handId := 0
          player0Seat := 0
          rng := d.1
          errorInfo := e.2
          totalValue :=
            (List.range ops.numPlayers).foldl (fun tv seat => Function.update tv seat 0)
              m.totalValue
          state := { m.state with state := d.2 } })

/-- What `gameLoop` is called with, and its uninitialised locals: the number
of hands, the presence of a log file, `fixedSeats`, the seat names, the
version constants of `game.h`, the version line of each seat, the time of
`STARTED`, and in `init` the generator, the `ErrorInfo`, the lines the seats
will send and the locals before their first assignment. -/
structure Config where
  numHands : Nat
  useLog : Bool
  fixedSeats : Nat
  seatName : Nat → List Char
  VERSION_MAJOR : Nat
  VERSION_MINOR : Nat
  versions : Nat → VersionLine
  startTime : Timeval
  loc : ReplayLocals

/-- The function `gameLoop`.  `transactionFile` is `none` for `NULL`, otherwise
the lines the file holds when the function is called; `init` holds the
generator, the `ErrorInfo` and the read buffers passed to the function (its
other fields are the locals before their first assignment). -/
def gameLoop {σ ρ V : Type} [Add V] [Zero V] (ops : GameOps σ ρ V) (cfg : Config)
    (transactionFile : Option (List JournalLine)) (ios : List StepInput) (init : Live σ ρ V) :
    Outcome σ ρ V :=
  if (List.range ops.numPlayers).any
      (fun seat => decide ((checkVersion cfg.VERSION_MAJOR cfg.VERSION_MINOR
        (cfg.versions seat)).1 < 0)) = true then .failed
  else
    let s := startMatch ops init.m
    if s.1 < 0 then .failed
    else
      let r :=
        match transactionFile with
        | none => (0, s.2)
        | some lines => processTransactionFile ops cfg.fixedSeats lines cfg.loc s.2
      if r.1 < 0 then .failed
      else
        let st : Live σ ρ V :=
          { init with
            m := r.2
            sendTime := cfg.startTime
            journal := transactionFile.getD [] }
        if st.m.handId ≥ cfg.numHands then
          .finished st (printFinalMessage ops cfg.seatName st.m.totalValue)
        else
          gameLoopFrom ops cfg.numHands cfg.useLog transactionFile.isSome cfg.fixedSeats
            cfg.seatName ios st

/-- Modelled from the spec: the properties of `game.c` (absent from the
sources) that the match loop relies on - between 1 and 256 players (seats
are `uint8_t`), `initState` stores the hand id it is given and neither
`dealCards` nor `doAction` changes it, a freshly dealt hand is not finished,
the current player of an unfinished hand is a player of the game, and strict
validation (`tryFixing = 0`, the spec's `fixBadSize=false`) rejects an action
rather than change it. -/
structure GameLaws {σ ρ V : Type} (ops : GameOps σ ρ V) : Prop where
  strict_keeps : ∀ s a, (ops.isValidAction s false a).2 = a
  numPlayers_pos : 0 < ops.numPlayers
  numPlayers_le : ops.numPlayers ≤ 256
  handId_initState : ∀ h s, ops.handId (ops.initState h s) = h
  handId_dealCards : ∀ r s, ops.handId (ops.dealCards r s).2 = ops.handId s
  handId_doAction : ∀ a s, ops.handId (ops.doAction a s) = ops.handId s
  fresh_not_finished : ∀ h s r, ops.stateFinished (ops.dealCards r (ops.initState h s)).2 = false
  currentPlayer_lt : ∀ s, ops.stateFinished s = false → ops.currentPlayer s < ops.numPlayers

/-- Every seat of the game is within its hand and match budget. -/
def WithinBudget (numPlayers : Nat) (e : ErrorInfo) : Prop :=
  ∀ seat, seat < numPlayers →
    e.usedHandMicros seat ≤ e.maxUsedHandMicros ∧ e.usedMatchMicros seat ≤ e.maxUsedMatchMicros

/-- The limits are such that no counter can wrap while the checks pass: a
budget plus the longest accepted response fits 64 bits, and the invalid
action limit is the largest `uint32_t` (the only value `main` passes,
`DEFAULT_MAX_INVALID_ACTIONS`). -/
def LimitsFit (e : ErrorInfo) : Prop :=
  e.maxUsedHandMicros + e.maxResponseMicros < 2 ^ 64
    ∧ e.maxUsedMatchMicros + e.maxResponseMicros < 2 ^ 64
    ∧ 2 ^ 32 - 1 ≤ e.maxInvalidActions

/-- The two `ErrorInfo` have the same four limits. -/
def SameLimits (e1 e2 : ErrorInfo) : Prop :=
  e1.maxInvalidActions = e2.maxInvalidActions
    ∧ e1.maxResponseMicros = e2.maxResponseMicros
    ∧ e1.maxUsedHandMicros = e2.maxUsedHandMicros
    ∧ e1.maxUsedMatchMicros = e2.maxUsedMatchMicros

/-- `e2` has the limits of `e1` and has charged every seat of the game at
most as much time. -/
def ChargedLess (numPlayers : Nat) (e1 e2 : ErrorInfo) : Prop :=
  SameLimits e1 e2
    ∧ ∀ seat, seat < numPlayers →
        e2.usedHandMicros seat ≤ e1.usedHandMicros seat
          ∧ e2.usedMatchMicros seat ≤ e1.usedMatchMicros seat

/-- The variables the claim names: `handId`, `player0Seat`, the hand state,
the generator and the totals are the same in `m1` and `m2`. -/
def SameHand {σ ρ V : Type} (m1 m2 : Match σ ρ V) : Prop :=
  m1.handId = m2.handId ∧ m1.player0Seat = m2.player0Seat ∧ m1.state.state = m2.state.state
    ∧ m1.rng = m2.rng ∧ m1.totalValue = m2.totalValue

/-- The variables of the match once the code that closes a finished hand has
run (the totals credited, `setUpNewHand` called); in an unfinished hand, the
variables themselves. -/
def afterHand {σ ρ V : Type} [Add V] (ops : GameOps σ ρ V) (fixedSeats : Nat)
    (m : Match σ ρ V) : Match σ ρ V :=
  if ops.stateFinished m.state.state = true then
    (setUpNewHand ops fixedSeats
      { m with totalValue := creditSeats ops m.player0Seat m.state.state m.totalValue }).2
  else m

/-- Invariant of a live run that journals its actions, relative to the match
`m0` it started from: the hand state carries the dealer's hand id, the
budgets hold, and replaying the journal written so far from `m0` succeeds
and gives the variables of `afterHand`, with at most as much time charged. -/
structure Replayed {σ ρ V : Type} [Add V] (ops : GameOps σ ρ V) (fixedSeats : Nat)
    (loc : ReplayLocals) (m0 : Match σ ρ V) (st : Live σ ρ V) : Prop where
  handId_state : ops.handId st.m.state.state = st.m.handId
  seat_lt : st.m.player0Seat < ops.numPlayers
  budget : WithinBudget ops.numPlayers st.m.errorInfo
  fit : LimitsFit st.m.errorInfo
  replay : ∃ mR, processTransactionFile ops fixedSeats st.journal loc m0 = (0, mR)
    ∧ SameHand (afterHand ops fixedSeats st.m) mR
    ∧ ChargedLess ops.numPlayers (afterHand ops fixedSeats st.m).errorInfo mR.errorInfo

/-- What holds of the variables of the match whenever a hand is in progress,
in the live run and in the replay alike: the hand state carries the dealer's
hand id, player 0 sits at a seat of the game, the budgets hold, and the hand
is not finished. -/
structure HandOpen {σ ρ V : Type} (ops : GameOps σ ρ V) (m : Match σ ρ V) : Prop where
  handId_state : ops.handId m.state.state = m.handId
  seat_lt : m.player0Seat < ops.numPlayers
  budget : WithinBudget ops.numPlayers m.errorInfo
  fit : LimitsFit m.errorInfo
  unfinished : ops.stateFinished m.state.state = false

/-- Relation between an uninterrupted run and a run resumed from its journal:
same hand variables, same lines still to be read, same transaction file, and
the resumed run has charged at most as much time. -/
structure Resumed {σ ρ V : Type} (ops : GameOps σ ρ V) (stU stR : Live σ ρ V) : Prop where
  hand : SameHand stU.m stR.m
  charged : ChargedLess ops.numPlayers stU.m.errorInfo stR.m.errorInfo
  budget : WithinBudget ops.numPlayers stU.m.errorInfo
  fit : LimitsFit stU.m.errorInfo
  seat_lt : stU.m.player0Seat < ops.numPlayers
  readBuf : stU.readBuf = stR.readBuf
  journal : stU.journal = stR.journal

/-- The state a run of the match loop has reached, when it has not failed. -/
def Outcome.state? {σ ρ V : Type} : Outcome σ ρ V → Option (Live σ ρ V)
  | .failed => none
  | .running st => some st
  | .finished st _ => some st

/-- The run is still running. -/
def Outcome.isRunning {σ ρ V : Type} : Outcome σ ρ V → Bool
  | .running _ => true
  | _ => false

/-- The configuration of the example match: two hands, a log file, rotating
seats, agents `A` and `B` of version 2.0.0, start at second 100. -/
def toyConfig : Config :=
  { numHands := 2
    useLog := true
    fixedSeats := 0
    seatName := fun s => if s = 0 then ['A'] else ['B']
    VERSION_MAJOR := 2
    VERSION_MINOR := 0
    versions := fun _ => VersionLine.version 2 0 0
    startTime := ⟨100, 0⟩
    loc := ⟨0, ⟨0, 0⟩, ⟨0, 0⟩⟩ }

/-- The arguments of `gameLoop` in the example match: seed `42`, an `ErrorInfo`
fresh from `initErrorInfo` with the response limit given, and the lines the
two agents send. -/
def toyInit (maxResponseMicros : Nat) : Live (Nat × Nat) Nat Int :=
  { m :=
      { handId := 0
        player0Seat := 0
        rng := 42
        errorInfo :=
          initErrorInfo 10 (2 ^ 32 - 1) maxResponseMicros 1500000 9000000
            ⟨0, 0, 0, 0, fun _ => 0, fun _ => 0, fun _ => 0⟩
        totalValue := fun _ => 0
        state := ⟨(0, 0), 0⟩ }
    sendTime := ⟨0, 0⟩
    value := fun _ => 0
    readBuf := fun s =>
      if s = 0 then
        [(['S', '0', '0', ':', 'c'], ⟨101, 0⟩), (['#'], ⟨102, 0⟩),
          (['S', '1', '1', ':', 'x'], ⟨103, 10⟩)]
      else if s = 1 then
        [(['S', '0', '1', ':', 'r'], ⟨101, 500000⟩), (['S', '0', '0', ':', 'c'], ⟨102, 5⟩),
          (['S', '1', '0', ':', 'f'], ⟨102, 500⟩)]
      else []
    journal := []
    log := []
    history := [] }

/-- The outside world of the example match at second `100 + k`: every send
succeeds, seat `s` is sent to at microsecond `s`, the files can be written. -/
def toyStep (k : Nat) : StepInput :=
  { sendTimes := fun s => some ⟨100 + k, s⟩
    journalOk := true
    logOk := true }

/-- The example match cut after the first hand (two turns and the end of the
hand), with a response limit of one second. -/
def toyCut : Live (Nat × Nat) Nat Int :=
  ((gameLoop toyOps toyConfig (some []) [toyStep 1, toyStep 1, toyStep 2]
    (toyInit 1000000)).state?).getD (toyInit 1000000)

/-- The example match cut one step earlier, right after the action that ends
the first hand was journalled and applied, before the hand is closed. -/
def toyOpen : Live (Nat × Nat) Nat Int :=
  ((gameLoop toyOps toyConfig (some []) [toyStep 1, toyStep 1]
    (toyInit 1000000)).state?).getD (toyInit 1000000)

/-- The hand states of the lines a run has in its log. -/
def Outcome.logStates {σ ρ V : Type} (o : Outcome σ ρ V) : Option (List σ) :=
  o.state?.map (fun st => st.log.map (fun l => l.state))

/-! ## Definitions: a sequence of hands (dealer.c, lines 371-393) -/

/-- The variables of the match after `k` further calls of `setUpNewHand`,
that is `k` hands later. -/
def setUpNewHands {σ ρ V : Type} (ops : GameOps σ ρ V) (fixedSeats : Nat) :
    Nat → Match σ ρ V → Match σ ρ V
  | 0, m => m
  | k + 1, m => setUpNewHands ops fixedSeats k (setUpNewHand ops fixedSeats m).2

/-- The example game with a third player. -/
def toyOps3 : GameOps (Nat × Nat) Nat Int :=
  { toyOps with numPlayers := 3 }

/-- The variables of `gameLoop` at the start of hand 0 of a three-player
example match: `handId = 0`, `player0Seat = 0`. -/
def toyMatch3 : Match (Nat × Nat) Nat Int :=
  { handId := 0
    player0Seat := 0
    rng := 42
    errorInfo :=
      initErrorInfo 10 (2 ^ 32 - 1) 1000000 1500000 9000000
        ⟨0, 0, 0, 0, fun _ => 0, fun _ => 0, fun _ => 0⟩
    totalValue := fun _ => 0
    state := ⟨(0, 0), 0⟩ }

/-! ## Definitions: the values of a log line (dealer.c, lines 570-586, 659-674) -/

/-- The loop `while( line[ c - 1 ] == '0' ) { --c; }` of `addToLogFile` and
`printFinalMessage`, started at index `c`; `line` holds the characters
`line[0 .. c)` printed so far.  At `c = 0` the C code would read `line[ -1 ]`,
outside the array: the model stops there. -/
def dropZeros (line : List Char) : Nat → Nat
  | 0 => 0
  | c + 1 => if line.getD c ' ' = '0' then dropZeros line c else c + 1

/-- The statement `if( line[ c - 1 ] == '.' ) { --c; }` (at `c = 0` the
character read is outside the array and `c` is left as it is). -/
def dropPoint (line : List Char) (c : Nat) : Nat :=
  if 0 < c ∧ line.getD (c - 1) ' ' = '.' then c - 1 else c

/-- Lines 582-585 and 670-673: the text of the line after the two trimming
statements and `line[ c ] = 0`, where `line` is the text up to the end of
the value just printed. -/
def trimValue (line : List Char) : List Char :=
  line.take (dropPoint line (dropZeros line line.length))

/-- A list of decimal digits without its trailing zeros. -/
def stripZeros (fp : List Char) : List Char :=
  (fp.reverse.dropWhile (fun ch => decide (ch = '0'))).reverse

/-- What is left of the fraction `.fp` of a printed value when the zeros at
its end, and then a point left alone, are taken away. -/
def trimmedFraction (fp : List Char) : List Char :=
  if stripZeros fp = [] then [] else '.' :: stripZeros fp

/-- The number a list of decimal digits denotes. -/
def natOfDigits (ds : List Char) : Nat :=
  ds.foldl (fun n d => 10 * n + (d.toNat - 48)) 0

/-- The number an unsigned decimal text denotes, counted in millionths: the
digits before the point, and at most six digits after it. -/
def microsOfUnsigned (u : List Char) : Nat :=
  natOfDigits (u.takeWhile (fun ch => decide (ch ≠ '.'))) * 10 ^ 6
    + natOfDigits
        ((((u.dropWhile (fun ch => decide (ch ≠ '.'))).tail) ++ List.replicate 6 '0').take 6)

/-- The number a decimal text with an optional leading `-` denotes, counted
in millionths. -/
def microsOfText (t : List Char) : Int :=
  if t.head? = some '-' then -(microsOfUnsigned t.tail : Int) else (microsOfUnsigned t : Int)

/-! ## Definitions: the lines read for one response (dealer.c, lines 271-369) -/

/-- The test `line[ 0 ] == '#' || line[ 0 ] == ';'` of `readPlayerResponse`. -/
def isComment (line : List Char) : Bool :=
  decide (line.head? = some '#' ∨ line.head? = some ';')

/-- Lines 333-364 of `readPlayerResponse`: what the function does with a line
whose match state is the state sent; `c` is the number of characters
`readMatchState` consumed and `errorInfo` the `ErrorInfo` after the time
check of the line. -/
def acceptLine {σ ρ V : Type} (ops : GameOps σ ρ V) (state : MatchState σ) (seat : Nat)
    (line : List Char) (c : Nat) (recvTime : Timeval) (rest : List (List Char × Timeval))
    (errorInfo : ErrorInfo) : ReadOutcome :=
  match (if line.getD c (Char.ofNat 0) ≠ ':' then none
          else ops.readAction (line.drop (c + 1))) with
  | none =>
    let e := checkErrorInvalidAction seat errorInfo
    .success ⟨.a_call, 0⟩ recvTime e.2 rest
  | some (_, action) =>
    let v := ops.isValidAction state.state true action
    if v.1 = false then
      let e := checkErrorInvalidAction seat errorInfo
      if e.1 < 0 then .failure e.2
      else .success ⟨.a_call, 0⟩ recvTime e.2 rest
    else .success v.2 recvTime errorInfo rest

/-- The body of the loop of `readPlayerResponse` for one line delivered by
`getLine` at `recvTime`, with what the function does after a `continue`
given as `k`. -/
def responseStep {σ ρ V : Type} (ops : GameOps σ ρ V) (state : MatchState σ) (seat : Nat)
    (sendTime : Timeval) (line : List Char) (recvTime : Timeval)
    (rest : List (List Char × Timeval)) (k : ErrorInfo → ReadOutcome) (errorInfo : ErrorInfo) :
    ReadOutcome :=
  if isComment line = true then k errorInfo
  else
    let t := checkErrorTimes seat sendTime recvTime errorInfo
    if t.1 < 0 then .failure t.2
    else
      match ops.readMatchState line with
      | none => k t.2
      | some (c, tempState) =>
        if ops.matchStatesEqual state tempState = false then k t.2
        else acceptLine ops state seat line c recvTime rest t.2

/-- The time stamp of the response handed back on success. -/
def ReadOutcome.recvTime? : ReadOutcome → Option Timeval
  | .failure _ => none
  | .success _ recvTime _ _ => some recvTime

/-- The lines left unread on success. -/
def ReadOutcome.rest? : ReadOutcome → Option (List (List Char × Timeval))
  | .failure _ => none
  | .success _ _ _ rest => some rest

/-- The same outcome with `f` applied to the lines left unread. -/
def ReadOutcome.mapRest (f : List (List Char × Timeval) → List (List Char × Timeval)) :
    ReadOutcome → ReadOutcome
  | .failure errorInfo => .failure errorInfo
  | .success action recvTime errorInfo rest => .success action recvTime errorInfo (f rest)

/-- The `ErrorInfo` after the time checks `readPlayerResponse` runs on `lines`
for `seat`: one call of `checkErrorTimes` for every line that is not a
comment. -/
def chargeLines (seat : Nat) (sendTime : Timeval) (lines : List (List Char × Timeval))
    (errorInfo : ErrorInfo) : ErrorInfo :=
  lines.foldl
    (fun e l => if isComment l.1 = true then e else (checkErrorTimes seat sendTime l.2 e).2)
    errorInfo

/-- A line `readPlayerResponse` passes over: a comment, a line on which
`readMatchState` fails, or a line whose match state is not the state sent. -/
def ignoredLine {σ ρ V : Type} (ops : GameOps σ ρ V) (state : MatchState σ)
    (line : List Char) : Bool :=
  isComment line ||
    match ops.readMatchState line with
    | none => true
    | some (_, tempState) => !ops.matchStatesEqual state tempState

/-- The test `line[ c++ ] != ':' || ( r = readAction( &line[ c ], game, action ) ) < 0`
of `readPlayerResponse` (lines 334-335): `none` when the action text is
unparseable, otherwise what `readAction` read. -/
def actionText {σ ρ V : Type} (ops : GameOps σ ρ V) (line : List Char) (c : Nat) :
    Option (Nat × Action) :=
  if line.getD c (Char.ofNat 0) ≠ ':' then none else ops.readAction (line.drop (c + 1))

/-- The example of a rejected action: seat 0 is sent the state of hand 0 at
second 100 and answers with a fold, which the example game never allows, five
microseconds later; all counters are zero before the call. -/
def toyRejected : ReadOutcome :=
  readPlayerResponse toyOps ⟨(0, 0), 0⟩ 0 ⟨100, 0⟩
    ⟨2 ^ 32 - 1, 1000000, 1500000, 9000000, fun _ => 0, fun _ => 0, fun _ => 0⟩
    [(['S', '0', '0', ':', 'f'], ⟨100, 5⟩)]

end Dealer

namespace AllIn

/-! ## Definitions: the board enumeration of the rollout (all_in_expectation.c, lines 137-185) -/

/-- The two arrays the enumeration writes: `used`, reused "as the index into
deck[]" (an array of `uint8_t`), and `state.boardCards`. -/
structure Cursor where
  used : Nat → Nat
  boardCards : Nat → Nat

/-- The pair of statements `used[ i ] = v; state.boardCards[ bcStart + i ] = deck[ used[ i ] ];`
(`v` is the value already reduced to a `uint8_t`). -/
def storeIndex (deck : Nat → Nat) (bcStart : Nat) (c : Cursor) (i v : Nat) : Cursor :=
  { used := Function.update c.used i v
    boardCards := Function.update c.boardCards (bcStart + i) (deck v) }

/-- The loop of lines 142-146: `used[ i ] = deckSize - numCards + i` for
`i < numCards`; the `int` value is stored in a `uint8_t`. -/
def initBoard (deck : Nat → Nat) (deckSize bcStart numCards : Nat) (c : Cursor) : Cursor :=
  (List.range numCards).foldl
    (fun c i => storeIndex deck bcStart c i
      ((((deckSize : Int) - (numCards : Int) + (i : Int)) % 256).toNat)) c

/-- The scan `while( used[ i ] == i && i < numCards ) ++i`, started at `i`
with `k = numCards - i` positions left. -/
def firstDecrementableFrom (used : Nat → Nat) : Nat → Nat → Nat
  | 0, i => i
  | k + 1, i => if used i = i then firstDecrementableFrom used k (i + 1) else i

/-- The value of `i` after `i = 0; while( used[ i ] == i && i < numCards ) ++i`. -/
def firstDecrementable (used : Nat → Nat) (numCards : Nat) : Nat :=
  firstDecrementableFrom used numCards 0

/-- The loop of lines 178-184: `while( i > 0 ) { --i; used[ i ] = used[ i + 1 ] - 1; ... }`;
the `int` value `used[ i + 1 ] - 1` is stored in a `uint8_t`. -/
def refill (deck : Nat → Nat) (bcStart : Nat) : Nat → Cursor → Cursor
  | 0, c => c
  | i + 1, c =>
    refill deck bcStart i (storeIndex deck bcStart c i ((c.used (i + 1) + 255) % 256))

/-- Lines 161-184, "move on to the next board": `none` is the `break`. -/
def nextBoard (deck : Nat → Nat) (bcStart numCards : Nat) (c : Cursor) : Option Cursor :=
  let i := firstDecrementable c.used numCards
  if i = numCards then none
  else
    some (refill deck bcStart i (storeIndex deck bcStart c i ((c.used i + 255) % 256)))

/-- What one evaluation of the board sees: the index vector `used[0..numCards)`
and the board slots `boardCards[bcStart .. bcStart + numCards)`. -/
def snapshot (bcStart numCards : Nat) (c : Cursor) : List Nat × List Nat :=
  ((List.range numCards).map c.used,
    (List.range numCards).map (fun i => c.boardCards (bcStart + i)))

/-- The statement `++numBoards` on an `int` (32-bit two's complement). -/
def incrInt (n : Int) : Int := (n + 1 + 2 ^ 31) % 2 ^ 32 - 2 ^ 31

/-- The loop `while( 1 )` of lines 150-185, run for at most `fuel` iterations
(`none`: out of fuel).  Returns the final `numBoards` and the list of the
boards evaluated, in order. -/
def rolloutLoop (deck : Nat → Nat) (bcStart numCards : Nat) :
    Nat → Cursor → Int → Option (Int × List (List Nat × List Nat))
  | 0, _, _ => none
  | fuel + 1, c, numBoards =>
    match nextBoard deck bcStart numCards c with
    | none => some (incrInt numBoards, [snapshot bcStart numCards c])
    | some c1 =>
      (rolloutLoop deck bcStart numCards fuel c1 (incrInt numBoards)).map
        (fun r => (r.1, snapshot bcStart numCards c :: r.2))

/-- Position of an index function in the enumeration, counted from the end:
the sum of `C(used[i], i + 1)`. -/
def rank (used : Nat → Nat) (numCards : Nat) : Nat :=
  ∑ i in Finset.range numCards, (used i).choose (i + 1)

/-- The same sum for an index vector given as a list. -/
def rankVec (v : List Nat) : Nat :=
  ∑ i in Finset.range v.length, (v.getD i 0).choose (i + 1)

/-- Invariant of the enumeration: the indices are below `deckSize`, strictly
increasing, and every board slot holds the deck card of its index. -/
structure CursorInv (deck : Nat → Nat) (deckSize bcStart numCards : Nat) (c : Cursor) :
    Prop where
  lt : ∀ i, i < numCards → c.used i < deckSize
  mono : ∀ i, i + 1 < numCards → c.used i < c.used (i + 1)
  board : ∀ i, i < numCards → c.boardCards (bcStart + i) = deck (c.used i)

/-- An index vector that names a `numCards`-element subset of the deck
positions `0 .. deckSize - 1`: strictly increasing, of length `numCards`,
all entries below `deckSize`. -/
def ValidIndices (deckSize numCards : Nat) (v : List Nat) : Prop :=
  v.length = numCards ∧ v.Sorted (· < ·) ∧ ∀ x ∈ v, x < deckSize

/-! ## Definitions: the deck of the rollout (all_in_expectation.c, lines 21-46, 125-135) -/

/-- Modelled from the spec: the fields of the struct `Game` of `game.h` that
the rollout reads (`numSuits`, `numRanks`, `numPlayers`, `numHoleCards`,
`numRounds`, `numBoardCards[r]`). -/
structure Game where
  numSuits : Nat
  numRanks : Nat
  numPlayers : Nat
  numHoleCards : Nat
  numRounds : Nat
  numBoardCards : Nat → Nat

/-- Modelled from the spec: the fields of the struct `State` of `game.h` that
the rollout reads (`round`, `numActions[r]`, `holeCards[p][i]`,
`boardCards[i]`). -/
structure State where
  round : Nat
  numActions : Nat → Nat
  holeCards : Nat → Nat → Nat
  boardCards : Nat → Nat

/-- Modelled from the spec: the function `sumBoardCards` of `game.c`, the number
of board cards dealt in rounds `0 .. round` (the spec's
`Σ numBoardCards[≤round]`). -/
def sumBoardCards (game : Game) (round : Nat) : Nat :=
  ((List.range (round + 1)).map game.numBoardCards).sum

/-- The function `getUsedCards`: the `memset` of the first
`numSuits * numRanks` entries, then the two marking loops. -/
def getUsedCards (game : Game) (state : State) (lastRound : Nat) (used : Nat → Nat) :
    Nat → Nat :=
  let used0 : Nat → Nat := fun c => if c < game.numSuits * game.numRanks then 0 else used c
  let used1 : Nat → Nat :=
    (List.range game.numPlayers).foldl
      (fun u p =>
        (List.range game.numHoleCards).foldl
          (fun u i => Function.update u (state.holeCards p i) 1) u)
      used0
  (List.range (sumBoardCards game lastRound)).foldl
    (fun u i => Function.update u (state.boardCards i) 1) used1

/-- The loop of lines 127-135: `deck[ deckSize ] = i; ++deckSize` for every
`i` with `!used[ i ]` (`deck` is an array of `uint8_t`).  Returns `deck` and
`deckSize`. -/
def buildDeck (game : Game) (used : Nat → Nat) (deck : Nat → Nat) : (Nat → Nat) × Nat :=
  (List.range (game.numSuits * game.numRanks)).foldl
    (fun (d : (Nat → Nat) × Nat) i =>
      if used i = 0 then (Function.update d.1 d.2 (i % 256), d.2 + 1) else d)
    (deck, 0)

/-- The cards the claim calls used: the hole cards of every player, then the
board cards dealt up to and including round `r`. -/
def usedCards (game : Game) (state : State) (r : Nat) : List Nat :=
  (List.range game.numPlayers).flatMap
      (fun p => (List.range game.numHoleCards).map (state.holeCards p))
    ++ (List.range (sumBoardCards game r)).map state.boardCards

/-! ## Definitions: which hands are rolled out (all_in_expectation.c, lines 88-146) -/

/-- The functions of `game.c` that the main loop of the rollout calls on a
line of the log (absent from the sources).  `τ` is the whole struct `State`
of `game.h`; `view` gives the fields of it that the rollout reads itself.
`readState` returns `none` where the C function returns a negative number,
otherwise the number of characters consumed and the state read. -/
structure LineOps (τ : Type) where
  readState : List Char → Option (Nat × τ)
  numAllIn : τ → Nat
  numFolded : τ → Nat
  view : τ → State

/-- The loop of lines 106-113, `for( r = state.round; r > 0; --r )` with a
`break` at the first `r` that has `state.numActions[ r ]` non-zero: the value
of `r` after the loop, when it is started at `r`. -/
def lastActionRound (state : State) : Nat → Nat
  | 0 => 0
  | r + 1 => if state.numActions (r + 1) ≠ 0 then r + 1 else lastActionRound state r

/-- What the main loop does with one line: nothing (the line holds no state),
`printf( "%s", line )`, or the rollout from round `r`, for which lines 125-141
have set up `deck`, `deckSize`, `bcStart` and `numCards`. -/
inductive LineOutcome where
  | skipped
  | echoed (text : List Char)
  | rolledOut (r : Nat) (deck : Nat → Nat) (deckSize bcStart : Nat) (numCards : Int)

/-- The hand of the line is rolled out. -/
def LineOutcome.isRollout : LineOutcome → Bool
  | .rolledOut _ _ _ _ _ => true
  | _ => false

/-- The text printed for a line that is not rolled out. -/
def LineOutcome.text? : LineOutcome → Option (List Char)
  | .echoed text => some text
  | _ => none

/-- Lines 91-141 of `main` for one `line` of the log; `used` and `deck` are
the two arrays as the previous line left them.  `sumBoardCards( game, -1 )`,
asked for when the game has no round, is the empty sum. -/
def processLine {τ : Type} (game : Game) (ops : LineOps τ) (used deck : Nat → Nat)
    (line : List Char) : LineOutcome :=
  match ops.readState line with
  | none => .skipped
  | some (_, state) =>
    if ops.numAllIn state = 0 ∨ ops.numFolded state + 1 ≥ game.numPlayers then .echoed line
    else
      let r := lastActionRound (ops.view state) (ops.view state).round
      if r + 1 = game.numRounds then .echoed line
      else
        let d := buildDeck game (getUsedCards game (ops.view state) r used) deck
        let bcStart := sumBoardCards game r
        let total := if game.numRounds = 0 then 0 else sumBoardCards game (game.numRounds - 1)
        .rolledOut r d.1 d.2 bcStart ((total : Int) - (bcStart : Int))

/-- A small instance of the parameters: a line is a letter `H` followed by
four digits - the number of players all-in, the number of players folded,
the round of the state and the last round with an action; the hole cards are
cards 0 and 1, the board is cards 2, 3, 4. -/
def toyLineOps : LineOps (State × Nat × Nat) where
  readState := fun line =>
    match line with
    | 'H' :: a :: f :: r :: l :: _ =>
      some (5,
        (⟨r.toNat - 48, fun ρ => if ρ = l.toNat - 48 then 1 else 0,
            fun p _ => p, fun i => 2 + i⟩,
          a.toNat - 48, f.toNat - 48))
    | _ => none
  numAllIn := fun s => s.2.1
  numFolded := fun s => s.2.2
  view := fun s => s.1

/-- The example game of the rollout: six cards, two players with one hole card
each, two rounds, one board card dealt in the second round. -/
def toyGame : Game := ⟨2, 3, 2, 1, 2, fun r => if r = 1 then 1 else 0⟩

/-- The round `r` from which a rolled out hand is completed. -/
def LineOutcome.round? : LineOutcome → Option Nat
  | .rolledOut r _ _ _ _ => some r
  | _ => none

/-- The values of `bcStart` and `numCards` of a rolled out hand. -/
def LineOutcome.slots? : LineOutcome → Option (Nat × Int)
  | .rolledOut _ _ _ bcStart numCards => some (bcStart, numCards)
  | _ => none

/-- The arrays `used` and `state.boardCards` at each evaluation of the board
in the loop `while( 1 )` of lines 150-185, in order, for at most `fuel`
iterations. -/
def boardsFrom (deck : Nat → Nat) (bcStart numCards : Nat) : Nat → Cursor → List Cursor
  | 0, _ => []
  | fuel + 1, c =>
    match nextBoard deck bcStart numCards c with
    | none => [c]
    | some c1 => c :: boardsFrom deck bcStart numCards fuel c1

/-- Lines 124-185 for a state rolled out from round `r` with `numCards` cards:
`getUsedCards`, the deck, `bcStart`, the loop of lines 142-146 on the arrays
`used` and `state.boardCards`, and then the arrays at each evaluation of the
board. -/
def rolloutBoards (game : Game) (state : State) (r numCards : Nat) (used deck : Nat → Nat)
    (fuel : Nat) : List Cursor :=
  boardsFrom (buildDeck game (getUsedCards game state r used) deck).1 (sumBoardCards game r)
    numCards fuel
    (initBoard (buildDeck game (getUsedCards game state r used) deck).1
      (buildDeck game (getUsedCards game state r used) deck).2 (sumBoardCards game r) numCards
      ⟨getUsedCards game state r used, state.boardCards⟩)

/-- A second example game of the rollout: six cards, two players with one hole
card each, three rounds, one board card dealt in each of the rounds 1 and 2. -/
def toyGame3 : Game := ⟨2, 3, 2, 1, 3, fun r => if r = 0 then 0 else 1⟩

/-- A state of `toyGame3` in round 0: the players hold cards 4 and 1, no board
card is dealt (the board array holds card 3 in every slot). -/
def toyState : State := ⟨0, fun _ => 1, fun p _ => if p = 0 then 4 else 1, fun _ => 3⟩

end AllIn

namespace Net

/-! ## Definitions: reading a line from a socket (net.c, lines 36-127) -/

/-- Modelled from the spec: the struct `ReadBuf` of `net.h` (absent from the
sources), as `getLine` uses it - the bytes `buf` of the last `read`, and the
indices `bufStart`, `bufEnd` of the bytes of it not yet handed out. -/
structure ReadBuf where
  buf : List Char
  bufStart : Nat
  bufEnd : Nat
deriving DecidableEq, Repr

/-- What the outside world does when `getLine` finds its buffer empty: `now`
is what `gettimeofday` returns, `ready` whether `select` returns at least 1,
and `data` the result of `read` - `none` for a negative number, otherwise the
bytes delivered (at most `READBUF_LEN`, none at the end of the input). -/
structure Poll where
  now : Dealer.Timeval
  ready : Bool
  data : Option (List Char)
deriving DecidableEq, Repr

/-- Lines 68-79: the value of the `uint64_t timeLeft` handed to `select`.
The `long` of the elapsed time is converted to `uint64_t` and subtracted
modulo `2 ^ 64`; the test `timeLeft < 0` is made on the unsigned value. -/
def timeLeft (timeoutMicros : Int) (haveStartTime : Bool) (start now : Dealer.Timeval) : Nat :=
  let t0 := (timeoutMicros % 2 ^ 64).toNat
  if haveStartTime = true then
    let elapsed :=
      (((now.tv_sec - start.tv_sec) * 1000000 + (now.tv_usec - start.tv_usec)) % 2 ^ 64).toNat
    let t1 := (t0 + 2 ^ 64 - elapsed) % 2 ^ 64
    if t1 < 0 then 0 else t1
  else t0

/-- How lines 63-111 end when the buffer is empty: no event is left in the
model, `return -1`, the `break` at the end of the input, or a buffer with
data. -/
inductive Fill where
  | blocked
  | fail (readBuf : ReadBuf) (polls : List Poll) (waits : List Nat)
  | eof (readBuf : ReadBuf) (polls : List Poll) (waits : List Nat)
  | ok (haveStartTime : Bool) (start : Dealer.Timeval) (readBuf : ReadBuf) (polls : List Poll)
      (waits : List Nat)

/-- Lines 63-111 of `getLine`: with data in the buffer nothing is done;
otherwise, when `timeoutMicros` is not negative, `select` is called with
`timeLeft` (added to `waits`), and then `read`. -/
def fillBuffer (timeoutMicros : Int) (haveStartTime : Bool) (start : Dealer.Timeval)
    (readBuf : ReadBuf) (polls : List Poll) (waits : List Nat) : Fill :=
  if readBuf.bufStart ≥ readBuf.bufEnd then
    match polls with
    | [] => .blocked
    | p :: ps =>
      let waits1 :=
        if timeoutMicros ≥ 0 then waits ++ [timeLeft timeoutMicros haveStartTime start p.now]
        else waits
      if timeoutMicros ≥ 0 ∧ p.ready = false then .fail readBuf ps waits1
      else
        let start1 := if timeoutMicros ≥ 0 ∧ haveStartTime = false then p.now else start
        let have1 := if timeoutMicros ≥ 0 then true else haveStartTime
        match p.data with
        | none => .fail { readBuf with bufStart := 0, bufEnd := 0 } ps waits1
        | some bytes =>
          if bytes.length = 0 then .eof { buf := bytes, bufStart := 0, bufEnd := 0 } ps waits1
          else .ok have1 start1 { buf := bytes, bufStart := 0, bufEnd := bytes.length } ps waits1
  else .ok haveStartTime start readBuf polls waits

/-- What a call of `getLine` leaves: the value returned, the characters
written to `line[0 ..]` before the terminator (also when the call returns
`-1`), the `ReadBuf`, the events not used and - a ghost - the values of
`timeLeft` handed to `select`. -/
structure LineResult where
  code : Int
  line : List Char
  readBuf : ReadBuf
  polls : List Poll
  waits : List Nat
deriving DecidableEq, Repr

/-- The loop `while( len < maxLen )` of `getLine`, with `fuel = maxLen - len`
iterations left; `line` holds the `len` characters copied so far.  `none`:
the model has no event left for an empty buffer. -/
def getLineLoop (timeoutMicros : Int) :
    Nat → Bool → Dealer.Timeval → ReadBuf → List Poll → List Char → List Nat → Option LineResult
  | 0, _, _, readBuf, polls, line, waits => some ⟨line.length, line, readBuf, polls, waits⟩
  | fuel + 1, haveStartTime, start, readBuf, polls, line, waits =>
    match fillBuffer timeoutMicros haveStartTime start readBuf polls waits with
    | .blocked => none
    | .fail rb ps ws => some ⟨-1, line, rb, ps, ws⟩
    | .eof rb ps ws => some ⟨line.length, line, rb, ps, ws⟩
    | .ok have1 start1 rb ps ws =>
      let c := rb.buf.getD rb.bufStart (Char.ofNat 0)
      let rb1 : ReadBuf := { rb with bufStart := rb.bufStart + 1 }
      if c = Char.ofNat 10 then some ⟨line.length + 1, line ++ [c], rb1, ps, ws⟩
      else getLineLoop timeoutMicros fuel have1 start1 rb1 ps (line ++ [c]) ws

/-- The function `getLine`.  `maxLen` is a `size_t` (64 bits): `--maxLen`
gives `2 ^ 64 - 1` at 0, and the test `maxLen < 0` is made on the unsigned
value.  `start` is not initialised; its uses are guarded by
`haveStartTime`. -/
def getLine (readBuf : ReadBuf) (maxLen : Nat) (timeoutMicros : Int) (polls : List Poll) :
    Option LineResult :=
  let maxLen1 := if maxLen = 0 then 2 ^ 64 - 1 else maxLen - 1
  if maxLen1 < 0 then some ⟨-1, [], readBuf, polls, []⟩
  else getLineLoop timeoutMicros maxLen1 false ⟨0, 0⟩ readBuf polls [] []

/-- What the outside world does during a call of `getListenSocket`: what
`socket` returns (`none` for a negative number), for each call of `bind` in
turn the value `random()` returned before it (not used when a port was asked
for) and whether the call succeeds, and whether `listen` succeeds. -/
structure SocketEnv where
  sock : Option Nat
  binds : List (Nat × Bool)
  listenOk : Bool

/-- What a call of `getListenSocket` leaves: the value returned, the value of
`*desiredPort`, and - a ghost - the ports `bind` was called with, in order. -/
structure ListenResult where
  code : Int
  desiredPort : Nat
  ports : List Nat
deriving DecidableEq, Repr

/-- The loop `while( 1 )` of lines 190-208, entered with the counter `t`
and `*desiredPort = port`; `NUM_PORT_CREATION_ATTEMPTS` is the constant of
`net.h` (absent from the sources).  Returns whether the loop was left by
`break` (`false`: by `return -1`), `*desiredPort` and the ports tried; `none`
when the model has no outcome left for a call of `bind`. -/
def bindLoop (NUM_PORT_CREATION_ATTEMPTS : Nat) :
    Nat → Nat → List (Nat × Bool) → List Nat → Option (Bool × Nat × List Nat)
  | _, _, [], _ => none
  | t, _, (rnd, ok) :: rest, tried =>
    let port1 := rnd % 64512 + 1024
    if ok = true then some (true, port1, tried ++ [port1])
    else if t < NUM_PORT_CREATION_ATTEMPTS then
      bindLoop NUM_PORT_CREATION_ATTEMPTS (t + 1) port1 rest (tried ++ [port1])
    else some (false, port1, tried ++ [port1])

/-- The function `getListenSocket`; `desiredPort` is the value of
`*desiredPort` at the call. -/
def getListenSocket (NUM_PORT_CREATION_ATTEMPTS : Nat) (desiredPort : Nat) (env : SocketEnv) :
    Option ListenResult :=
  match env.sock with
  | none => some ⟨-1, desiredPort, []⟩
  | some sock =>
    if desiredPort ≠ 0 then
      match env.binds with
      | [] => none
      | (_, ok) :: _ =>
        if ok = false then some ⟨-1, desiredPort, [desiredPort]⟩
        else if env.listenOk = false then some ⟨-1, desiredPort, [desiredPort]⟩
        else some ⟨sock, desiredPort, [desiredPort]⟩
    else
      match bindLoop NUM_PORT_CREATION_ATTEMPTS 0 desiredPort env.binds [] with
      | none => none
      | some (bound, port, tried) =>
        if bound = false then some ⟨-1, port, tried⟩
        else if env.listenOk = false then some ⟨-1, port, tried⟩
        else some ⟨sock, port, tried⟩

end Net

namespace Dealer

/-! ## Theorems: time and invalid-action budgets -/

theorem checkErrorNewHand_fold_limits (l : List Nat) (info : ErrorInfo) :
    (l.foldl checkErrorNewHandSeat info).maxInvalidActions = info.maxInvalidActions
    ∧ (l.foldl checkErrorNewHandSeat info).maxResponseMicros = info.maxResponseMicros
    ∧ (l.foldl checkErrorNewHandSeat info).maxUsedHandMicros = info.maxUsedHandMicros
    ∧ (l.foldl checkErrorNewHandSeat info).maxUsedMatchMicros = info.maxUsedMatchMicros
    ∧ (l.foldl checkErrorNewHandSeat info).numInvalidActions = info.numInvalidActions
    ∧ (l.foldl checkErrorNewHandSeat info).usedMatchMicros = info.usedMatchMicros := by
  induction l generalizing info with
  | nil => simp
  | cons a l ih =>
    simp only [List.foldl_cons]
    obtain ⟨h1, h2, h3, h4, h5, h6⟩ := ih (checkErrorNewHandSeat info a)
    exact ⟨h1, h2, h3, h4, h5, h6⟩

theorem checkErrorNewHand_fold_hand (l : List Nat) (info : ErrorInfo) (p : Nat) :
    (l.foldl checkErrorNewHandSeat info).usedHandMicros p
      = if p ∈ l then 0 else info.usedHandMicros p := by
  induction l generalizing info with
  | nil => simp
  | cons a l ih =>
    simp only [List.foldl_cons, ih, List.mem_cons]
    by_cases hl : p ∈ l
    · simp [hl]
    · by_cases hp : p = a
      · subst hp
        simp [hl, checkErrorNewHandSeat]
      · simp [hl, hp, checkErrorNewHandSeat, Function.update_noteq hp]

theorem responseMicros_exact (sendTime recvTime : Timeval)
    (h0 : 0 ≤ (recvTime.tv_sec - sendTime.tv_sec) * 1000000
            + recvTime.tv_usec - sendTime.tv_usec)
    (h1 : (recvTime.tv_sec - sendTime.tv_sec) * 1000000
            + recvTime.tv_usec - sendTime.tv_usec < 2 ^ 64) :
    (responseMicros sendTime recvTime : Int)
      = (recvTime.tv_sec - sendTime.tv_sec) * 1000000
          + recvTime.tv_usec - sendTime.tv_usec := by
  unfold responseMicros
  rw [Int.emod_eq_of_lt h0 h1]
  exact Int.toNat_of_nonneg h0

theorem checkErrorTimes_info (seat : Nat) (sendTime recvTime : Timeval) (info : ErrorInfo)
    (h : ¬ (recvTime.tv_sec < sendTime.tv_sec
        ∨ (recvTime.tv_sec = sendTime.tv_sec ∧ recvTime.tv_usec < sendTime.tv_usec))) :
    (checkErrorTimes seat sendTime recvTime info).2
      = { info with
          usedHandMicros :=
            Function.update info.usedHandMicros seat
              ((info.usedHandMicros seat + responseMicros sendTime recvTime) % 2 ^ 64)
          usedMatchMicros :=
            Function.update info.usedMatchMicros seat
              ((info.usedMatchMicros seat + responseMicros sendTime recvTime) % 2 ^ 64) } := by
  unfold checkErrorTimes
  rw [if_neg h]
  simp only
  split_ifs <;> rfl

theorem checkErrorTimes_recv_before_send_aux (seat : Nat) (sendTime recvTime : Timeval)
    (info : ErrorInfo)
    (h : recvTime.tv_sec < sendTime.tv_sec
        ∨ (recvTime.tv_sec = sendTime.tv_sec ∧ recvTime.tv_usec < sendTime.tv_usec)) :
    checkErrorTimes seat sendTime recvTime info = (0, info) := by
  unfold checkErrorTimes
  rw [if_pos h]

theorem checkErrorInvalidAction_info (seat : Nat) (info : ErrorInfo) :
    (checkErrorInvalidAction seat info).2
      = { info with
          numInvalidActions :=
            Function.update info.numInvalidActions seat
              ((info.numInvalidActions seat + 1) % 2 ^ 32) } := by
  unfold checkErrorInvalidAction
  simp only
  split_ifs <;> rfl

theorem checkErrorTimes_code (seat : Nat) (sendTime recvTime : Timeval) (info : ErrorInfo)
    (h : ¬ (recvTime.tv_sec < sendTime.tv_sec
        ∨ (recvTime.tv_sec = sendTime.tv_sec ∧ recvTime.tv_usec < sendTime.tv_usec))) :
    (checkErrorTimes seat sendTime recvTime info).1
      = if responseMicros sendTime recvTime > info.maxResponseMicros then -1
        else if (info.usedHandMicros seat + responseMicros sendTime recvTime) % 2 ^ 64
            > info.maxUsedHandMicros then -1
        else if (info.usedMatchMicros seat + responseMicros sendTime recvTime) % 2 ^ 64
            > info.maxUsedMatchMicros then -1
        else 0 := by
  unfold checkErrorTimes
  rw [if_neg h]
  simp only [Function.update_same]
  split_ifs <;> rfl

/-- C4: when the receive time is not earlier than the send time,
`checkErrorTimes` adds `responseMicros` (the value of
`(recv.sec - send.sec) * 1000000 + recv.usec - send.usec` as a `uint64_t`) to the
hand and match counters of the seat, and fails exactly when the response time
or one of the two updated counters is strictly above its limit; for
timestamps with microseconds in `[0, 1000000)` whose distance fits 64 bits the
charged value is the exact difference. -/
theorem checkErrorTimes_charges_and_checks (seat : Nat) (sendTime recvTime : Timeval)
    (info : ErrorInfo)
    (h : ¬ (recvTime.tv_sec < sendTime.tv_sec
        ∨ (recvTime.tv_sec = sendTime.tv_sec ∧ recvTime.tv_usec < sendTime.tv_usec))) :
    (checkErrorTimes seat sendTime recvTime info).2.usedHandMicros seat
        = (info.usedHandMicros seat + responseMicros sendTime recvTime) % 2 ^ 64
    ∧ (checkErrorTimes seat sendTime recvTime info).2.usedMatchMicros seat
        = (info.usedMatchMicros seat + responseMicros sendTime recvTime) % 2 ^ 64
    ∧ ((checkErrorTimes seat sendTime recvTime info).1 = -1 ↔
        (responseMicros sendTime recvTime > info.maxResponseMicros
          ∨ (checkErrorTimes seat sendTime recvTime info).2.usedHandMicros seat
              > info.maxUsedHandMicros
          ∨ (checkErrorTimes seat sendTime recvTime info).2.usedMatchMicros seat
              > info.maxUsedMatchMicros))
    ∧ ((checkErrorTimes seat sendTime recvTime info).1 = 0 ↔
        (responseMicros sendTime recvTime ≤ info.maxResponseMicros
          ∧ (checkErrorTimes seat sendTime recvTime info).2.usedHandMicros seat
              ≤ info.maxUsedHandMicros
          ∧ (checkErrorTimes seat sendTime recvTime info).2.usedMatchMicros seat
              ≤ info.maxUsedMatchMicros))
    ∧ (0 ≤ sendTime.tv_usec → sendTime.tv_usec < 1000000 →
        0 ≤ recvTime.tv_usec → recvTime.tv_usec < 1000000 →
        (recvTime.tv_sec - sendTime.tv_sec) * 1000000
            + recvTime.tv_usec - sendTime.tv_usec < 2 ^ 64 →
        (responseMicros sendTime recvTime : Int)
          = (recvTime.tv_sec - sendTime.tv_sec) * 1000000
              + recvTime.tv_usec - sendTime.tv_usec) := by
  have hinfo := checkErrorTimes_info seat sendTime recvTime info h
  have hcode := checkErrorTimes_code seat sendTime recvTime info h
  refine ⟨by rw [hinfo]; simp, by rw [hinfo]; simp, ?_, ?_, ?_⟩
  · rw [hinfo, hcode]
    simp only [Function.update_same]
    generalize responseMicros sendTime recvTime = r
    generalize (info.usedHandMicros seat + r) % 2 ^ 64 = a
    generalize (info.usedMatchMicros seat + r) % 2 ^ 64 = b
    split_ifs with h1 h2 h3
    · simp [h1]
    · simp [h2]
    · simp [h3]
    · simp only [gt_iff_lt, not_lt] at h1 h2 h3
      constructor
      · intro hc; simp at hc
      · rintro (hc | hc | hc) <;> omega
  · rw [hinfo, hcode]
    simp only [Function.update_same]
    generalize responseMicros sendTime recvTime = r
    generalize (info.usedHandMicros seat + r) % 2 ^ 64 = a
    generalize (info.usedMatchMicros seat + r) % 2 ^ 64 = b
    split_ifs with h1 h2 h3
    · constructor
      · intro hc; simp at hc
      · rintro ⟨hc, -, -⟩; omega
    · constructor
      · intro hc; simp at hc
      · rintro ⟨-, hc, -⟩; omega
    · constructor
      · intro hc; simp at hc
      · rintro ⟨-, -, hc⟩; omega
    · simp only [gt_iff_lt, not_lt] at h1 h2 h3
      simp [h1, h2, h3]
  · intro hs0 hs1 hr0 hr1 hlt
    apply responseMicros_exact _ _ _ hlt
    have hsec : sendTime.tv_sec ≤ recvTime.tv_sec := by
      by_contra hc
      exact h (Or.inl (by omega))
    by_cases heq : recvTime.tv_sec = sendTime.tv_sec
    · have : sendTime.tv_usec ≤ recvTime.tv_usec := by
        by_contra hc
        exact h (Or.inr ⟨heq, by omega⟩)
      rw [heq]; omega
    · have : sendTime.tv_sec + 1 ≤ recvTime.tv_sec := by omega
      nlinarith

/-- Witness of C4: a response of 2.5 s with limits 3 s / 3 s / 2 s is charged 2500000
microseconds and fails on the match budget only. -/
theorem checkErrorTimes_charges_and_checks_witness :
    (checkErrorTimes 1 ⟨10, 600000⟩ ⟨13, 100000⟩
        ⟨0, 3000000, 3000000, 2000000, fun _ => 0, fun _ => 0, fun _ => 0⟩).2.usedHandMicros 1
      = 2500000
    ∧ (checkErrorTimes 1 ⟨10, 600000⟩ ⟨13, 100000⟩
        ⟨0, 3000000, 3000000, 2000000, fun _ => 0, fun _ => 0, fun _ => 0⟩).1 = -1 := by
  have h := checkErrorTimes_charges_and_checks 1 ⟨10, 600000⟩ ⟨13, 100000⟩
    ⟨0, 3000000, 3000000, 2000000, fun _ => 0, fun _ => 0, fun _ => 0⟩ (by decide)
  refine ⟨?_, ?_⟩
  · rw [h.1]; decide
  · rw [h.2.2.1]; decide

/-- C5: when the receive timestamp precedes the send timestamp, `checkErrorTimes`
returns success and the whole `ErrorInfo` is returned as it was. -/
theorem checkErrorTimes_recv_before_send (seat : Nat) (sendTime recvTime : Timeval)
    (info : ErrorInfo)
    (h : recvTime.tv_sec < sendTime.tv_sec
        ∨ (recvTime.tv_sec = sendTime.tv_sec ∧ recvTime.tv_usec < sendTime.tv_usec)) :
    checkErrorTimes seat sendTime recvTime info = (0, info) := by
  unfold checkErrorTimes
  rw [if_pos h]

/-- Witness of C5: same second, receive 7 microseconds before the send, with
all budgets already exhausted. -/
theorem checkErrorTimes_recv_before_send_witness :
    checkErrorTimes 0 ⟨5, 10⟩ ⟨5, 3⟩ ⟨0, 0, 0, 0, fun _ => 9, fun _ => 9, fun _ => 9⟩
      = (0, ⟨0, 0, 0, 0, fun _ => 9, fun _ => 9, fun _ => 9⟩) :=
  checkErrorTimes_recv_before_send 0 ⟨5, 10⟩ ⟨5, 3⟩
    ⟨0, 0, 0, 0, fun _ => 9, fun _ => 9, fun _ => 9⟩ (by decide)

/-- C8: `checkErrorInvalidAction` replaces `numInvalidActions[seat]` by its
successor modulo `2 ^ 32`, leaves every other field and every other seat as
they were, and fails exactly when the new count is above
`maxInvalidActions`. -/
theorem checkErrorInvalidAction_spec (seat : Nat) (info : ErrorInfo) :
    (checkErrorInvalidAction seat info).2
        = { info with
            numInvalidActions :=
              Function.update info.numInvalidActions seat
                ((info.numInvalidActions seat + 1) % 2 ^ 32) }
    ∧ ((checkErrorInvalidAction seat info).1 = -1 ↔
        (info.numInvalidActions seat + 1) % 2 ^ 32 > info.maxInvalidActions)
    ∧ ((checkErrorInvalidAction seat info).1 = 0 ↔
        (info.numInvalidActions seat + 1) % 2 ^ 32 ≤ info.maxInvalidActions) := by
  unfold checkErrorInvalidAction
  simp only [Function.update_same]
  generalize (info.numInvalidActions seat + 1) % 2 ^ 32 = n
  split_ifs with h1
  · refine ⟨rfl, by simp [h1], ?_⟩
    constructor
    · intro hc; simp at hc
    · intro hc; omega
  · simp only [gt_iff_lt, not_lt] at h1
    refine ⟨rfl, ?_, by simp [h1]⟩
    constructor
    · intro hc; simp at hc
    · intro hc; omega

theorem initErrorInfo_fold_counters (l : List Nat) (info : ErrorInfo) (p : Nat) :
    (l.foldl initErrorInfoSeat info).usedHandMicros p
        = (if p ∈ l then 0 else info.usedHandMicros p)
    ∧ (l.foldl initErrorInfoSeat info).usedMatchMicros p
        = (if p ∈ l then 0 else info.usedMatchMicros p)
    ∧ (l.foldl initErrorInfoSeat info).numInvalidActions p
        = (if p ∈ l then 0 else info.numInvalidActions p) := by
  induction l generalizing info with
  | nil => simp
  | cons a l ih =>
    simp only [List.foldl_cons, ih, List.mem_cons]
    by_cases hl : p ∈ l
    · simp [hl]
    · by_cases hp : p = a
      · subst hp
        simp [hl, initErrorInfoSeat]
      · simp [hl, hp, initErrorInfoSeat, Function.update_noteq hp]

theorem ErrorCall.run_times_counters (seat : Nat) (sendTime recvTime : Timeval)
    (info : ErrorInfo) (p : Nat)
    (hno : (ErrorCall.times seat sendTime recvTime).noOverflow info) :
    (((ErrorCall.times seat sendTime recvTime).run info).usedHandMicros p
        = info.usedHandMicros p
      ∧ ((ErrorCall.times seat sendTime recvTime).run info).usedMatchMicros p
        = info.usedMatchMicros p)
    ∨ (((ErrorCall.times seat sendTime recvTime).run info).usedHandMicros p
        = info.usedHandMicros p + responseMicros sendTime recvTime
      ∧ ((ErrorCall.times seat sendTime recvTime).run info).usedMatchMicros p
        = info.usedMatchMicros p + responseMicros sendTime recvTime) := by
  by_cases h : recvTime.tv_sec < sendTime.tv_sec
        ∨ (recvTime.tv_sec = sendTime.tv_sec ∧ recvTime.tv_usec < sendTime.tv_usec)
  · left
    simp only [ErrorCall.run]
    rw [checkErrorTimes_recv_before_send_aux seat sendTime recvTime info h]
    exact ⟨rfl, rfl⟩
  · simp only [ErrorCall.run]
    rw [checkErrorTimes_info seat sendTime recvTime info h]
    by_cases hp : p = seat
    · right
      subst hp
      simp only [Function.update_same]
      exact ⟨Nat.mod_eq_of_lt (hno.resolve_left h).1, Nat.mod_eq_of_lt (hno.resolve_left h).2⟩
    · left
      simp only [Function.update_noteq hp]
      exact ⟨trivial, trivial⟩

theorem ErrorCall.run_preserves_hand_le_match (c : ErrorCall) (info : ErrorInfo) (p : Nat)
    (hno : c.noOverflow info) (hle : info.usedHandMicros p ≤ info.usedMatchMicros p) :
    (c.run info).usedHandMicros p ≤ (c.run info).usedMatchMicros p := by
  cases c with
  | times seat sendTime recvTime =>
    rcases ErrorCall.run_times_counters seat sendTime recvTime info p hno with ⟨h1, h2⟩ | ⟨h1, h2⟩
    · rw [h1, h2]; exact hle
    · rw [h1, h2]; omega
  | newHand numPlayers =>
    simp only [ErrorCall.run, checkErrorNewHand]
    rw [checkErrorNewHand_fold_hand, (checkErrorNewHand_fold_limits _ info).2.2.2.2.2]
    split_ifs
    · exact Nat.zero_le _
    · exact hle
  | invalidAction seat =>
    simp only [ErrorCall.run]
    rw [(checkErrorInvalidAction_info seat info)]
    exact hle

theorem runCalls_preserves_hand_le_match (calls : List ErrorCall) (info : ErrorInfo) (p : Nat)
    (hno : callsNoOverflow calls info)
    (hle : info.usedHandMicros p ≤ info.usedMatchMicros p) :
    (runCalls calls info).usedHandMicros p ≤ (runCalls calls info).usedMatchMicros p := by
  induction calls generalizing info with
  | nil => exact hle
  | cons c cs ih =>
    exact ih (c.run info) hno.2 (ErrorCall.run_preserves_hand_le_match c info p hno.1 hle)

/-- C9: in every `ErrorInfo` reached from `initErrorInfo` by a sequence of calls
of `checkErrorTimes`, `checkErrorNewHand` and `checkErrorInvalidAction` none of
which wraps a 64-bit sum it executes (a call of `checkErrorTimes` with the
receive time before the send time executes none and is always allowed),
`usedHandMicros[p] ≤ usedMatchMicros[p]` for every seat `p` of the arrays
(`p < MAX_PLAYERS`). -/
theorem usedHand_le_usedMatch_reachable (MAX_PLAYERS : Nat)
    (maxInvalidActions maxResponseMicros maxUsedHandMicros maxUsedMatchMicros : Nat)
    (info0 : ErrorInfo) (calls : List ErrorCall)
    (hno : callsNoOverflow calls
      (initErrorInfo MAX_PLAYERS maxInvalidActions maxResponseMicros
        maxUsedHandMicros maxUsedMatchMicros info0))
    (p : Nat) (hp : p < MAX_PLAYERS) :
    (runCalls calls
        (initErrorInfo MAX_PLAYERS maxInvalidActions maxResponseMicros
          maxUsedHandMicros maxUsedMatchMicros info0)).usedHandMicros p
      ≤ (runCalls calls
        (initErrorInfo MAX_PLAYERS maxInvalidActions maxResponseMicros
          maxUsedHandMicros maxUsedMatchMicros info0)).usedMatchMicros p := by
  apply runCalls_preserves_hand_le_match _ _ _ hno
  unfold initErrorInfo
  have h := initErrorInfo_fold_counters (List.range MAX_PLAYERS)
    { info0 with
      maxInvalidActions := maxInvalidActions
      maxResponseMicros := maxResponseMicros
      maxUsedHandMicros := maxUsedHandMicros
      maxUsedMatchMicros := maxUsedMatchMicros } p
  rw [h.1, h.2.1]
  simp [List.mem_range, hp]

/-- Witness of C9: three seats, a struct holding garbage before `initErrorInfo`,
then a response of seat 0, a new hand, a second response of seat 0 after 500
microseconds, a third one stamped 7 microseconds before its send (the clock
stepped back), and an invalid action of seat 1. -/
theorem usedHand_le_usedMatch_reachable_witness :
    callsNoOverflow
        [ErrorCall.times 0 ⟨0, 0⟩ ⟨1, 0⟩, ErrorCall.newHand 2,
          ErrorCall.times 0 ⟨1, 0⟩ ⟨1, 500⟩, ErrorCall.times 0 ⟨1, 507⟩ ⟨1, 500⟩,
          ErrorCall.invalidAction 1]
        (initErrorInfo 3 5 1000000 1500000 9000000
          ⟨0, 0, 0, 0, fun _ => 7, fun _ => 9, fun _ => 3⟩)
    ∧ (runCalls
        [ErrorCall.times 0 ⟨0, 0⟩ ⟨1, 0⟩, ErrorCall.newHand 2,
          ErrorCall.times 0 ⟨1, 0⟩ ⟨1, 500⟩, ErrorCall.times 0 ⟨1, 507⟩ ⟨1, 500⟩,
          ErrorCall.invalidAction 1]
        (initErrorInfo 3 5 1000000 1500000 9000000
          ⟨0, 0, 0, 0, fun _ => 7, fun _ => 9, fun _ => 3⟩)).usedHandMicros 0
      ≤ (runCalls
        [ErrorCall.times 0 ⟨0, 0⟩ ⟨1, 0⟩, ErrorCall.newHand 2,
          ErrorCall.times 0 ⟨1, 0⟩ ⟨1, 500⟩, ErrorCall.times 0 ⟨1, 507⟩ ⟨1, 500⟩,
          ErrorCall.invalidAction 1]
        (initErrorInfo 3 5 1000000 1500000 9000000
          ⟨0, 0, 0, 0, fun _ => 7, fun _ => 9, fun _ => 3⟩)).usedMatchMicros 0 :=
  ⟨⟨Or.inr ⟨by decide, by decide⟩, trivial, Or.inr ⟨by decide, by decide⟩,
      Or.inl (by decide), trivial, trivial⟩,
    usedHand_le_usedMatch_reachable 3 5 1000000 1500000 9000000
      ⟨0, 0, 0, 0, fun _ => 7, fun _ => 9, fun _ => 3⟩
      [ErrorCall.times 0 ⟨0, 0⟩ ⟨1, 0⟩, ErrorCall.newHand 2,
        ErrorCall.times 0 ⟨1, 0⟩ ⟨1, 500⟩, ErrorCall.times 0 ⟨1, 507⟩ ⟨1, 500⟩,
        ErrorCall.invalidAction 1]
      ⟨Or.inr ⟨by decide, by decide⟩, trivial, Or.inr ⟨by decide, by decide⟩,
        Or.inl (by decide), trivial, trivial⟩
      0 (by decide)⟩

/-- C10: a call of `checkErrorTimes`, `checkErrorNewHand` or
`checkErrorInvalidAction` that wraps no 64-bit sum it executes (a call of
`checkErrorTimes` with the receive time before the send time executes none
and is always allowed) never decreases `usedMatchMicros[p]`;
`checkErrorTimes` never decreases `usedHandMicros[p]`,
`checkErrorInvalidAction` leaves it as it is, and `checkErrorNewHand` is the
only call after which it can be smaller (it is then `0`). -/
theorem time_accounting_monotone (c : ErrorCall) (info : ErrorInfo)
    (hno : c.noOverflow info) (p : Nat) :
    info.usedMatchMicros p ≤ (c.run info).usedMatchMicros p
    ∧ (∀ seat sendTime recvTime, c = ErrorCall.times seat sendTime recvTime →
        info.usedHandMicros p ≤ (c.run info).usedHandMicros p)
    ∧ (∀ seat, c = ErrorCall.invalidAction seat →
        (c.run info).usedHandMicros p = info.usedHandMicros p)
    ∧ (∀ numPlayers, c = ErrorCall.newHand numPlayers →
        (c.run info).usedHandMicros p = if p < numPlayers then 0 else info.usedHandMicros p) := by
  cases c with
  | times seat sendTime recvTime =>
    refine ⟨?_, ?_, ?_, ?_⟩
    · rcases ErrorCall.run_times_counters seat sendTime recvTime info p hno with
        ⟨-, h2⟩ | ⟨-, h2⟩
      · rw [h2]
      · rw [h2]; omega
    · intro _ _ _ _
      rcases ErrorCall.run_times_counters seat sendTime recvTime info p hno with
        ⟨h1, -⟩ | ⟨h1, -⟩
      · rw [h1]
      · rw [h1]; omega
    · intro _ hc; cases hc
    · intro _ hc; cases hc
  | newHand numPlayers =>
    refine ⟨?_, ?_, ?_, ?_⟩
    · simp only [ErrorCall.run, checkErrorNewHand]
      rw [(checkErrorNewHand_fold_limits _ info).2.2.2.2.2]
    · intro _ _ _ hc; cases hc
    · intro _ hc; cases hc
    · intro n hc
      cases hc
      simp only [ErrorCall.run, checkErrorNewHand]
      rw [checkErrorNewHand_fold_hand]
      simp [List.mem_range]
  | invalidAction seat =>
    refine ⟨?_, ?_, ?_, ?_⟩
    · simp only [ErrorCall.run]
      rw [checkErrorInvalidAction_info seat info]
    · intro _ _ _ hc; cases hc
    · intro _ _
      simp only [ErrorCall.run]
      rw [checkErrorInvalidAction_info seat info]
    · intro _ hc; cases hc

/-- Witness of C10: a response of two seconds charged to seat 0, and a
response stamped 7 microseconds before its send for a seat whose match
counter is close to `2 ^ 64`: nothing is added and nothing decreases. -/
theorem time_accounting_monotone_witness :
    (ErrorCall.times 0 ⟨0, 0⟩ ⟨2, 0⟩).noOverflow
        ⟨0, 0, 0, 0, fun _ => 0, fun _ => 5, fun _ => 7⟩
    ∧ (7 : Nat) ≤ ((ErrorCall.times 0 ⟨0, 0⟩ ⟨2, 0⟩).run
        ⟨0, 0, 0, 0, fun _ => 0, fun _ => 5, fun _ => 7⟩).usedMatchMicros 0
    ∧ (ErrorCall.times 0 ⟨1, 507⟩ ⟨1, 500⟩).noOverflow
        ⟨0, 0, 0, 0, fun _ => 0, fun _ => 500, fun _ => 2 ^ 64 - 1⟩
    ∧ 2 ^ 64 - 1 ≤ ((ErrorCall.times 0 ⟨1, 507⟩ ⟨1, 500⟩).run
        ⟨0, 0, 0, 0, fun _ => 0, fun _ => 500, fun _ => 2 ^ 64 - 1⟩).usedMatchMicros 0 :=
  ⟨Or.inr ⟨by decide, by decide⟩,
    (time_accounting_monotone (ErrorCall.times 0 ⟨0, 0⟩ ⟨2, 0⟩)
      ⟨0, 0, 0, 0, fun _ => 0, fun _ => 5, fun _ => 7⟩ (Or.inr ⟨by decide, by decide⟩) 0).1,
    Or.inl (by decide),
    (time_accounting_monotone (ErrorCall.times 0 ⟨1, 507⟩ ⟨1, 500⟩)
      ⟨0, 0, 0, 0, fun _ => 0, fun _ => 500, fun _ => 2 ^ 64 - 1⟩ (Or.inl (by decide)) 0).1⟩

/-! ## Theorems: version handshake and reading a response -/

/-- The function `checkVersion` returns `0` for every
version line on which `sscanf` converts three numbers, whatever the numbers;
a wrong major or a larger minor version only prints the error message. -/
theorem checkVersion_never_rejects (VERSION_MAJOR VERSION_MINOR major minor rev : Nat) :
    (checkVersion VERSION_MAJOR VERSION_MINOR (VersionLine.version major minor rev)).1 = 0 := by
  simp only [checkVersion]
  split_ifs <;> rfl

/-- C7 at a failing input: a server of version 2.0 receiving `VERSION:3.1.0`
prints the error message and returns `0`. -/
theorem checkVersion_accepts_wrong_major :
    checkVersion 2 0 (VersionLine.version 3 1 0) = (0, true) := by
  decide

/-- On the bad-action-format branch `readPlayerResponse` returns success with
`call` of size `0` whatever `checkErrorInvalidAction` returns. -/
theorem readPlayerResponse_bad_format {σ ρ V : Type} (ops : GameOps σ ρ V)
    (state : MatchState σ) (seat : Nat) (sendTime recvTime : Timeval) (errorInfo : ErrorInfo)
    (line : List Char) (rest : List (List Char × Timeval)) (c : Nat) (tempState : MatchState σ)
    (hcomment : ¬ (line.head? = some '#' ∨ line.head? = some ';'))
    (htime : ¬ (checkErrorTimes seat sendTime recvTime errorInfo).1 < 0)
    (hstate : ops.readMatchState line = some (c, tempState))
    (hequal : ops.matchStatesEqual state tempState = true)
    (hbad : line.getD c (Char.ofNat 0) ≠ ':' ∨ ops.readAction (line.drop (c + 1)) = none) :
    readPlayerResponse ops state seat sendTime errorInfo ((line, recvTime) :: rest)
      = ReadOutcome.success ⟨ActionType.a_call, 0⟩ recvTime
          (checkErrorInvalidAction seat
            (checkErrorTimes seat sendTime recvTime errorInfo).2).2 rest := by
  have hsel : (if line.getD c (Char.ofNat 0) ≠ ':' then none
      else ops.readAction (line.drop (c + 1))) = none := by
    rcases hbad with h | h
    · rw [if_pos h]
    · rw [h]; split_ifs <;> rfl
  rw [readPlayerResponse, if_neg hcomment]
  simp only [htime, if_false, hstate, hequal, hsel]
  rfl

end Dealer

namespace AllIn

/-! ## Theorems: the board enumeration of the rollout -/

theorem sum_choose_diagonal (m n : Nat) :
    ∑ j in Finset.range n, (m + j).choose (j + 1) + 1 = (m + n).choose n := by
  induction n with
  | zero => simp
  | succ n ih =>
    rw [Finset.sum_range_succ, add_right_comm, ih, ← add_assoc m n 1, Nat.choose_succ_succ]

theorem firstDecrementableFrom_spec (used : Nat → Nat) (k i : Nat) :
    i ≤ firstDecrementableFrom used k i
    ∧ firstDecrementableFrom used k i ≤ i + k
    ∧ (∀ j, i ≤ j → j < firstDecrementableFrom used k i → used j = j)
    ∧ (firstDecrementableFrom used k i < i + k →
        used (firstDecrementableFrom used k i) ≠ firstDecrementableFrom used k i) := by
  induction k generalizing i with
  | zero =>
    simp only [firstDecrementableFrom]
    exact ⟨le_refl _, by omega, fun j h1 h2 => by omega, fun h => by omega⟩
  | succ k ih =>
    unfold firstDecrementableFrom
    split_ifs with h
    · obtain ⟨h1, h2, h3, h4⟩ := ih (i + 1)
      refine ⟨by omega, by omega, ?_, ?_⟩
      · intro j hj hlt
        by_cases hji : j = i
        · rw [hji]; exact h
        · exact h3 j (by omega) hlt
      · intro hlt
        exact h4 (by omega)
    · refine ⟨le_refl _, by omega, ?_, ?_⟩
      · intro j hj hlt; omega
      · intro _; exact h

theorem firstDecrementable_spec (used : Nat → Nat) (numCards : Nat) :
    firstDecrementable used numCards ≤ numCards
    ∧ (∀ j, j < firstDecrementable used numCards → used j = j)
    ∧ (firstDecrementable used numCards < numCards →
        used (firstDecrementable used numCards) ≠ firstDecrementable used numCards) := by
  obtain ⟨-, h2, h3, h4⟩ := firstDecrementableFrom_spec used numCards 0
  unfold firstDecrementable
  refine ⟨by omega, fun j hj => h3 j (Nat.zero_le _) hj, fun h => h4 (by omega)⟩

theorem refill_used_ge (deck : Nat → Nat) (bcStart : Nat) (i : Nat) (c : Cursor) (j : Nat)
    (hj : i ≤ j) : (refill deck bcStart i c).used j = c.used j := by
  induction i generalizing c with
  | zero => rfl
  | succ i ih =>
    rw [refill, ih _ (by omega)]
    simp only [storeIndex]
    exact Function.update_noteq (by omega) _ _

theorem refill_used_le (deck : Nat → Nat) (bcStart : Nat) (i : Nat) (c : Cursor)
    (h1 : i ≤ c.used i) (h2 : c.used i < 256) (j : Nat) (hj : j ≤ i) :
    (refill deck bcStart i c).used j = c.used i - (i - j) := by
  induction i generalizing c with
  | zero =>
    have : j = 0 := by omega
    subst this
    rfl
  | succ i ih =>
    by_cases hji : j = i + 1
    · subst hji
      rw [refill_used_ge _ _ _ _ _ (le_refl _)]
      simp
    · rw [refill]
      have hs : (storeIndex deck bcStart c i ((c.used (i + 1) + 255) % 256)).used i
          = c.used (i + 1) - 1 := by
        simp only [storeIndex, Function.update_same]
        omega
      rw [ih _ (by rw [hs]; omega) (by rw [hs]; omega) (by omega), hs]
      omega

theorem refill_board (deck : Nat → Nat) (bcStart : Nat) (i : Nat) (c : Cursor) (j : Nat) :
    (refill deck bcStart i c).boardCards (bcStart + j)
      = if j < i then deck ((refill deck bcStart i c).used j) else c.boardCards (bcStart + j) := by
  induction i generalizing c with
  | zero => simp [refill]
  | succ i ih =>
    rw [refill, ih]
    by_cases h1 : j < i
    · simp [h1, Nat.lt_succ_of_lt h1]
    · rw [if_neg h1]
      by_cases h2 : j = i
      · subst h2
        rw [if_pos (Nat.lt_succ_self _), refill_used_ge _ _ _ _ _ (le_refl _)]
        simp [storeIndex]
      · rw [if_neg (by omega)]
        simp only [storeIndex]
        exact Function.update_noteq (by omega) _ _
theorem CursorInv.ge {deck : Nat → Nat} {deckSize bcStart numCards : Nat} {c : Cursor}
    (h : CursorInv deck deckSize bcStart numCards c) (i : Nat) (hi : i < numCards) : i ≤ c.used i := by
  induction i with
  | zero => exact Nat.zero_le _
  | succ i ih =>
    have := ih (by omega)
    have := h.mono i hi
    omega

theorem nextBoard_none {deck : Nat → Nat} {bcStart numCards : Nat} {c : Cursor}
    (h : nextBoard deck bcStart numCards c = none) : rank c.used numCards = 0 := by
  unfold nextBoard at h
  simp only at h
  split_ifs at h with hi
  obtain ⟨-, h2, -⟩ := firstDecrementable_spec c.used numCards
  unfold rank
  apply Finset.sum_eq_zero
  intro j hj
  rw [h2 j (by rw [hi]; exact Finset.mem_range.mp hj)]
  exact Nat.choose_succ_self j

theorem nextBoard_some {deck : Nat → Nat} {deckSize bcStart numCards : Nat} {c c1 : Cursor}
    (hD : deckSize ≤ 256) (hinv : CursorInv deck deckSize bcStart numCards c)
    (h : nextBoard deck bcStart numCards c = some c1) :
    CursorInv deck deckSize bcStart numCards c1
      ∧ rank c1.used numCards + 1 = rank c.used numCards := by
  unfold nextBoard at h
  simp only at h
  obtain ⟨h1, h2, h3⟩ := firstDecrementable_spec c.used numCards
  generalize firstDecrementable c.used numCards = i0 at h h1 h2 h3
  split_ifs at h with hi
  have hi0 : i0 < numCards := by omega
  have hne := h3 hi0
  have hge := hinv.ge i0 hi0
  have hlt := hinv.lt i0 hi0
  have hv : (c.used i0 + 255) % 256 = c.used i0 - 1 := by omega
  rw [hv] at h
  injection h with h
  have hs : (storeIndex deck bcStart c i0 (c.used i0 - 1)).used i0 = c.used i0 - 1 := by
    simp [storeIndex]
  -- the new index function
  have hle : ∀ j, j ≤ i0 → c1.used j = c.used i0 - 1 - (i0 - j) := by
    intro j hj
    rw [← h, refill_used_le _ _ _ _ (by rw [hs]; omega) (by rw [hs]; omega) j hj, hs]
  have hgt : ∀ j, i0 < j → c1.used j = c.used j := by
    intro j hj
    rw [← h, refill_used_ge _ _ _ _ _ (by omega)]
    simp only [storeIndex]
    exact Function.update_noteq (by omega) _ _
  refine ⟨⟨?_, ?_, ?_⟩, ?_⟩
  · intro j hj
    by_cases hji : j ≤ i0
    · rw [hle j hji]; omega
    · rw [hgt j (by omega)]; exact hinv.lt j hj
  · intro j hj
    by_cases hji : j + 1 ≤ i0
    · rw [hle j (by omega), hle (j + 1) hji]; omega
    · by_cases hji2 : j = i0
      · subst hji2
        rw [hle j (le_refl _), hgt (j + 1) (by omega)]
        have := hinv.mono j hj
        omega
      · rw [hgt j (by omega), hgt (j + 1) (by omega)]
        exact hinv.mono j hj
  · intro j hj
    rw [← h, refill_board]
    split_ifs with hji
    · rfl
    · by_cases hji2 : j = i0
      · subst hji2
        rw [refill_used_ge _ _ _ _ _ (le_refl _)]
        simp [storeIndex]
      · have hb : (storeIndex deck bcStart c i0 (c.used i0 - 1)).boardCards (bcStart + j)
            = c.boardCards (bcStart + j) := by
          simp only [storeIndex]
          exact Function.update_noteq (by omega) _ _
        rw [hb, hinv.board j hj, h, hgt j (by omega)]
  · unfold rank
    rw [← Finset.sum_range_add_sum_Ico _ (show i0 + 1 ≤ numCards by omega),
      ← Finset.sum_range_add_sum_Ico (fun i => (c.used i).choose (i + 1))
        (show i0 + 1 ≤ numCards by omega)]
    have hIco : ∑ k in Finset.Ico (i0 + 1) numCards, (c1.used k).choose (k + 1)
        = ∑ k in Finset.Ico (i0 + 1) numCards, (c.used k).choose (k + 1) := by
      apply Finset.sum_congr rfl
      intro k hk
      rw [hgt k (by have := (Finset.mem_Ico.mp hk).1; omega)]
    have hnew : ∑ k in Finset.range (i0 + 1), (c1.used k).choose (k + 1)
        = ∑ k in Finset.range (i0 + 1), (c.used i0 - 1 - i0 + k).choose (k + 1) := by
      apply Finset.sum_congr rfl
      intro k hk
      have hk1 := Finset.mem_range.mp hk
      rw [hle k (by omega)]
      congr 1
      omega
    have hold : ∑ k in Finset.range (i0 + 1), (c.used k).choose (k + 1)
        = (c.used i0).choose (i0 + 1) := by
      rw [Finset.sum_range_succ, Finset.sum_eq_zero, zero_add]
      intro k hk
      rw [h2 k (Finset.mem_range.mp hk)]
      exact Nat.choose_succ_self k
    rw [hIco, hnew, hold, add_right_comm, sum_choose_diagonal]
    congr 2
    omega
theorem foldl_storeIndex (deck : Nat → Nat) (bcStart : Nat) (v : Nat → Nat) (l : List Nat)
    (c : Cursor) (j : Nat) :
    (l.foldl (fun c i => storeIndex deck bcStart c i (v i)) c).used j
        = (if j ∈ l then v j else c.used j)
    ∧ (l.foldl (fun c i => storeIndex deck bcStart c i (v i)) c).boardCards (bcStart + j)
        = (if j ∈ l then deck (v j) else c.boardCards (bcStart + j)) := by
  induction l generalizing c with
  | nil => simp
  | cons a l ih =>
    simp only [List.foldl_cons, List.mem_cons]
    obtain ⟨h1, h2⟩ := ih (storeIndex deck bcStart c a (v a))
    rw [h1, h2]
    by_cases hl : j ∈ l
    · simp [hl]
    · by_cases ha : j = a
      · subst ha
        simp [hl, storeIndex]
      · simp only [hl, ha, if_false, false_or, storeIndex]
        exact ⟨Function.update_noteq ha _ _, Function.update_noteq (by omega) _ _⟩

theorem initBoard_spec (deck : Nat → Nat) (deckSize bcStart numCards : Nat) (c : Cursor)
    (hD : deckSize ≤ 256) (hK : numCards ≤ deckSize) (j : Nat) (hj : j < numCards) :
    (initBoard deck deckSize bcStart numCards c).used j = deckSize - numCards + j
    ∧ (initBoard deck deckSize bcStart numCards c).boardCards (bcStart + j)
        = deck (deckSize - numCards + j) := by
  obtain ⟨h1, h2⟩ := foldl_storeIndex deck bcStart
    (fun i => (((deckSize : Int) - (numCards : Int) + (i : Int)) % 256).toNat)
    (List.range numCards) c j
  have hv : (((deckSize : Int) - (numCards : Int) + (j : Int)) % 256).toNat
      = deckSize - numCards + j := by omega
  unfold initBoard
  rw [h1, h2]
  simp only [List.mem_range, hj, if_true, hv, and_self]

theorem initBoard_inv (deck : Nat → Nat) (deckSize bcStart numCards : Nat) (c : Cursor)
    (hD : deckSize ≤ 256) (hK : numCards ≤ deckSize) :
    CursorInv deck deckSize bcStart numCards (initBoard deck deckSize bcStart numCards c)
    ∧ rank (initBoard deck deckSize bcStart numCards c).used numCards + 1
        = deckSize.choose numCards := by
  have hs := initBoard_spec deck deckSize bcStart numCards c hD hK
  refine ⟨⟨?_, ?_, ?_⟩, ?_⟩
  · intro i hi
    rw [(hs i hi).1]; omega
  · intro i hi
    rw [(hs i (by omega)).1, (hs (i + 1) hi).1]; omega
  · intro i hi
    rw [(hs i hi).1, (hs i hi).2]
  · unfold rank
    have : ∑ i in Finset.range numCards,
          ((initBoard deck deckSize bcStart numCards c).used i).choose (i + 1)
        = ∑ i in Finset.range numCards, (deckSize - numCards + i).choose (i + 1) := by
      apply Finset.sum_congr rfl
      intro i hi
      rw [(hs i (Finset.mem_range.mp hi)).1]
    rw [this, sum_choose_diagonal]
    congr 1
    omega
theorem CursorInv.strictMono {deck : Nat → Nat} {deckSize bcStart numCards : Nat} {c : Cursor}
    (h : CursorInv deck deckSize bcStart numCards c) (a b : Nat) (hab : a < b) (hb : b < numCards) :
    c.used a < c.used b := by
  induction b with
  | zero => omega
  | succ b ih =>
    have h1 := h.mono b hb
    by_cases hab2 : a = b
    · rw [hab2]; exact h1
    · have := ih (by omega) (by omega)
      omega

theorem snapshot_spec {deck : Nat → Nat} {deckSize bcStart numCards : Nat} {c : Cursor}
    (h : CursorInv deck deckSize bcStart numCards c) :
    ValidIndices deckSize numCards (snapshot bcStart numCards c).1
    ∧ (snapshot bcStart numCards c).2 = (snapshot bcStart numCards c).1.map deck
    ∧ rankVec (snapshot bcStart numCards c).1 = rank c.used numCards := by
  refine ⟨⟨by simp [snapshot], ?_, ?_⟩, ?_, ?_⟩
  · simp only [snapshot, List.Sorted]
    rw [List.pairwise_map]
    refine List.Pairwise.imp_of_mem ?_ (List.pairwise_lt_range numCards)
    intro a b _ hb hab
    exact h.strictMono a b hab (List.mem_range.mp hb)
  · intro x hx
    simp only [snapshot, List.mem_map, List.mem_range] at hx
    obtain ⟨i, hi, rfl⟩ := hx
    exact h.lt i hi
  · simp only [snapshot, List.map_map]
    apply List.map_congr_left
    intro i hi
    exact h.board i (List.mem_range.mp hi)
  · simp only [snapshot, rankVec, rank, List.length_map, List.length_range]
    apply Finset.sum_congr rfl
    intro i hi
    have hi1 := Finset.mem_range.mp hi
    rw [List.getD_eq_getElem _ _ (by simpa using hi1)]
    simp

theorem rolloutLoop_spec (deck : Nat → Nat) (deckSize bcStart numCards : Nat)
    (hD : deckSize ≤ 256) (n : Nat) :
    ∀ (c : Cursor) (numBoards : Int) (fuel : Nat),
      CursorInv deck deckSize bcStart numCards c → rank c.used numCards = n → n + 1 ≤ fuel →
      ∃ trace, rolloutLoop deck bcStart numCards fuel c numBoards
          = some (incrInt^[n + 1] numBoards, trace)
        ∧ trace.map (fun s => rankVec s.1) = (List.range (n + 1)).reverse
        ∧ ∀ s ∈ trace, ValidIndices deckSize numCards s.1 ∧ s.2 = s.1.map deck := by
  induction n with
  | zero =>
    intro c numBoards fuel hinv hrank hfuel
    obtain ⟨fuel, rfl⟩ : ∃ f, fuel = f + 1 := ⟨fuel - 1, by omega⟩
    have hsnap := snapshot_spec hinv
    cases hnext : nextBoard deck bcStart numCards c with
    | none =>
      refine ⟨[snapshot bcStart numCards c], ?_, ?_, ?_⟩
      · rw [rolloutLoop, hnext]; rfl
      · simp only [List.map_cons, List.map_nil, hsnap.2.2, hrank]
        rfl
      · intro s hs
        rw [List.mem_singleton.mp hs]
        exact ⟨hsnap.1, hsnap.2.1⟩
    | some c1 =>
      have := (nextBoard_some hD hinv hnext).2
      omega
  | succ n ih =>
    intro c numBoards fuel hinv hrank hfuel
    obtain ⟨fuel, rfl⟩ : ∃ f, fuel = f + 1 := ⟨fuel - 1, by omega⟩
    have hsnap := snapshot_spec hinv
    cases hnext : nextBoard deck bcStart numCards c with
    | none =>
      have := nextBoard_none hnext
      omega
    | some c1 =>
      obtain ⟨hinv1, hrank1⟩ := nextBoard_some hD hinv hnext
      obtain ⟨trace, h1, h2, h3⟩ := ih c1 (incrInt numBoards) fuel hinv1 (by omega) (by omega)
      refine ⟨snapshot bcStart numCards c :: trace, ?_, ?_, ?_⟩
      · rw [rolloutLoop, hnext]
        simp only [h1, Option.map_some']
        rfl
      · rw [List.map_cons, h2, hsnap.2.2, hrank, List.range_succ (n + 1), List.reverse_append]
        rfl
      · intro s hs
        rcases List.mem_cons.mp hs with hs | hs
        · rw [hs]; exact ⟨hsnap.1, hsnap.2.1⟩
        · exact h3 s hs

theorem incrInt_iterate (k : Nat) (hk : k < 2 ^ 31) : incrInt^[k] 0 = (k : Int) := by
  induction k with
  | zero => rfl
  | succ k ih =>
    rw [Function.iterate_succ_apply', ih (by omega)]
    unfold incrInt
    omega

theorem validIndices_toFinset {deckSize numCards : Nat} {v : List Nat}
    (h : ValidIndices deckSize numCards v) :
    v.toFinset ∈ Finset.powersetCard numCards (Finset.range deckSize) := by
  rw [Finset.mem_powersetCard]
  refine ⟨?_, ?_⟩
  · intro x hx
    exact Finset.mem_range.mpr (h.2.2 x (List.mem_toFinset.mp hx))
  · rw [List.toFinset_card_of_nodup h.2.1.nodup, h.1]

theorem validIndices_eq_of_toFinset {deckSize numCards : Nat} {v w : List Nat}
    (hv : ValidIndices deckSize numCards v) (hw : ValidIndices deckSize numCards w)
    (h : v.toFinset = w.toFinset) : v = w :=
  List.eq_of_perm_of_sorted
    (List.perm_of_nodup_nodup_toFinset_eq hv.2.1.nodup hw.2.1.nodup h) hv.2.1 hw.2.1

theorem validIndices_cover (deckSize numCards : Nat) (L : List (List Nat)) (hnd : L.Nodup)
    (hvalid : ∀ v ∈ L, ValidIndices deckSize numCards v)
    (hlen : L.length = deckSize.choose numCards)
    (v : List Nat) (hv : ValidIndices deckSize numCards v) : v ∈ L := by
  have hinj : (L.map List.toFinset).Nodup := by
    rw [List.nodup_map_iff_inj_on hnd]
    intro a ha b hb hab
    exact validIndices_eq_of_toFinset (hvalid a ha) (hvalid b hb) hab
  have hsub : (L.map List.toFinset).toFinset
      ⊆ Finset.powersetCard numCards (Finset.range deckSize) := by
    intro s hs
    obtain ⟨w, hw, rfl⟩ := List.mem_map.mp (List.mem_toFinset.mp hs)
    exact validIndices_toFinset (hvalid w hw)
  have hcard : (Finset.powersetCard numCards (Finset.range deckSize)).card
      ≤ (L.map List.toFinset).toFinset.card := by
    rw [List.toFinset_card_of_nodup hinj, List.length_map, hlen, Finset.card_powersetCard,
      Finset.card_range]
  have heq := Finset.eq_of_subset_of_card_le hsub hcard
  have hmem := validIndices_toFinset hv
  rw [← heq] at hmem
  obtain ⟨w, hw, hwv⟩ := List.mem_map.mp (List.mem_toFinset.mp hmem)
  rw [← validIndices_eq_of_toFinset (hvalid w hw) hv hwv]
  exact hw
theorem rolloutLoop_mono (deck : Nat → Nat) (bcStart numCards : Nat) (fuel : Nat) :
    ∀ (c : Cursor) (numBoards : Int) (r : Int × List (List Nat × List Nat)),
      rolloutLoop deck bcStart numCards fuel c numBoards = some r →
      ∀ fuel1, fuel ≤ fuel1 → rolloutLoop deck bcStart numCards fuel1 c numBoards = some r := by
  induction fuel with
  | zero => intro c numBoards r h; simp [rolloutLoop] at h
  | succ fuel ih =>
    intro c numBoards r h fuel1 hle
    obtain ⟨fuel1, rfl⟩ : ∃ f, fuel1 = f + 1 := ⟨fuel1 - 1, by omega⟩
    rw [rolloutLoop] at h ⊢
    cases hnext : nextBoard deck bcStart numCards c with
    | none =>
      rw [hnext] at h
      exact h
    | some c1 =>
      rw [hnext] at h
      simp only at h ⊢
      cases hrec : rolloutLoop deck bcStart numCards fuel c1 (incrInt numBoards) with
      | none => rw [hrec] at h; simp at h
      | some r1 =>
        rw [hrec] at h
        rw [ih c1 (incrInt numBoards) r1 hrec fuel1 (by omega)]
        exact h

/-- C1: for a deck of `deckSize ≤ 256` cards (the index vector is an array of
`uint8_t`) and `numCards ≤ deckSize` cards to roll out, the board loop of the
rollout returns for every fuel of at least `C(deckSize, numCards)` iterations,
after evaluating exactly `C(deckSize, numCards)` boards; its counter
`numBoards` is that number whenever it fits an `int`; the index vectors it
evaluates are pairwise distinct, each is a strictly increasing list of
`numCards` indices below `deckSize`, and every such list is among them; and
`C(48, 5) = 1712304`. -/
theorem rollout_enumerates_every_board_once (deck : Nat → Nat)
    (deckSize bcStart numCards : Nat) (c0 : Cursor)
    (hD : deckSize ≤ 256) (hK : numCards ≤ deckSize) :
    ∃ (numBoards : Int) (trace : List (List Nat × List Nat)),
      (∀ fuel, deckSize.choose numCards ≤ fuel →
        rolloutLoop deck bcStart numCards fuel
          (initBoard deck deckSize bcStart numCards c0) 0 = some (numBoards, trace))
      ∧ trace.length = deckSize.choose numCards
      ∧ (deckSize.choose numCards < 2 ^ 31 → numBoards = deckSize.choose numCards)
      ∧ (trace.map Prod.fst).Nodup
      ∧ (∀ v ∈ trace.map Prod.fst, ValidIndices deckSize numCards v)
      ∧ (∀ v, ValidIndices deckSize numCards v → v ∈ trace.map Prod.fst)
      ∧ Nat.choose 48 5 = 1712304 := by
  obtain ⟨hinv, hrank⟩ := initBoard_inv deck deckSize bcStart numCards c0 hD hK
  obtain ⟨trace, h1, h2, h3⟩ := rolloutLoop_spec deck deckSize bcStart numCards hD
    (rank (initBoard deck deckSize bcStart numCards c0).used numCards)
    (initBoard deck deckSize bcStart numCards c0) 0
    (rank (initBoard deck deckSize bcStart numCards c0).used numCards + 1) hinv rfl (le_refl _)
  rw [hrank] at h1
  have hlen : trace.length = deckSize.choose numCards := by
    have := congrArg List.length h2
    rw [List.length_map, List.length_reverse, List.length_range] at this
    omega
  have hnd : (trace.map Prod.fst).Nodup := by
    have hr : ((trace.map Prod.fst).map rankVec).Nodup := by
      rw [List.map_map]
      have : (rankVec ∘ Prod.fst) = fun s : List Nat × List Nat => rankVec s.1 := rfl
      rw [this, h2]
      exact List.nodup_reverse.mpr (List.nodup_range _)
    exact List.Nodup.of_map _ hr
  have hvalid : ∀ v ∈ trace.map Prod.fst, ValidIndices deckSize numCards v := by
    intro v hv
    obtain ⟨s, hs, rfl⟩ := List.mem_map.mp hv
    exact (h3 s hs).1
  refine ⟨incrInt^[deckSize.choose numCards] 0, trace, ?_, hlen, ?_, hnd, hvalid, ?_, ?_⟩
  · intro fuel hfuel
    exact rolloutLoop_mono deck bcStart numCards _ _ _ _ h1 fuel hfuel
  · intro hfit
    exact incrInt_iterate _ hfit
  · intro v hv
    exact validIndices_cover deckSize numCards _ hnd hvalid (by rw [List.length_map, hlen]) v hv
  · decide

/-- Witness of C1: a deck of four cards, two cards to roll out. -/
theorem rollout_enumerates_every_board_once_witness :
    ∃ (numBoards : Int) (trace : List (List Nat × List Nat)),
      (∀ fuel, Nat.choose 4 2 ≤ fuel →
        rolloutLoop (fun i => 10 + 2 * i) 3 2 fuel
          (initBoard (fun i => 10 + 2 * i) 4 3 2 ⟨fun _ => 0, fun _ => 0⟩) 0
            = some (numBoards, trace))
      ∧ trace.length = Nat.choose 4 2
      ∧ (Nat.choose 4 2 < 2 ^ 31 → numBoards = Nat.choose 4 2)
      ∧ (trace.map Prod.fst).Nodup
      ∧ (∀ v ∈ trace.map Prod.fst, ValidIndices 4 2 v)
      ∧ (∀ v, ValidIndices 4 2 v → v ∈ trace.map Prod.fst)
      ∧ Nat.choose 48 5 = 1712304 :=
  rollout_enumerates_every_board_once (fun i => 10 + 2 * i) 4 3 2 ⟨fun _ => 0, fun _ => 0⟩
    (by decide) (by decide)

/-- The enumeration evaluated on that input: six boards, in this order. -/
theorem rolloutLoop_four_choose_two :
    rolloutLoop (fun i => 10 + 2 * i) 3 2 6
        (initBoard (fun i => 10 + 2 * i) 4 3 2 ⟨fun _ => 0, fun _ => 0⟩) 0
      = some (6, [([2, 3], [14, 16]), ([1, 3], [12, 16]), ([0, 3], [10, 16]),
          ([1, 2], [12, 14]), ([0, 2], [10, 14]), ([0, 1], [10, 12])]) := by
  decide

/-! ## Theorems: the deck of the rollout -/

theorem foldl_update_one {ι : Type} (f : ι → Nat) (l : List ι) (u : Nat → Nat) (c : Nat) :
    (l.foldl (fun u i => Function.update u (f i) 1) u) c
      = if c ∈ l.map f then 1 else u c := by
  induction l generalizing u with
  | nil => simp
  | cons a l ih =>
    simp only [List.foldl_cons, ih, List.map_cons, List.mem_cons]
    by_cases hl : c ∈ l.map f
    · simp [hl]
    · by_cases ha : c = f a
      · subst ha
        simp
      · simp only [hl, ha, if_false, false_or]
        exact Function.update_noteq ha _ _

theorem foldl_foldl_update_one {ι κ : Type} (f : ι → κ → Nat) (inner : List κ) (l : List ι)
    (u : Nat → Nat) (c : Nat) :
    (l.foldl (fun u p => inner.foldl (fun u i => Function.update u (f p i) 1) u) u) c
      = if c ∈ l.flatMap (fun p => inner.map (f p)) then 1 else u c := by
  induction l generalizing u with
  | nil => simp
  | cons a l ih =>
    simp only [List.foldl_cons, ih, List.flatMap_cons, List.mem_append, foldl_update_one]
    by_cases hl : c ∈ l.flatMap (fun p => inner.map (f p))
    · simp [hl]
    · by_cases ha : c ∈ inner.map (f a)
      · simp [ha]
      · simp [hl, ha]

theorem getUsedCards_spec (game : Game) (state : State) (r : Nat) (used : Nat → Nat) (c : Nat) :
    getUsedCards game state r used c
      = if c ∈ usedCards game state r then 1
        else if c < game.numSuits * game.numRanks then 0 else used c := by
  unfold getUsedCards usedCards
  simp only [foldl_update_one, foldl_foldl_update_one, List.mem_append]
  by_cases h1 : c ∈ List.map state.boardCards (List.range (sumBoardCards game r))
  · simp [h1]
  · by_cases h2 : c ∈ (List.range game.numPlayers).flatMap
        (fun p => (List.range game.numHoleCards).map (state.holeCards p))
    · simp [h2]
    · simp [h1, h2]

theorem buildDeck_fold (used : Nat → Nat) (l : List Nat) (d : (Nat → Nat) × Nat) :
    (l.foldl (fun (d : (Nat → Nat) × Nat) i =>
        if used i = 0 then (Function.update d.1 d.2 (i % 256), d.2 + 1) else d) d).2
      = d.2 + (l.filter (fun i => decide (used i = 0))).length
    ∧ (∀ k, k < d.2 →
        (l.foldl (fun (d : (Nat → Nat) × Nat) i =>
          if used i = 0 then (Function.update d.1 d.2 (i % 256), d.2 + 1) else d) d).1 k = d.1 k)
    ∧ (∀ k, k < (l.filter (fun i => decide (used i = 0))).length →
        (l.foldl (fun (d : (Nat → Nat) × Nat) i =>
          if used i = 0 then (Function.update d.1 d.2 (i % 256), d.2 + 1) else d) d).1 (d.2 + k)
          = (l.filter (fun i => decide (used i = 0))).getD k 0 % 256) := by
  induction l generalizing d with
  | nil => simp
  | cons a l ih =>
    simp only [List.foldl_cons]
    by_cases ha : used a = 0
    · obtain ⟨h1, h2, h3⟩ := ih (Function.update d.1 d.2 (a % 256), d.2 + 1)
      simp only [ha, if_true, List.filter_cons, decide_True, List.length_cons]
      refine ⟨by rw [h1]; simp only; omega, ?_, ?_⟩
      · intro k hk
        rw [h2 k (by simp only; omega)]
        exact Function.update_noteq (by omega) _ _
      · intro k hk
        cases k with
        | zero =>
          show _ = _
          rw [show d.2 + 0 = d.2 from rfl, h2 d.2 (by simp only; omega)]
          simp
        | succ k =>
          have := h3 k (by omega)
          simp only at this
          rw [show d.2 + (k + 1) = d.2 + 1 + k by omega, this]
          simp
    · obtain ⟨h1, h2, h3⟩ := ih d
      simp only [ha, if_false, List.filter_cons, decide_False]
      exact ⟨h1, h2, h3⟩

theorem mem_usedCards (game : Game) (state : State) (r : Nat) (c : Nat) :
    c ∈ usedCards game state r ↔
      (∃ p, p < game.numPlayers ∧ ∃ i, i < game.numHoleCards ∧ state.holeCards p i = c)
      ∨ (∃ i, i < sumBoardCards game r ∧ state.boardCards i = c) := by
  simp [usedCards, List.mem_flatMap]

theorem filter_unused_eq (game : Game) (state : State) (r : Nat) (used : Nat → Nat) :
    (List.range (game.numSuits * game.numRanks)).filter
        (fun i => decide (getUsedCards game state r used i = 0))
      = (List.range (game.numSuits * game.numRanks)).filter
        (fun c => decide (c ∉ usedCards game state r)) := by
  apply List.filter_congr
  intro c hc
  rw [getUsedCards_spec]
  have hc1 := List.mem_range.mp hc
  by_cases h : c ∈ usedCards game state r
  · simp [h]
  · simp [h, hc1]

theorem length_filter_unused (game : Game) (state : State) (r : Nat)
    (hsub : ∀ c ∈ usedCards game state r, c < game.numSuits * game.numRanks) :
    ((List.range (game.numSuits * game.numRanks)).filter
        (fun c => decide (c ∉ usedCards game state r))).length
      = game.numSuits * game.numRanks - (usedCards game state r).toFinset.card := by
  have hnd : ((List.range (game.numSuits * game.numRanks)).filter
      (fun c => decide (c ∉ usedCards game state r))).Nodup :=
    (List.nodup_range _).filter _
  have hset : ((List.range (game.numSuits * game.numRanks)).filter
        (fun c => decide (c ∉ usedCards game state r))).toFinset
      = Finset.range (game.numSuits * game.numRanks) \ (usedCards game state r).toFinset := by
    ext c
    simp [List.mem_filter]
  rw [← List.toFinset_card_of_nodup hnd, hset, Finset.card_sdiff, Finset.card_range]
  intro c hc
  exact Finset.mem_range.mpr (hsub c (List.mem_toFinset.mp hc))

/-- C2: when the hole cards of all players and the board cards of rounds `0..r`
are card indices below `numSuits * numRanks` (at most 256, cards being
`uint8_t`), the deck the rollout builds from `getUsedCards` is the ascending
list of the cards of `[0, numSuits * numRanks)` that are not in `usedCards`
- the hole cards of every player, folded or not, and the first
`sumBoardCards(r)` board cards - and `deckSize` is `numSuits * numRanks` minus
the number of distinct used cards. -/
theorem rollout_deck_is_unused_cards (game : Game) (state : State) (r : Nat)
    (used deck : Nat → Nat)
    (hN : game.numSuits * game.numRanks ≤ 256)
    (hhole : ∀ p, p < game.numPlayers → ∀ i, i < game.numHoleCards →
      state.holeCards p i < game.numSuits * game.numRanks)
    (hboard : ∀ i, i < sumBoardCards game r →
      state.boardCards i < game.numSuits * game.numRanks) :
    (List.range (buildDeck game (getUsedCards game state r used) deck).2).map
        (buildDeck game (getUsedCards game state r used) deck).1
      = (List.range (game.numSuits * game.numRanks)).filter
          (fun c => decide (c ∉ usedCards game state r))
    ∧ ((List.range (buildDeck game (getUsedCards game state r used) deck).2).map
        (buildDeck game (getUsedCards game state r used) deck).1).Sorted (· < ·)
    ∧ (buildDeck game (getUsedCards game state r used) deck).2
      = game.numSuits * game.numRanks - (usedCards game state r).toFinset.card
    ∧ (∀ c, c ∈ usedCards game state r ↔
        (∃ p, p < game.numPlayers ∧ ∃ i, i < game.numHoleCards ∧ state.holeCards p i = c)
        ∨ (∃ i, i < sumBoardCards game r ∧ state.boardCards i = c)) := by
  obtain ⟨h1, -, h3⟩ := buildDeck_fold (getUsedCards game state r used)
    (List.range (game.numSuits * game.numRanks)) (deck, 0)
  rw [filter_unused_eq] at h1 h3
  simp only [Nat.zero_add] at h1 h3
  have hsize : (buildDeck game (getUsedCards game state r used) deck).2
      = ((List.range (game.numSuits * game.numRanks)).filter
          (fun c => decide (c ∉ usedCards game state r))).length := h1
  have hdeck : (List.range (buildDeck game (getUsedCards game state r used) deck).2).map
        (buildDeck game (getUsedCards game state r used) deck).1
      = (List.range (game.numSuits * game.numRanks)).filter
          (fun c => decide (c ∉ usedCards game state r)) := by
    apply List.ext_getElem
    · rw [List.length_map, List.length_range, hsize]
    · intro k hk1 hk2
      rw [List.getElem_map, List.getElem_range]
      have := h3 k hk2
      rw [List.getD_eq_getElem _ _ hk2] at this
      have hmem := List.getElem_mem hk2
      have hlt := List.mem_range.mp (List.mem_filter.mp hmem).1
      rw [Nat.mod_eq_of_lt (by omega)] at this
      exact this
  have hsub : ∀ c ∈ usedCards game state r, c < game.numSuits * game.numRanks := by
    intro c hc
    rcases (mem_usedCards game state r c).mp hc with ⟨p, hp, i, hi, rfl⟩ | ⟨i, hi, rfl⟩
    · exact hhole p hp i hi
    · exact hboard i hi
  refine ⟨hdeck, ?_, ?_, mem_usedCards game state r⟩
  · rw [hdeck]
    exact (List.pairwise_lt_range _).filter _
  · rw [hsize, length_filter_unused game state r hsub]

/-- Witness of C2: six cards, two players holding cards 4 and 1, one board card
3 dealt in round 1; the deck is `[0, 2, 5]`. -/
theorem rollout_deck_is_unused_cards_witness :
    (List.range (buildDeck ⟨2, 3, 2, 1, 2, fun r => if r = 1 then 1 else 0⟩
        (getUsedCards ⟨2, 3, 2, 1, 2, fun r => if r = 1 then 1 else 0⟩
          ⟨1, fun _ => 1, fun p _ => if p = 0 then 4 else 1, fun _ => 3⟩ 1 (fun _ => 7))
        (fun _ => 0)).2).map
      (buildDeck ⟨2, 3, 2, 1, 2, fun r => if r = 1 then 1 else 0⟩
        (getUsedCards ⟨2, 3, 2, 1, 2, fun r => if r = 1 then 1 else 0⟩
          ⟨1, fun _ => 1, fun p _ => if p = 0 then 4 else 1, fun _ => 3⟩ 1 (fun _ => 7))
        (fun _ => 0)).1
      = [0, 2, 5] :=
  (rollout_deck_is_unused_cards ⟨2, 3, 2, 1, 2, fun r => if r = 1 then 1 else 0⟩
    ⟨1, fun _ => 1, fun p _ => if p = 0 then 4 else 1, fun _ => 3⟩ 1 (fun _ => 7) (fun _ => 0)
    (by decide) (by decide) (by decide)).1.trans (by decide)

end AllIn

namespace Dealer

/-! ## Theorems: hands, journal replay and the match loop -/

theorem mod_lt_two_mul (a n : Nat) (h : a < 2 * n) :
    a % n = if a < n then a else a - n := by
  split_ifs with h1
  · exact Nat.mod_eq_of_lt h1
  · rw [Nat.mod_eq_sub_mod (by omega), Nat.mod_eq_of_lt (by omega)]

theorem seatToPlayer_eq (numPlayers player0Seat seat : Nat) (hN : numPlayers ≤ 256)
    (hp : player0Seat < numPlayers) :
    seatToPlayer numPlayers player0Seat seat = (seat + numPlayers - player0Seat) % numPlayers := by
  unfold seatToPlayer
  have h1 : ((seat : Int) + (numPlayers : Int) - (player0Seat : Int))
      = ((seat + numPlayers - player0Seat : Nat) : Int) := by omega
  rw [h1, ← Int.ofNat_tmod]
  have hk : (seat + numPlayers - player0Seat) % numPlayers < numPlayers :=
    Nat.mod_lt _ (by omega)
  generalize (seat + numPlayers - player0Seat) % numPlayers = k at hk
  omega

theorem playerToSeat_eq (numPlayers player0Seat player : Nat) (hN0 : 0 < numPlayers)
    (hN : numPlayers ≤ 256) :
    playerToSeat numPlayers player0Seat player = (player + player0Seat) % numPlayers := by
  unfold playerToSeat
  exact Nat.mod_eq_of_lt (lt_of_lt_of_le (Nat.mod_lt _ hN0) hN)

theorem playerToSeat_lt (numPlayers player0Seat player : Nat) (hN0 : 0 < numPlayers)
    (hN : numPlayers ≤ 256) : playerToSeat numPlayers player0Seat player < numPlayers := by
  rw [playerToSeat_eq _ _ _ hN0 hN]
  exact Nat.mod_lt _ hN0

theorem seatToPlayer_lt (numPlayers player0Seat seat : Nat) (hN : numPlayers ≤ 256)
    (hp : player0Seat < numPlayers) : seatToPlayer numPlayers player0Seat seat < numPlayers := by
  rw [seatToPlayer_eq _ _ _ hN hp]
  exact Nat.mod_lt _ (by omega)

theorem playerToSeat_seatToPlayer (numPlayers player0Seat seat : Nat) (hN : numPlayers ≤ 256)
    (hp : player0Seat < numPlayers) (hs : seat < numPlayers) :
    playerToSeat numPlayers player0Seat (seatToPlayer numPlayers player0Seat seat) = seat := by
  rw [playerToSeat_eq _ _ _ (by omega) hN, seatToPlayer_eq _ _ _ hN hp,
    mod_lt_two_mul (seat + numPlayers - player0Seat) numPlayers (by omega)]
  split_ifs with h1
  · rw [mod_lt_two_mul _ numPlayers (by omega)]
    split_ifs <;> omega
  · rw [mod_lt_two_mul _ numPlayers (by omega)]
    split_ifs <;> omega

theorem seatToPlayer_playerToSeat (numPlayers player0Seat player : Nat) (hN : numPlayers ≤ 256)
    (hp : player0Seat < numPlayers) (hs : player < numPlayers) :
    seatToPlayer numPlayers player0Seat (playerToSeat numPlayers player0Seat player) = player := by
  rw [playerToSeat_eq _ _ _ (by omega) hN, seatToPlayer_eq _ _ _ hN hp,
    mod_lt_two_mul (player + player0Seat) numPlayers (by omega)]
  split_ifs with h1
  · rw [mod_lt_two_mul _ numPlayers (by omega)]
    split_ifs <;> omega
  · rw [mod_lt_two_mul _ numPlayers (by omega)]
    split_ifs <;> omega

theorem foldl_update_add {V : Type} [Add V] (g : Nat → V) (l : List Nat) (hl : l.Nodup)
    (tv : Nat → V) (s : Nat) :
    (l.foldl (fun tv s => Function.update tv s (tv s + g s)) tv) s
      = if s ∈ l then tv s + g s else tv s := by
  induction l generalizing tv with
  | nil => simp
  | cons a l ih =>
    rw [List.nodup_cons] at hl
    rw [List.foldl_cons, ih hl.2]
    by_cases hs : s ∈ l
    · have hne : s ≠ a := fun h => hl.1 (h ▸ hs)
      simp [hs, Function.update_noteq hne]
    · by_cases hsa : s = a
      · subst hsa
        simp [hs]
      · simp [hs, hsa, Function.update_noteq hsa]

theorem creditSeats_apply {σ ρ V : Type} [Add V] (ops : GameOps σ ρ V) (player0Seat : Nat)
    (state : σ) (totalValue : Nat → V) (s : Nat) :
    creditSeats ops player0Seat state totalValue s
      = if s < ops.numPlayers then
          totalValue s + ops.valueOfState state (seatToPlayer ops.numPlayers player0Seat s)
        else totalValue s := by
  unfold creditSeats
  rw [foldl_update_add (fun s => ops.valueOfState state (seatToPlayer ops.numPlayers player0Seat s))
    _ (List.nodup_range _)]
  simp only [List.mem_range]

theorem foldl_creditPlayers {V : Type} [Add V] (g : Nat → V) (f : Nat → Nat) (l : List Nat)
    (hl : l.Nodup) (hf : ∀ p ∈ l, ∀ q ∈ l, f p = f q → p = q)
    (value tv : Nat → V) :
    (∀ p, (l.foldl (fun (acc : (Nat → V) × (Nat → V)) p =>
          (Function.update acc.1 p (g p),
            Function.update acc.2 (f p) (acc.2 (f p) + g p))) (value, tv)).1 p
        = if p ∈ l then g p else value p)
    ∧ (∀ p ∈ l, (l.foldl (fun (acc : (Nat → V) × (Nat → V)) p =>
          (Function.update acc.1 p (g p),
            Function.update acc.2 (f p) (acc.2 (f p) + g p))) (value, tv)).2 (f p)
        = tv (f p) + g p)
    ∧ (∀ s, (∀ p ∈ l, f p ≠ s) →
        (l.foldl (fun (acc : (Nat → V) × (Nat → V)) p =>
          (Function.update acc.1 p (g p),
            Function.update acc.2 (f p) (acc.2 (f p) + g p))) (value, tv)).2 s = tv s) := by
  induction l generalizing value tv with
  | nil => simp
  | cons a l ih =>
    rw [List.nodup_cons] at hl
    have hf1 : ∀ p ∈ l, ∀ q ∈ l, f p = f q → p = q := fun p hp q hq =>
      hf p (List.mem_cons_of_mem _ hp) q (List.mem_cons_of_mem _ hq)
    obtain ⟨h1, h2, h3⟩ := ih hl.2 hf1 (Function.update value a (g a))
      (Function.update tv (f a) (tv (f a) + g a))
    simp only [List.foldl_cons]
    refine ⟨?_, ?_, ?_⟩
    · intro p
      rw [h1 p]
      by_cases hp : p ∈ l
      · simp [hp]
      · by_cases hpa : p = a
        · subst hpa; simp
        · simp [hp, hpa, Function.update_noteq hpa]
    · intro p hp
      rcases List.mem_cons.mp hp with hpa | hpl
      · subst hpa
        rw [h3 (f p)]
        · simp
        · intro q hq hqp
          have := hf q (List.mem_cons_of_mem _ hq) p (List.mem_cons_self _ _) hqp
          exact hl.1 (this ▸ hq)
      · rw [h2 p hpl]
        have hne : f p ≠ f a := by
          intro h
          have := hf p (List.mem_cons_of_mem _ hpl) a (List.mem_cons_self _ _) h
          exact hl.1 (this ▸ hpl)
        rw [Function.update_noteq hne]
    · intro s hs
      rw [h3 s (fun p hp => hs p (List.mem_cons_of_mem _ hp))]
      exact Function.update_noteq (fun h => hs a (List.mem_cons_self _ _) h.symm) _ _

theorem creditPlayers_spec {σ ρ V : Type} [Add V] (ops : GameOps σ ρ V) (player0Seat : Nat)
    (state : σ) (value totalValue : Nat → V)
    (hN : ops.numPlayers ≤ 256) (hp : player0Seat < ops.numPlayers) :
    (creditPlayers ops player0Seat state value totalValue).2
        = creditSeats ops player0Seat state totalValue
    ∧ ∀ p, p < ops.numPlayers →
        (creditPlayers ops player0Seat state value totalValue).1 p = ops.valueOfState state p := by
  have hinj : ∀ p ∈ List.range ops.numPlayers, ∀ q ∈ List.range ops.numPlayers,
      playerToSeat ops.numPlayers player0Seat p = playerToSeat ops.numPlayers player0Seat q →
      p = q := by
    intro p hp1 q hq1 h
    rw [← seatToPlayer_playerToSeat _ _ p hN hp (List.mem_range.mp hp1),
      ← seatToPlayer_playerToSeat _ _ q hN hp (List.mem_range.mp hq1), h]
  obtain ⟨h1, h2, h3⟩ := foldl_creditPlayers (fun p => ops.valueOfState state p)
    (playerToSeat ops.numPlayers player0Seat) (List.range ops.numPlayers)
    (List.nodup_range _) hinj value totalValue
  refine ⟨?_, ?_⟩
  · funext s
    rw [creditSeats_apply]
    unfold creditPlayers
    split_ifs with hs
    · have := h2 (seatToPlayer ops.numPlayers player0Seat s)
        (List.mem_range.mpr (seatToPlayer_lt _ _ _ hN hp))
      rw [playerToSeat_seatToPlayer _ _ _ hN hp hs] at this
      exact this
    · apply h3
      intro p _ hps
      have := playerToSeat_lt ops.numPlayers player0Seat p (by omega) hN
      omega
  · intro p hp1
    unfold creditPlayers
    rw [h1 p]
    simp [List.mem_range, hp1]

theorem checkErrorTimes_pass_iff (seat : Nat) (sendTime recvTime : Timeval) (e : ErrorInfo)
    (h : ¬ (recvTime.tv_sec < sendTime.tv_sec
        ∨ (recvTime.tv_sec = sendTime.tv_sec ∧ recvTime.tv_usec < sendTime.tv_usec))) :
    ¬ (checkErrorTimes seat sendTime recvTime e).1 < 0 ↔
      (responseMicros sendTime recvTime ≤ e.maxResponseMicros
        ∧ (e.usedHandMicros seat + responseMicros sendTime recvTime) % 2 ^ 64
            ≤ e.maxUsedHandMicros
        ∧ (e.usedMatchMicros seat + responseMicros sendTime recvTime) % 2 ^ 64
            ≤ e.maxUsedMatchMicros) := by
  rw [checkErrorTimes_code seat sendTime recvTime e h]
  generalize responseMicros sendTime recvTime = r
  generalize (e.usedHandMicros seat + r) % 2 ^ 64 = a
  generalize (e.usedMatchMicros seat + r) % 2 ^ 64 = b
  split_ifs with h1 h2 h3
  · simp only [gt_iff_lt] at h1
    constructor
    · intro hc; exact absurd (show (-1 : Int) < 0 by decide) hc
    · rintro ⟨hc, -, -⟩; omega
  · simp only [gt_iff_lt] at h2
    constructor
    · intro hc; exact absurd (show (-1 : Int) < 0 by decide) hc
    · rintro ⟨-, hc, -⟩; omega
  · simp only [gt_iff_lt] at h3
    constructor
    · intro hc; exact absurd (show (-1 : Int) < 0 by decide) hc
    · rintro ⟨-, -, hc⟩; omega
  · simp only [gt_iff_lt, not_lt] at h1 h2 h3
    constructor
    · intro _; exact ⟨h1, h2, h3⟩
    · intro _; decide

theorem ChargedLess.refl_of (numPlayers : Nat) (e : ErrorInfo) : ChargedLess numPlayers e e :=
  ⟨⟨rfl, rfl, rfl, rfl⟩, fun _ _ => ⟨le_refl _, le_refl _⟩⟩

theorem checkErrorTimes_step (numPlayers seat : Nat) (sendTime recvTime : Timeval)
    (eU : ErrorInfo) (hseat : seat < numPlayers) (hB : WithinBudget numPlayers eU)
    (hL : LimitsFit eU) (hpass : ¬ (checkErrorTimes seat sendTime recvTime eU).1 < 0) :
    WithinBudget numPlayers (checkErrorTimes seat sendTime recvTime eU).2
    ∧ LimitsFit (checkErrorTimes seat sendTime recvTime eU).2
    ∧ SameLimits eU (checkErrorTimes seat sendTime recvTime eU).2
    ∧ (checkErrorTimes seat sendTime recvTime eU).2.numInvalidActions = eU.numInvalidActions
    ∧ ∀ eR, ChargedLess numPlayers eU eR →
        ChargedLess numPlayers (checkErrorTimes seat sendTime recvTime eU).2 eR
        ∧ ¬ (checkErrorTimes seat sendTime recvTime eR).1 < 0
        ∧ ChargedLess numPlayers (checkErrorTimes seat sendTime recvTime eU).2
            (checkErrorTimes seat sendTime recvTime eR).2 := by
  by_cases h : recvTime.tv_sec < sendTime.tv_sec
      ∨ (recvTime.tv_sec = sendTime.tv_sec ∧ recvTime.tv_usec < sendTime.tv_usec)
  · rw [checkErrorTimes_recv_before_send_aux seat sendTime recvTime eU h]
    refine ⟨hB, hL, ⟨rfl, rfl, rfl, rfl⟩, rfl, ?_⟩
    intro eR hR
    rw [checkErrorTimes_recv_before_send_aux seat sendTime recvTime eR h]
    exact ⟨hR, show ¬ (0 : Int) < 0 by decide, hR⟩
  have hU2 := checkErrorTimes_info seat sendTime recvTime eU h
  have hU1 := checkErrorTimes_pass_iff seat sendTime recvTime eU h
  · obtain ⟨hBh, hBm⟩ := hB seat hseat
    obtain ⟨hLh, hLm, hLi⟩ := hL
    obtain ⟨hresp, hh, hm⟩ := hU1.mp hpass
    have hnh : (eU.usedHandMicros seat + responseMicros sendTime recvTime) % 2 ^ 64
        = eU.usedHandMicros seat + responseMicros sendTime recvTime :=
      Nat.mod_eq_of_lt (by omega)
    have hnm : (eU.usedMatchMicros seat + responseMicros sendTime recvTime) % 2 ^ 64
        = eU.usedMatchMicros seat + responseMicros sendTime recvTime :=
      Nat.mod_eq_of_lt (by omega)
    rw [hnh] at hh
    rw [hnm] at hm
    rw [hU2, hnh, hnm]
    refine ⟨?_, ⟨hLh, hLm, hLi⟩, ⟨rfl, rfl, rfl, rfl⟩, rfl, ?_⟩
    · intro s hs
      by_cases hss : s = seat
      · subst hss
        simp only [Function.update_same]
        exact ⟨hh, hm⟩
      · simp only [Function.update_noteq hss]
        exact hB s hs
    · intro eR hR
      obtain ⟨hS, hle⟩ := hR
      obtain ⟨hle1, hle2⟩ := hle seat hseat
      obtain ⟨hS1, hS2, hS3, hS4⟩ := hS
      have hUpd : ∀ s, s < numPlayers →
          eR.usedHandMicros s
              ≤ Function.update eU.usedHandMicros seat
                  (eU.usedHandMicros seat + responseMicros sendTime recvTime) s
            ∧ eR.usedMatchMicros s
              ≤ Function.update eU.usedMatchMicros seat
                  (eU.usedMatchMicros seat + responseMicros sendTime recvTime) s := by
        intro s hs
        by_cases hss : s = seat
        · subst hss
          simp only [Function.update_same]
          omega
        · simp only [Function.update_noteq hss]
          exact hle s hs
      refine ⟨⟨⟨hS1, hS2, hS3, hS4⟩, hUpd⟩, ?_⟩
      have hR2 := checkErrorTimes_info seat sendTime recvTime eR h
      have hR1 := checkErrorTimes_pass_iff seat sendTime recvTime eR h
      · have hrh : (eR.usedHandMicros seat + responseMicros sendTime recvTime) % 2 ^ 64
            = eR.usedHandMicros seat + responseMicros sendTime recvTime :=
          Nat.mod_eq_of_lt (by omega)
        have hrm : (eR.usedMatchMicros seat + responseMicros sendTime recvTime) % 2 ^ 64
            = eR.usedMatchMicros seat + responseMicros sendTime recvTime :=
          Nat.mod_eq_of_lt (by omega)
        refine ⟨?_, ?_⟩
        · rw [hR1, hrh, hrm]
          omega
        · rw [hR2, hrh, hrm]
          refine ⟨⟨hS1, hS2, hS3, hS4⟩, ?_⟩
          intro s hs
          by_cases hss : s = seat
          · subst hss
            simp only [Function.update_same]
            omega
          · simp only [Function.update_noteq hss]
            exact hle s hs

theorem checkErrorInvalidAction_pass (seat : Nat) (e : ErrorInfo)
    (h : 2 ^ 32 - 1 ≤ e.maxInvalidActions) : ¬ (checkErrorInvalidAction seat e).1 < 0 := by
  unfold checkErrorInvalidAction
  simp only [Function.update_same]
  have : (e.numInvalidActions seat + 1) % 2 ^ 32 < 2 ^ 32 := Nat.mod_lt _ (by decide)
  rw [if_neg (by omega)]
  show ¬ (0 : Int) < 0
  decide

theorem checkErrorInvalidAction_keeps (numPlayers seat : Nat) (e : ErrorInfo) :
    (WithinBudget numPlayers e → WithinBudget numPlayers (checkErrorInvalidAction seat e).2)
    ∧ (LimitsFit e → LimitsFit (checkErrorInvalidAction seat e).2)
    ∧ SameLimits e (checkErrorInvalidAction seat e).2
    ∧ (∀ e1, ChargedLess numPlayers e e1 →
        ChargedLess numPlayers (checkErrorInvalidAction seat e).2 e1)
    ∧ (∀ e1, ChargedLess numPlayers e1 e →
        ChargedLess numPlayers e1 (checkErrorInvalidAction seat e).2) := by
  rw [checkErrorInvalidAction_info]
  exact ⟨fun h => h, fun h => h, ⟨rfl, rfl, rfl, rfl⟩, fun _ h => h, fun _ h => h⟩

theorem checkErrorNewHand_keeps (numPlayers n : Nat) (e : ErrorInfo) :
    (WithinBudget numPlayers e → WithinBudget numPlayers (checkErrorNewHand n e).2)
    ∧ (LimitsFit e → LimitsFit (checkErrorNewHand n e).2)
    ∧ SameLimits e (checkErrorNewHand n e).2
    ∧ (∀ e1, ChargedLess numPlayers e e1 →
        ChargedLess numPlayers (checkErrorNewHand n e).2 (checkErrorNewHand n e1).2)
    ∧ (∀ e1, ChargedLess numPlayers e1 e →
        ChargedLess numPlayers e1 (checkErrorNewHand n e).2)
    ∧ ¬ (checkErrorNewHand n e).1 < 0 := by
  obtain ⟨h1, h2, h3, h4, h5, h6⟩ := checkErrorNewHand_fold_limits (List.range n) e
  have hh := checkErrorNewHand_fold_hand (List.range n) e
  simp only [checkErrorNewHand]
  refine ⟨?_, ?_, ⟨h1.symm, h2.symm, h3.symm, h4.symm⟩, ?_, ?_, by decide⟩
  · intro hB s hs
    rw [hh s, h3, h4, h6]
    split_ifs
    · exact ⟨Nat.zero_le _, (hB s hs).2⟩
    · exact hB s hs
  · intro hL
    unfold LimitsFit
    rw [h1, h2, h3, h4]
    exact hL
  · intro e1 hC
    obtain ⟨g1, g2, g3, g4, g5, g6⟩ := checkErrorNewHand_fold_limits (List.range n) e1
    obtain ⟨⟨hS1, hS2, hS3, hS4⟩, hle⟩ := hC
    refine ⟨⟨by rw [h1, g1, hS1], by rw [h2, g2, hS2], by rw [h3, g3, hS3],
      by rw [h4, g4, hS4]⟩, ?_⟩
    intro s hs
    rw [hh s, checkErrorNewHand_fold_hand (List.range n) e1 s, h6, g6]
    split_ifs
    · exact ⟨le_refl _, (hle s hs).2⟩
    · exact hle s hs
  · intro e1 hC
    obtain ⟨⟨hS1, hS2, hS3, hS4⟩, hle⟩ := hC
    refine ⟨⟨by rw [h1, hS1], by rw [h2, hS2], by rw [h3, hS3], by rw [h4, hS4]⟩, ?_⟩
    intro s hs
    rw [hh s, h6]
    split_ifs
    · exact ⟨Nat.zero_le _, (hle s hs).2⟩
    · exact hle s hs

theorem sameLimits_trans {e1 e2 e3 : ErrorInfo} (h1 : SameLimits e1 e2) (h2 : SameLimits e2 e3) :
    SameLimits e1 e3 :=
  ⟨h1.1.trans h2.1, h1.2.1.trans h2.2.1, h1.2.2.1.trans h2.2.2.1, h1.2.2.2.trans h2.2.2.2⟩

theorem LimitsFit.of_sameLimits {e1 e2 : ErrorInfo} (h : SameLimits e1 e2) (hL : LimitsFit e1) :
    LimitsFit e2 := by
  obtain ⟨h1, h2, h3, h4⟩ := h
  unfold LimitsFit at hL ⊢
  rw [← h1, ← h2, ← h3, ← h4]
  exact hL

/-- What a successful `readPlayerResponse` means for the budgets: the dealer
that read the response stays within budget, a dealer that has charged less
accepts the time stamps of the accepted response (as the replay of the journal
will), and a dealer that has charged less reads the same response from the
same lines. -/
theorem readPlayerResponse_chargedLess {σ ρ V : Type} (ops : GameOps σ ρ V)
    (state : MatchState σ) (numPlayers seat : Nat) (sendTime : Timeval)
    (hseat : seat < numPlayers) (input : List (List Char × Timeval)) :
    ∀ (eU : ErrorInfo) (action : Action) (recvTime : Timeval) (eU1 : ErrorInfo)
      (rest : List (List Char × Timeval)),
      WithinBudget numPlayers eU → LimitsFit eU →
      readPlayerResponse ops state seat sendTime eU input
        = ReadOutcome.success action recvTime eU1 rest →
      WithinBudget numPlayers eU1 ∧ LimitsFit eU1 ∧ SameLimits eU eU1
      ∧ ∀ eR, ChargedLess numPlayers eU eR →
          (¬ (checkErrorTimes seat sendTime recvTime eR).1 < 0
            ∧ ChargedLess numPlayers eU1 (checkErrorTimes seat sendTime recvTime eR).2)
          ∧ ∃ eR1, readPlayerResponse ops state seat sendTime eR input
                = ReadOutcome.success action recvTime eR1 rest
              ∧ ChargedLess numPlayers eU1 eR1 := by
  induction input with
  | nil =>
    intro eU action recvTime eU1 rest _ _ h
    simp [readPlayerResponse] at h
  | cons hd tl ih =>
    obtain ⟨line, recv⟩ := hd
    intro eU action recvTime eU1 rest hB hL h
    rw [readPlayerResponse] at h
    by_cases hcomment : line.head? = some '#' ∨ line.head? = some ';'
    · rw [if_pos hcomment] at h
      obtain ⟨g1, g2, g3, g4⟩ := ih eU action recvTime eU1 rest hB hL h
      refine ⟨g1, g2, g3, ?_⟩
      intro eR hR
      obtain ⟨g5, eR1, g6, g7⟩ := g4 eR hR
      refine ⟨g5, eR1, ?_, g7⟩
      rw [readPlayerResponse, if_pos hcomment]
      exact g6
    · rw [if_neg hcomment] at h
      simp only at h
      by_cases htime : (checkErrorTimes seat sendTime recv eU).1 < 0
      · rw [if_pos htime] at h
        exact absurd h (by simp)
      · rw [if_neg htime] at h
        obtain ⟨t1, t2, t3, t4, t5⟩ :=
          checkErrorTimes_step numPlayers seat sendTime recv eU hseat hB hL htime
        -- the lines that are skipped after the time check
        have hskip : readPlayerResponse ops state seat sendTime
              (checkErrorTimes seat sendTime recv eU).2 tl
                = ReadOutcome.success action recvTime eU1 rest →
            WithinBudget numPlayers eU1 ∧ LimitsFit eU1 ∧ SameLimits eU eU1
            ∧ ∀ eR, ChargedLess numPlayers eU eR →
                (¬ (checkErrorTimes seat sendTime recvTime eR).1 < 0
                  ∧ ChargedLess numPlayers eU1 (checkErrorTimes seat sendTime recvTime eR).2)
                ∧ ∃ eR1, readPlayerResponse ops state seat sendTime
                      (checkErrorTimes seat sendTime recv eR).2 tl
                      = ReadOutcome.success action recvTime eR1 rest
                    ∧ ChargedLess numPlayers eU1 eR1 := by
          intro h1
          obtain ⟨g1, g2, g3, g4⟩ := ih _ action recvTime eU1 rest t1 t2 h1
          refine ⟨g1, g2, sameLimits_trans t3 g3, ?_⟩
          intro eR hR
          obtain ⟨r1, r2, r3⟩ := t5 eR hR
          exact ⟨(g4 eR r1).1, (g4 _ r3).2⟩
        have hRtime : ∀ eR, ChargedLess numPlayers eU eR →
            ¬ (checkErrorTimes seat sendTime recv eR).1 < 0 := fun eR hR => (t5 eR hR).2.1
        cases hstate : ops.readMatchState line with
        | none =>
          rw [hstate] at h
          obtain ⟨g1, g2, g3, g4⟩ := hskip h
          refine ⟨g1, g2, g3, ?_⟩
          intro eR hR
          obtain ⟨g5, eR1, g6, g7⟩ := g4 eR hR
          refine ⟨g5, eR1, ?_, g7⟩
          rw [readPlayerResponse, if_neg hcomment]
          simp only [hRtime eR hR, if_false, hstate]
          exact g6
        | some ct =>
          obtain ⟨c, tempState⟩ := ct
          rw [hstate] at h
          simp only at h
          by_cases hequal : ops.matchStatesEqual state tempState = false
          · rw [if_pos hequal] at h
            obtain ⟨g1, g2, g3, g4⟩ := hskip h
            refine ⟨g1, g2, g3, ?_⟩
            intro eR hR
            obtain ⟨g5, eR1, g6, g7⟩ := g4 eR hR
            refine ⟨g5, eR1, ?_, g7⟩
            rw [readPlayerResponse, if_neg hcomment]
            simp only [hRtime eR hR, if_false, hstate, hequal, if_true]
            exact g6
          · rw [if_neg hequal] at h
            obtain ⟨k1, k2, k3, k4, k5⟩ := checkErrorInvalidAction_keeps numPlayers seat
              (checkErrorTimes seat sendTime recv eU).2
            cases hact : (if line.getD c (Char.ofNat 0) ≠ ':' then none
                else ops.readAction (line.drop (c + 1))) with
            | none =>
              rw [hact] at h
              simp only at h
              injection h with h1 h2 h3 h4
              subst h1 h2 h3 h4
              refine ⟨k1 t1, k2 t2, sameLimits_trans t3 k3, ?_⟩
              intro eR hR
              obtain ⟨r1, r2, r3⟩ := t5 eR hR
              refine ⟨⟨r2, k4 _ r3⟩,
                (checkErrorInvalidAction seat (checkErrorTimes seat sendTime recv eR).2).2, ?_, ?_⟩
              · rw [readPlayerResponse, if_neg hcomment]
                simp only [hRtime eR hR, if_false, hstate, hequal, hact]
                rfl
              · exact (checkErrorInvalidAction_keeps numPlayers seat _).2.2.2.2 _ (k4 _ r3)
            | some ra =>
              obtain ⟨r, parsed⟩ := ra
              rw [hact] at h
              simp only at h
              by_cases hvalid : (ops.isValidAction state.state true parsed).1 = false
              · rw [if_pos hvalid] at h
                by_cases hinv : (checkErrorInvalidAction seat
                    (checkErrorTimes seat sendTime recv eU).2).1 < 0
                · rw [if_pos hinv] at h
                  exact absurd h (by simp)
                · rw [if_neg hinv] at h
                  injection h with h1 h2 h3 h4
                  subst h1 h2 h3 h4
                  refine ⟨k1 t1, k2 t2, sameLimits_trans t3 k3, ?_⟩
                  intro eR hR
                  obtain ⟨r1, r2, r3⟩ := t5 eR hR
                  refine ⟨⟨r2, k4 _ r3⟩,
                (checkErrorInvalidAction seat (checkErrorTimes seat sendTime recv eR).2).2, ?_, ?_⟩
                  · have hLR : LimitsFit (checkErrorTimes seat sendTime recv eR).2 :=
                      LimitsFit.of_sameLimits r3.1 t2
                    rw [readPlayerResponse, if_neg hcomment]
                    simp only [hRtime eR hR, if_false, hstate, hequal, hact, hvalid, if_true,
                      checkErrorInvalidAction_pass seat _ hLR.2.2]
                    rfl
                  · exact (checkErrorInvalidAction_keeps numPlayers seat _).2.2.2.2 _ (k4 _ r3)
              · rw [if_neg hvalid] at h
                injection h with h1 h2 h3 h4
                subst h1 h2 h3 h4
                refine ⟨t1, t2, t3, ?_⟩
                intro eR hR
                obtain ⟨r1, r2, r3⟩ := t5 eR hR
                refine ⟨⟨r2, r3⟩, (checkErrorTimes seat sendTime recv eR).2, ?_, r3⟩
                rw [readPlayerResponse, if_neg hcomment]
                simp only [hRtime eR hR, if_false, hstate, hequal, hact, hvalid]
                rfl

theorem setUpNewHand_spec {σ ρ V : Type} (ops : GameOps σ ρ V) (fixedSeats : Nat)
    (m : Match σ ρ V) :
    (setUpNewHand ops fixedSeats m).1 = 0
    ∧ (setUpNewHand ops fixedSeats m).2.handId = (m.handId + 1) % 2 ^ 32
    ∧ (setUpNewHand ops fixedSeats m).2.player0Seat
        = (if fixedSeats % 256 = 0 then ((m.player0Seat + 1) % ops.numPlayers) % 256
           else m.player0Seat)
    ∧ (setUpNewHand ops fixedSeats m).2.errorInfo = (checkErrorNewHand ops.numPlayers m.errorInfo).2
    ∧ (setUpNewHand ops fixedSeats m).2.rng
        = (ops.dealCards m.rng (ops.initState ((m.handId + 1) % 2 ^ 32) m.state.state)).1
    ∧ (setUpNewHand ops fixedSeats m).2.state.state
        = (ops.dealCards m.rng (ops.initState ((m.handId + 1) % 2 ^ 32) m.state.state)).2
    ∧ (setUpNewHand ops fixedSeats m).2.totalValue = m.totalValue := by
  have hpass := (checkErrorNewHand_keeps ops.numPlayers ops.numPlayers m.errorInfo).2.2.2.2.2
  unfold setUpNewHand
  simp only [hpass, if_false]
  trivial

theorem setUpNewHand_sameHand {σ ρ V : Type} (ops : GameOps σ ρ V) (fixedSeats : Nat)
    (m1 m2 : Match σ ρ V) (h : SameHand m1 m2) :
    SameHand (setUpNewHand ops fixedSeats m1).2 (setUpNewHand ops fixedSeats m2).2 := by
  obtain ⟨h1, h2, h3, h4, h5⟩ := h
  obtain ⟨-, a2, a3, -, a5, a6, a7⟩ := setUpNewHand_spec ops fixedSeats m1
  obtain ⟨-, b2, b3, -, b5, b6, b7⟩ := setUpNewHand_spec ops fixedSeats m2
  refine ⟨?_, ?_, ?_, ?_, ?_⟩
  · rw [a2, b2, h1]
  · rw [a3, b3, h2]
  · rw [a6, b6, h1, h3, h4]
  · rw [a5, b5, h1, h3, h4]
  · rw [a7, b7, h5]

theorem sameHand_symm {σ ρ V : Type} {m1 m2 : Match σ ρ V} (h : SameHand m1 m2) :
    SameHand m2 m1 :=
  ⟨h.1.symm, h.2.1.symm, h.2.2.1.symm, h.2.2.2.1.symm, h.2.2.2.2.symm⟩

theorem sameHand_trans {σ ρ V : Type} {m1 m2 m3 : Match σ ρ V} (h1 : SameHand m1 m2)
    (h2 : SameHand m2 m3) : SameHand m1 m3 :=
  ⟨h1.1.trans h2.1, h1.2.1.trans h2.2.1, h1.2.2.1.trans h2.2.2.1, h1.2.2.2.1.trans h2.2.2.2.1,
    h1.2.2.2.2.trans h2.2.2.2.2⟩

theorem processTransactionFile_snoc {σ ρ V : Type} [Add V] (ops : GameOps σ ρ V)
    (fixedSeats : Nat) (line : JournalLine) (hfields : line.fields = 5)
    (lines : List JournalLine) :
    ∀ (loc : ReplayLocals) (m mR : Match σ ρ V),
      processTransactionFile ops fixedSeats lines loc m = (0, mR) →
      processTransactionFile ops fixedSeats (lines ++ [line]) loc m
        = (if (replayLine ops fixedSeats line ⟨line.handId, line.sendTime, line.recvTime⟩ mR).1 < 0
            then
              (-1, (replayLine ops fixedSeats line
                ⟨line.handId, line.sendTime, line.recvTime⟩ mR).2)
            else
              (0, (replayLine ops fixedSeats line
                ⟨line.handId, line.sendTime, line.recvTime⟩ mR).2)) := by
  have hscan : ∀ loc, scanStamp loc line = ⟨line.handId, line.sendTime, line.recvTime⟩ := by
    intro loc
    simp [scanStamp, hfields]
  induction lines with
  | nil =>
    intro loc m mR h
    simp only [processTransactionFile] at h
    injection h with _ h2
    subst h2
    simp only [List.nil_append, processTransactionFile, hscan]
  | cons a lines ih =>
    intro loc m mR h
    simp only [List.cons_append, processTransactionFile] at h ⊢
    by_cases hr : (replayLine ops fixedSeats a (scanStamp loc a) m).1 < 0
    · rw [if_pos hr] at h
      injection h with h1 _
      exact absurd h1 (by decide)
    · rw [if_neg hr] at h ⊢
      exact ih _ _ _ h

theorem playTurn_some {σ ρ V : Type} (ops : GameOps σ ρ V) (useJournal : Bool) (io : StepInput)
    (st st1 : Live σ ρ V) (h : playTurn ops useJournal io st = some st1) :
    ∃ sendTime vp action recvTime errorInfo rest,
      broadcast ops.numPlayers st.m.player0Seat (ops.currentPlayer st.m.state.state) true
          io.sendTimes st.sendTime st.m.state.viewingPlayer = some (sendTime, vp)
      ∧ readPlayerResponse ops ⟨st.m.state.state, ops.currentPlayer st.m.state.state⟩
          (playerToSeat ops.numPlayers st.m.player0Seat (ops.currentPlayer st.m.state.state))
          sendTime st.m.errorInfo
          (st.readBuf
            (playerToSeat ops.numPlayers st.m.player0Seat (ops.currentPlayer st.m.state.state)))
          = ReadOutcome.success action recvTime errorInfo rest
      ∧ ¬ (useJournal = true ∧ io.journalOk = false)
      ∧ st1 =
          { st with
            m := { st.m with
                   errorInfo := errorInfo
                   state := ⟨ops.doAction action st.m.state.state,
                     ops.currentPlayer st.m.state.state⟩ }
            sendTime := sendTime
            readBuf := Function.update st.readBuf
              (playerToSeat ops.numPlayers st.m.player0Seat
                (ops.currentPlayer st.m.state.state)) rest
            journal :=
              if useJournal = true then
                st.journal ++ [logTransaction ops st.m.state.state action sendTime recvTime]
              else st.journal
            history := st.history ++ [(st.m.state.state, action)] } := by
  unfold playTurn at h
  simp only at h
  split at h
  · exact absurd h (by simp)
  · rename_i sendTime vp hb
    split at h
    · exact absurd h (by simp)
    · rename_i action recvTime errorInfo rest hr
      by_cases hj : useJournal = true ∧ io.journalOk = false
      · rw [if_pos hj] at h
        exact absurd h (by simp)
      · rw [if_neg hj] at h
        injection h with h
        exact ⟨sendTime, vp, action, recvTime, errorInfo, rest, hb, hr, hj, h.symm⟩

theorem finishHand_some {σ ρ V : Type} [Add V] (ops : GameOps σ ρ V) (useLog : Bool)
    (fixedSeats : Nat) (seatName : Nat → List Char) (io : StepInput) (st st1 : Live σ ρ V)
    (h : finishHand ops useLog fixedSeats seatName io st = some st1) :
    ∃ sendTime vp,
      broadcast ops.numPlayers st.m.player0Seat 0 false io.sendTimes st.sendTime
          st.m.state.viewingPlayer = some (sendTime, vp)
      ∧ ¬ (useLog = true ∧ io.logOk = false)
      ∧ st1 =
          { st with
            m := (setUpNewHand ops fixedSeats
              { st.m with
                totalValue :=
                  (creditPlayers ops st.m.player0Seat st.m.state.state st.value
                    st.m.totalValue).2
                state := { st.m.state with viewingPlayer := vp } }).2
            value :=
              (creditPlayers ops st.m.player0Seat st.m.state.state st.value st.m.totalValue).1
            log :=
              if useLog = true then
                st.log ++ [addToLogFile ops st.m.state.state
                  (creditPlayers ops st.m.player0Seat st.m.state.state st.value
                    st.m.totalValue).1 st.m.player0Seat seatName]
              else st.log } := by
  unfold finishHand at h
  simp only at h
  by_cases hl : useLog = true ∧ io.logOk = false
  · rw [if_pos hl] at h
    exact absurd h (by simp)
  · rw [if_neg hl] at h
    split at h
    · exact absurd h (by simp)
    · rename_i sendTime vp hb
      have hs := (setUpNewHand_spec ops fixedSeats
        { st.m with
          totalValue :=
            (creditPlayers ops st.m.player0Seat st.m.state.state st.value st.m.totalValue).2
          state := { st.m.state with viewingPlayer := vp } }).1
      rw [if_neg (by rw [hs]; decide)] at h
      injection h with h
      exact ⟨sendTime, vp, hb, hl, h.symm⟩

theorem afterHand_of_unfinished {σ ρ V : Type} [Add V] (ops : GameOps σ ρ V) (fixedSeats : Nat)
    (m : Match σ ρ V) (h : ops.stateFinished m.state.state = false) :
    afterHand ops fixedSeats m = m := by
  unfold afterHand
  rw [if_neg (by rw [h]; decide)]

theorem afterHand_sameHand {σ ρ V : Type} [Add V] (ops : GameOps σ ρ V) (fixedSeats : Nat)
    (m1 m2 : Match σ ρ V) (h : SameHand m1 m2)
    (hc : ChargedLess ops.numPlayers m1.errorInfo m2.errorInfo) :
    SameHand (afterHand ops fixedSeats m1) (afterHand ops fixedSeats m2)
    ∧ ChargedLess ops.numPlayers (afterHand ops fixedSeats m1).errorInfo
        (afterHand ops fixedSeats m2).errorInfo := by
  obtain ⟨h1, h2, h3, h4, h5⟩ := h
  unfold afterHand
  rw [← h3]
  split_ifs with hf
  · refine ⟨setUpNewHand_sameHand ops fixedSeats _ _ ⟨h1, h2, h3, h4, ?_⟩, ?_⟩
    · show creditSeats ops m1.player0Seat m1.state.state m1.totalValue
        = creditSeats ops m2.player0Seat m1.state.state m2.totalValue
      rw [h2, h5]
    · rw [(setUpNewHand_spec ops fixedSeats _).2.2.2.1, (setUpNewHand_spec ops fixedSeats _).2.2.2.1]
      exact (checkErrorNewHand_keeps ops.numPlayers ops.numPlayers m1.errorInfo).2.2.2.1 _ hc
  · exact ⟨⟨h1, h2, h3, h4, h5⟩, hc⟩

theorem replayLine_logTransaction {σ ρ V : Type} [Add V] (ops : GameOps σ ρ V)
    (fixedSeats : Nat) (state : σ) (action : Action) (sendTime recvTime : Timeval)
    (mR : Match σ ρ V) (hid : ops.handId state = mR.handId)
    (hvalid : ops.isValidAction mR.state.state false action = (true, action))
    (htime : ¬ (checkErrorTimes
      (playerToSeat ops.numPlayers mR.player0Seat (ops.currentPlayer mR.state.state))
      sendTime recvTime mR.errorInfo).1 < 0) :
    replayLine ops fixedSeats (logTransaction ops state action sendTime recvTime)
        ⟨(logTransaction ops state action sendTime recvTime).handId,
          (logTransaction ops state action sendTime recvTime).sendTime,
          (logTransaction ops state action sendTime recvTime).recvTime⟩ mR
      = (0, afterHand ops fixedSeats
          { mR with
            errorInfo := (checkErrorTimes
              (playerToSeat ops.numPlayers mR.player0Seat (ops.currentPlayer mR.state.state))
              sendTime recvTime mR.errorInfo).2
            state := { mR.state with state := ops.doAction action mR.state.state } }) := by
  unfold replayLine logTransaction
  simp only [hid, hvalid, htime, if_false, ne_eq, not_true_eq_false, show ¬ (5 < 4) by decide,
    Bool.true_eq_false]
  unfold afterHand
  split_ifs with hf
  · apply Prod.ext
    · exact (setUpNewHand_spec ops fixedSeats _).1
    · rfl
  · rfl

theorem playTurn_replayed {σ ρ V : Type} [Add V] (ops : GameOps σ ρ V) (laws : GameLaws ops)
    (fixedSeats : Nat) (loc : ReplayLocals) (m0 : Match σ ρ V) (io : StepInput)
    (st st1 : Live σ ρ V) (hst : Replayed ops fixedSeats loc m0 st)
    (hun : ops.stateFinished st.m.state.state = false)
    (h : playTurn ops true io st = some st1)
    (hvalid : ∀ sa ∈ st1.history, ops.isValidAction sa.1 false sa.2 = (true, sa.2)) :
    Replayed ops fixedSeats loc m0 st1 := by
  obtain ⟨sendTime, vp, action, recvTime, errorInfo, rest, hb, hr, hj, rfl⟩ :=
    playTurn_some ops true io st st1 h
  have hseat := playerToSeat_lt ops.numPlayers st.m.player0Seat
    (ops.currentPlayer st.m.state.state) laws.numPlayers_pos laws.numPlayers_le
  obtain ⟨g1, g2, g3, g4⟩ := readPlayerResponse_chargedLess ops _ ops.numPlayers _ sendTime
    hseat _ st.m.errorInfo action recvTime errorInfo rest hst.budget hst.fit hr
  obtain ⟨mR, hrep, hsame, hch⟩ := hst.replay
  rw [afterHand_of_unfinished ops fixedSeats st.m hun] at hsame hch
  obtain ⟨⟨hRpass, hRch⟩, -⟩ := g4 mR.errorInfo hch
  obtain ⟨s1, s2, s3, s4, s5⟩ := hsame
  have hv : ops.isValidAction mR.state.state false action = (true, action) := by
    rw [← s3]
    exact hvalid (st.m.state.state, action) (by simp)
  rw [s2, s3] at hRpass hRch
  have hline := replayLine_logTransaction ops fixedSeats st.m.state.state action sendTime
    recvTime mR (hst.handId_state.trans s1) hv hRpass
  have hsnoc := processTransactionFile_snoc ops fixedSeats
    (logTransaction ops st.m.state.state action sendTime recvTime) rfl st.journal loc m0 mR hrep
  rw [hline] at hsnoc
  simp only [show ¬ ((0 : Int) < 0) by decide, if_false] at hsnoc
  have hdo : ops.doAction action st.m.state.state = ops.doAction action mR.state.state := by
    rw [s3]
  have hafter := afterHand_sameHand ops fixedSeats
    { st.m with
      errorInfo := errorInfo
      state := ⟨ops.doAction action st.m.state.state, ops.currentPlayer st.m.state.state⟩ }
    { mR with
      errorInfo := (checkErrorTimes
        (playerToSeat ops.numPlayers mR.player0Seat (ops.currentPlayer mR.state.state))
        sendTime recvTime mR.errorInfo).2
      state := { mR.state with state := ops.doAction action mR.state.state } }
    ⟨s1, s2, hdo, s4, s5⟩ hRch
  exact
    { handId_state := (laws.handId_doAction action st.m.state.state).trans hst.handId_state
      seat_lt := hst.seat_lt
      budget := g1
      fit := g2
      replay := ⟨_, by simpa using hsnoc, hafter.1, hafter.2⟩ }

theorem finishHand_replayed {σ ρ V : Type} [Add V] (ops : GameOps σ ρ V) (laws : GameLaws ops)
    (useLog : Bool) (fixedSeats : Nat) (seatName : Nat → List Char) (loc : ReplayLocals)
    (m0 : Match σ ρ V) (io : StepInput) (st st1 : Live σ ρ V)
    (hst : Replayed ops fixedSeats loc m0 st)
    (hfin : ops.stateFinished st.m.state.state = true)
    (h : finishHand ops useLog fixedSeats seatName io st = some st1) :
    Replayed ops fixedSeats loc m0 st1
    ∧ ops.stateFinished st1.m.state.state = false
    ∧ st1.journal = st.journal ∧ st1.history = st.history := by
  obtain ⟨sendTime, vp, hb, hl, rfl⟩ := finishHand_some ops useLog fixedSeats seatName io st st1 h
  obtain ⟨hcredit, -⟩ := creditPlayers_spec ops st.m.player0Seat st.m.state.state st.value
    st.m.totalValue laws.numPlayers_le hst.seat_lt
  obtain ⟨mR, hrep, hsame, hch⟩ := hst.replay
  obtain ⟨a1, a2, a3, a4, a5, a6, a7⟩ := setUpNewHand_spec ops fixedSeats
    { st.m with
      totalValue :=
        (creditPlayers ops st.m.player0Seat st.m.state.state st.value st.m.totalValue).2
      state := { st.m.state with viewingPlayer := vp } }
  have hunf : ops.stateFinished (setUpNewHand ops fixedSeats
      { st.m with
        totalValue :=
          (creditPlayers ops st.m.player0Seat st.m.state.state st.value st.m.totalValue).2
        state := { st.m.state with viewingPlayer := vp } }).2.state.state = false := by
    rw [a6]
    exact laws.fresh_not_finished _ _ _
  have hafter : afterHand ops fixedSeats st.m
      = (setUpNewHand ops fixedSeats
          { st.m with
            totalValue := creditSeats ops st.m.player0Seat st.m.state.state st.m.totalValue }).2 := by
    unfold afterHand
    rw [if_pos hfin]
  have hsh : SameHand (setUpNewHand ops fixedSeats
      { st.m with
        totalValue :=
          (creditPlayers ops st.m.player0Seat st.m.state.state st.value st.m.totalValue).2
        state := { st.m.state with viewingPlayer := vp } }).2 (afterHand ops fixedSeats st.m) := by
    rw [hafter]
    exact setUpNewHand_sameHand ops fixedSeats _ _ ⟨rfl, rfl, rfl, rfl, hcredit⟩
  have herr : (setUpNewHand ops fixedSeats
      { st.m with
        totalValue :=
          (creditPlayers ops st.m.player0Seat st.m.state.state st.value st.m.totalValue).2
        state := { st.m.state with viewingPlayer := vp } }).2.errorInfo
      = (afterHand ops fixedSeats st.m).errorInfo := by
    rw [hafter, a4, (setUpNewHand_spec ops fixedSeats _).2.2.2.1]
  refine ⟨?_, hunf, rfl, rfl⟩
  refine
    { handId_state := ?_
      seat_lt := ?_
      budget := ?_
      fit := ?_
      replay := ⟨mR, hrep, ?_, ?_⟩ }
  · show ops.handId (setUpNewHand ops fixedSeats _).2.state.state
      = (setUpNewHand ops fixedSeats _).2.handId
    rw [a6, a2, laws.handId_dealCards, laws.handId_initState]
  · show (setUpNewHand ops fixedSeats _).2.player0Seat < ops.numPlayers
    rw [a3]
    split_ifs
    · exact lt_of_le_of_lt (Nat.mod_le _ _) (Nat.mod_lt _ laws.numPlayers_pos)
    · exact hst.seat_lt
  · show WithinBudget ops.numPlayers (setUpNewHand ops fixedSeats _).2.errorInfo
    rw [a4]
    exact (checkErrorNewHand_keeps ops.numPlayers ops.numPlayers st.m.errorInfo).1 hst.budget
  · show LimitsFit (setUpNewHand ops fixedSeats _).2.errorInfo
    rw [a4]
    exact (checkErrorNewHand_keeps ops.numPlayers ops.numPlayers st.m.errorInfo).2.1 hst.fit
  · rw [afterHand_of_unfinished ops fixedSeats _ hunf]
    exact sameHand_trans hsh hsame
  · rw [afterHand_of_unfinished ops fixedSeats _ hunf]
    show ChargedLess ops.numPlayers (setUpNewHand ops fixedSeats _).2.errorInfo mR.errorInfo
    rw [herr]
    exact hch

theorem gameLoopFrom_history {σ ρ V : Type} [Add V] (ops : GameOps σ ρ V) (numHands : Nat)
    (useLog useJournal : Bool) (fixedSeats : Nat) (seatName : Nat → List Char)
    (ios : List StepInput) :
    ∀ (st st1 : Live σ ρ V),
      (gameLoopFrom ops numHands useLog useJournal fixedSeats seatName ios st).state? = some st1 →
      ∃ hs, st1.history = st.history ++ hs := by
  induction ios with
  | nil =>
    intro st st1 h
    simp only [gameLoopFrom, Outcome.state?] at h
    injection h with h
    exact ⟨[], by rw [h, List.append_nil]⟩
  | cons io ios ih =>
    intro st st1 h
    rw [gameLoopFrom] at h
    by_cases hf : ops.stateFinished st.m.state.state = true
    · rw [if_pos hf] at h
      cases hfin : finishHand ops useLog fixedSeats seatName io st with
      | none => rw [hfin] at h; simp [Outcome.state?] at h
      | some st2 =>
        rw [hfin] at h
        obtain ⟨_, _, _, _, heq⟩ := finishHand_some ops useLog fixedSeats seatName io st st2 hfin
        have hh : st2.history = st.history := by rw [heq]
        simp only at h
        by_cases hn : st2.m.handId ≥ numHands
        · rw [if_pos hn] at h
          simp only [Outcome.state?] at h
          injection h with h
          exact ⟨[], by rw [← h, hh, List.append_nil]⟩
        · rw [if_neg hn] at h
          obtain ⟨hs, hhs⟩ := ih _ _ h
          exact ⟨hs, by rw [hhs, hh]⟩
    · rw [if_neg hf] at h
      cases hturn : playTurn ops useJournal io st with
      | none => rw [hturn] at h; simp [Outcome.state?] at h
      | some st2 =>
        rw [hturn] at h
        obtain ⟨_, _, action, _, _, _, _, _, _, heq⟩ := playTurn_some ops useJournal io st st2 hturn
        have hh : st2.history = st.history ++ [(st.m.state.state, action)] := by rw [heq]
        obtain ⟨hs, hhs⟩ := ih _ _ h
        exact ⟨(st.m.state.state, action) :: hs, by rw [hhs, hh]; simp⟩

theorem gameLoopFrom_replayed {σ ρ V : Type} [Add V] (ops : GameOps σ ρ V)
    (laws : GameLaws ops) (numHands : Nat) (useLog : Bool) (fixedSeats : Nat)
    (seatName : Nat → List Char) (loc : ReplayLocals) (m0 : Match σ ρ V) (ios : List StepInput) :
    ∀ (st st1 : Live σ ρ V), Replayed ops fixedSeats loc m0 st →
      (gameLoopFrom ops numHands useLog true fixedSeats seatName ios st).state? = some st1 →
      (∀ sa ∈ st1.history, ops.isValidAction sa.1 false sa.2 = (true, sa.2)) →
      Replayed ops fixedSeats loc m0 st1 := by
  induction ios with
  | nil =>
    intro st st1 hst h _
    simp only [gameLoopFrom, Outcome.state?] at h
    injection h with h
    rw [← h]
    exact hst
  | cons io ios ih =>
    intro st st1 hst h hvalid
    rw [gameLoopFrom] at h
    by_cases hf : ops.stateFinished st.m.state.state = true
    · rw [if_pos hf] at h
      cases hfin : finishHand ops useLog fixedSeats seatName io st with
      | none => rw [hfin] at h; simp [Outcome.state?] at h
      | some st2 =>
        rw [hfin] at h
        obtain ⟨h2, -, -, -⟩ := finishHand_replayed ops laws useLog fixedSeats seatName loc m0 io
          st st2 hst hf hfin
        simp only at h
        by_cases hn : st2.m.handId ≥ numHands
        · rw [if_pos hn] at h
          simp only [Outcome.state?] at h
          injection h with h
          rw [← h]
          exact h2
        · rw [if_neg hn] at h
          exact ih _ _ h2 h hvalid
    · rw [if_neg hf] at h
      cases hturn : playTurn ops true io st with
      | none => rw [hturn] at h; simp [Outcome.state?] at h
      | some st2 =>
        rw [hturn] at h
        simp only at h
        obtain ⟨hs, hhs⟩ := gameLoopFrom_history ops numHands useLog true fixedSeats seatName ios
          st2 st1 h
        have h2 := playTurn_replayed ops laws fixedSeats loc m0 io st st2 hst
          (by simpa using hf) hturn
          (fun sa hsa => hvalid sa (by rw [hhs]; exact List.mem_append_left _ hsa))
        exact ih _ _ h2 h hvalid

theorem foldl_broadcast_none (numPlayers player0Seat currentP : Nat) (remember : Bool)
    (sendTimes : Nat → Option Timeval) (l : List Nat) :
    l.foldl
        (fun (acc : Option (Timeval × Nat)) seat =>
          match acc with
          | none => none
          | some (sendTime, _) =>
            match sendTimes seat with
            | none => none
            | some t =>
              some (if remember = true ∧ seatToPlayer numPlayers player0Seat seat = currentP then t
                    else sendTime,
                seatToPlayer numPlayers player0Seat seat))
        none = none := by
  induction l with
  | nil => rfl
  | cons a l ih => simpa using ih

theorem foldl_broadcast_congr (numPlayers player0Seat currentP : Nat) (remember : Bool)
    (sendTimes : Nat → Option Timeval) (l : List Nat) :
    ∀ (s v s1 v1 : _) (t : Timeval) (w : Nat),
      l.foldl
        (fun (acc : Option (Timeval × Nat)) seat =>
          match acc with
          | none => none
          | some (sendTime, _) =>
            match sendTimes seat with
            | none => none
            | some t =>
              some (if remember = true ∧ seatToPlayer numPlayers player0Seat seat = currentP then t
                    else sendTime,
                seatToPlayer numPlayers player0Seat seat))
        (some (s, v)) = some (t, w) →
      ∃ t1 w1,
        l.foldl
          (fun (acc : Option (Timeval × Nat)) seat =>
            match acc with
            | none => none
            | some (sendTime, _) =>
              match sendTimes seat with
              | none => none
              | some t =>
                some (if remember = true ∧ seatToPlayer numPlayers player0Seat seat = currentP
                      then t else sendTime,
                  seatToPlayer numPlayers player0Seat seat))
          (some (s1, v1)) = some (t1, w1)
        ∧ ((s = s1 ∨ ∃ seat ∈ l, remember = true
              ∧ seatToPlayer numPlayers player0Seat seat = currentP) → t1 = t) := by
  induction l with
  | nil =>
    intro s v s1 v1 t w h
    simp only [List.foldl_nil] at h ⊢
    injection h with h
    injection h with h1 h2
    refine ⟨s1, v1, rfl, ?_⟩
    rintro (hs | ⟨seat, hseat, -⟩)
    · rw [← hs, h1]
    · simp at hseat
  | cons a l ih =>
    intro s v s1 v1 t w h
    simp only [List.foldl_cons] at h ⊢
    cases hsend : sendTimes a with
    | none =>
      rw [hsend] at h
      simp only at h
      rw [foldl_broadcast_none] at h
      exact absurd h (by simp)
    | some ta =>
      rw [hsend] at h
      simp only at h ⊢
      obtain ⟨t1, w1, g1, g2⟩ := ih _ _
        (if remember = true ∧ seatToPlayer numPlayers player0Seat a = currentP then ta else s1)
        (seatToPlayer numPlayers player0Seat a) t w h
      refine ⟨t1, w1, g1, ?_⟩
      rintro (hs | ⟨seat, hseat, hm⟩)
      · exact g2 (Or.inl (by rw [hs]))
      · rcases List.mem_cons.mp hseat with hsa | hsl
        · subst hsa
          exact g2 (Or.inl (by rw [if_pos hm, if_pos hm]))
        · exact g2 (Or.inr ⟨seat, hsl, hm⟩)

theorem playTurn_eq {σ ρ V : Type} (ops : GameOps σ ρ V) (useJournal : Bool) (io : StepInput)
    (st : Live σ ρ V) (sendTime : Timeval) (vp : Nat) (action : Action) (recvTime : Timeval)
    (errorInfo : ErrorInfo) (rest : List (List Char × Timeval))
    (hb : broadcast ops.numPlayers st.m.player0Seat (ops.currentPlayer st.m.state.state) true
          io.sendTimes st.sendTime st.m.state.viewingPlayer = some (sendTime, vp))
    (hr : readPlayerResponse ops ⟨st.m.state.state, ops.currentPlayer st.m.state.state⟩
          (playerToSeat ops.numPlayers st.m.player0Seat (ops.currentPlayer st.m.state.state))
          sendTime st.m.errorInfo
          (st.readBuf
            (playerToSeat ops.numPlayers st.m.player0Seat (ops.currentPlayer st.m.state.state)))
          = ReadOutcome.success action recvTime errorInfo rest)
    (hj : ¬ (useJournal = true ∧ io.journalOk = false)) :
    playTurn ops useJournal io st
      = some
          { st with
            m := { st.m with
                   errorInfo := errorInfo
                   state := ⟨ops.doAction action st.m.state.state,
                     ops.currentPlayer st.m.state.state⟩ }
            sendTime := sendTime
            readBuf := Function.update st.readBuf
              (playerToSeat ops.numPlayers st.m.player0Seat
                (ops.currentPlayer st.m.state.state)) rest
            journal :=
              if useJournal = true then
                st.journal ++ [logTransaction ops st.m.state.state action sendTime recvTime]
              else st.journal
            history := st.history ++ [(st.m.state.state, action)] } := by
  unfold playTurn
  simp only [hb, hr]
  rw [if_neg hj]

theorem finishHand_eq {σ ρ V : Type} [Add V] (ops : GameOps σ ρ V) (useLog : Bool)
    (fixedSeats : Nat) (seatName : Nat → List Char) (io : StepInput) (st : Live σ ρ V)
    (sendTime : Timeval) (vp : Nat)
    (hb : broadcast ops.numPlayers st.m.player0Seat 0 false io.sendTimes st.sendTime
          st.m.state.viewingPlayer = some (sendTime, vp))
    (hl : ¬ (useLog = true ∧ io.logOk = false)) :
    finishHand ops useLog fixedSeats seatName io st
      = some
          { st with
            m := (setUpNewHand ops fixedSeats
              { st.m with
                totalValue :=
                  (creditPlayers ops st.m.player0Seat st.m.state.state st.value
                    st.m.totalValue).2
                state := { st.m.state with viewingPlayer := vp } }).2
            value :=
              (creditPlayers ops st.m.player0Seat st.m.state.state st.value st.m.totalValue).1
            log :=
              if useLog = true then
                st.log ++ [addToLogFile ops st.m.state.state
                  (creditPlayers ops st.m.player0Seat st.m.state.state st.value
                    st.m.totalValue).1 st.m.player0Seat seatName]
              else st.log } := by
  unfold finishHand
  simp only [hb]
  rw [if_neg hl]
  have hs := (setUpNewHand_spec ops fixedSeats
    { st.m with
      totalValue :=
        (creditPlayers ops st.m.player0Seat st.m.state.state st.value st.m.totalValue).2
      state := { st.m.state with viewingPlayer := vp } }).1
  rw [if_neg (by rw [hs]; decide)]

theorem playTurn_resumed {σ ρ V : Type} (ops : GameOps σ ρ V) (laws : GameLaws ops)
    (io : StepInput) (stU stR stU1 : Live σ ρ V) (hR : Resumed ops stU stR)
    (hun : ops.stateFinished stU.m.state.state = false)
    (h : playTurn ops true io stU = some stU1) :
    ∃ stR1, playTurn ops true io stR = some stR1 ∧ Resumed ops stU1 stR1
      ∧ stU1.log = stU.log ∧ stR1.log = stR.log := by
  obtain ⟨sendTime, vp, action, recvTime, errorInfo, rest, hb, hr, hj, rfl⟩ :=
    playTurn_some ops true io stU stU1 h
  obtain ⟨s1, s2, s3, s4, s5⟩ := hR.hand
  have hcp := laws.currentPlayer_lt _ hun
  have hseat := playerToSeat_lt ops.numPlayers stU.m.player0Seat
    (ops.currentPlayer stU.m.state.state) laws.numPlayers_pos laws.numPlayers_le
  -- the broadcast of the resumed run notes the same send time
  unfold broadcast at hb
  obtain ⟨t1, w1, hb1, ht1⟩ := foldl_broadcast_congr ops.numPlayers stU.m.player0Seat
    (ops.currentPlayer stU.m.state.state) true io.sendTimes (List.range ops.numPlayers)
    stU.sendTime stU.m.state.viewingPlayer stR.sendTime stR.m.state.viewingPlayer sendTime vp hb
  have ht : t1 = sendTime :=
    ht1 (Or.inr ⟨playerToSeat ops.numPlayers stU.m.player0Seat
        (ops.currentPlayer stU.m.state.state), List.mem_range.mpr hseat, rfl,
      seatToPlayer_playerToSeat _ _ _ laws.numPlayers_le hR.seat_lt hcp⟩)
  subst ht
  have hbR : broadcast ops.numPlayers stR.m.player0Seat (ops.currentPlayer stR.m.state.state)
      true io.sendTimes stR.sendTime stR.m.state.viewingPlayer = some (t1, w1) := by
    rw [← s2, ← s3]
    exact hb1
  obtain ⟨g1, g2, g3, g4⟩ := readPlayerResponse_chargedLess ops _ ops.numPlayers _ t1
    hseat _ stU.m.errorInfo action recvTime errorInfo rest hR.budget hR.fit hr
  obtain ⟨-, eR1, hrR, hcR⟩ := g4 stR.m.errorInfo hR.charged
  have hrR1 : readPlayerResponse ops ⟨stR.m.state.state, ops.currentPlayer stR.m.state.state⟩
      (playerToSeat ops.numPlayers stR.m.player0Seat (ops.currentPlayer stR.m.state.state))
      t1 stR.m.errorInfo
      (stR.readBuf
        (playerToSeat ops.numPlayers stR.m.player0Seat (ops.currentPlayer stR.m.state.state)))
      = ReadOutcome.success action recvTime eR1 rest := by
    rw [← s2, ← s3, ← hR.readBuf]
    exact hrR
  refine ⟨_, playTurn_eq ops true io stR t1 w1 action recvTime eR1 rest hbR hrR1 hj, ?_, rfl, rfl⟩
  have hdo : ops.doAction action stU.m.state.state = ops.doAction action stR.m.state.state := by
    rw [s3]
  exact
    { hand := ⟨s1, s2, hdo, s4, s5⟩
      charged := hcR
      budget := g1
      fit := g2
      seat_lt := hR.seat_lt
      readBuf := by
        show Function.update stU.readBuf _ rest = Function.update stR.readBuf _ rest
        rw [s2, s3, hR.readBuf]
      journal := by
        show (if true = true then stU.journal ++ [_] else stU.journal)
          = (if true = true then stR.journal ++ [_] else stR.journal)
        rw [hR.journal, s3] }

theorem finishHand_resumed {σ ρ V : Type} [Add V] (ops : GameOps σ ρ V) (laws : GameLaws ops)
    (useLog : Bool) (fixedSeats : Nat) (seatName : Nat → List Char) (io : StepInput)
    (stU stR stU1 : Live σ ρ V) (hR : Resumed ops stU stR)
    (h : finishHand ops useLog fixedSeats seatName io stU = some stU1) :
    ∃ stR1, finishHand ops useLog fixedSeats seatName io stR = some stR1 ∧ Resumed ops stU1 stR1
      ∧ ∃ lines, stU1.log = stU.log ++ lines ∧ stR1.log = stR.log ++ lines := by
  obtain ⟨sendTime, vp, hb, hl, rfl⟩ :=
    finishHand_some ops useLog fixedSeats seatName io stU stU1 h
  obtain ⟨s1, s2, s3, s4, s5⟩ := hR.hand
  unfold broadcast at hb
  obtain ⟨t1, w1, hb1, -⟩ := foldl_broadcast_congr ops.numPlayers stU.m.player0Seat
    0 false io.sendTimes (List.range ops.numPlayers)
    stU.sendTime stU.m.state.viewingPlayer stR.sendTime stR.m.state.viewingPlayer sendTime vp hb
  have hbR : broadcast ops.numPlayers stR.m.player0Seat 0 false io.sendTimes stR.sendTime
      stR.m.state.viewingPlayer = some (t1, w1) := by
    rw [← s2]
    exact hb1
  obtain ⟨cU2, cU1⟩ := creditPlayers_spec ops stU.m.player0Seat stU.m.state.state stU.value
    stU.m.totalValue laws.numPlayers_le hR.seat_lt
  obtain ⟨cR2, cR1⟩ := creditPlayers_spec ops stR.m.player0Seat stR.m.state.state stR.value
    stR.m.totalValue laws.numPlayers_le (by rw [← s2]; exact hR.seat_lt)
  have hvalues : (List.range ops.numPlayers).map
        (creditPlayers ops stU.m.player0Seat stU.m.state.state stU.value stU.m.totalValue).1
      = (List.range ops.numPlayers).map
        (creditPlayers ops stR.m.player0Seat stR.m.state.state stR.value stR.m.totalValue).1 := by
    apply List.map_congr_left
    intro p hp
    rw [cU1 p (List.mem_range.mp hp), cR1 p (List.mem_range.mp hp), s3]
  have hline : addToLogFile ops stU.m.state.state
        (creditPlayers ops stU.m.player0Seat stU.m.state.state stU.value stU.m.totalValue).1
        stU.m.player0Seat seatName
      = addToLogFile ops stR.m.state.state
        (creditPlayers ops stR.m.player0Seat stR.m.state.state stR.value stR.m.totalValue).1
        stR.m.player0Seat seatName := by
    unfold addToLogFile
    rw [hvalues, s2, s3]
  have hcred : (creditPlayers ops stU.m.player0Seat stU.m.state.state stU.value
        stU.m.totalValue).2
      = (creditPlayers ops stR.m.player0Seat stR.m.state.state stR.value stR.m.totalValue).2 := by
    rw [cU2, cR2, s2, s3, s5]
  have hsame := setUpNewHand_sameHand ops fixedSeats
    { stU.m with
      totalValue :=
        (creditPlayers ops stU.m.player0Seat stU.m.state.state stU.value stU.m.totalValue).2
      state := { stU.m.state with viewingPlayer := vp } }
    { stR.m with
      totalValue :=
        (creditPlayers ops stR.m.player0Seat stR.m.state.state stR.value stR.m.totalValue).2
      state := { stR.m.state with viewingPlayer := w1 } }
    ⟨s1, s2, s3, s4, hcred⟩
  obtain ⟨-, -, a3, a4, -, -, -⟩ := setUpNewHand_spec ops fixedSeats
    { stU.m with
      totalValue :=
        (creditPlayers ops stU.m.player0Seat stU.m.state.state stU.value stU.m.totalValue).2
      state := { stU.m.state with viewingPlayer := vp } }
  obtain ⟨-, -, -, b4, -, -, -⟩ := setUpNewHand_spec ops fixedSeats
    { stR.m with
      totalValue :=
        (creditPlayers ops stR.m.player0Seat stR.m.state.state stR.value stR.m.totalValue).2
      state := { stR.m.state with viewingPlayer := w1 } }
  obtain ⟨k1, k2, -, k4, -, -⟩ :=
    checkErrorNewHand_keeps ops.numPlayers ops.numPlayers stU.m.errorInfo
  refine ⟨_, finishHand_eq ops useLog fixedSeats seatName io stR t1 w1 hbR hl, ?_, ?_⟩
  · exact
      { hand := hsame
        charged := by
          show ChargedLess ops.numPlayers (setUpNewHand ops fixedSeats _).2.errorInfo
            (setUpNewHand ops fixedSeats _).2.errorInfo
          rw [a4, b4]
          exact k4 _ hR.charged
        budget := by
          show WithinBudget ops.numPlayers (setUpNewHand ops fixedSeats _).2.errorInfo
          rw [a4]
          exact k1 hR.budget
        fit := by
          show LimitsFit (setUpNewHand ops fixedSeats _).2.errorInfo
          rw [a4]
          exact k2 hR.fit
        seat_lt := by
          show (setUpNewHand ops fixedSeats _).2.player0Seat < ops.numPlayers
          rw [a3]
          split_ifs
          · exact lt_of_le_of_lt (Nat.mod_le _ _) (Nat.mod_lt _ laws.numPlayers_pos)
          · exact hR.seat_lt
        readBuf := hR.readBuf
        journal := hR.journal }
  · by_cases hu : useLog = true
    · refine ⟨[addToLogFile ops stU.m.state.state
        (creditPlayers ops stU.m.player0Seat stU.m.state.state stU.value stU.m.totalValue).1
        stU.m.player0Seat seatName], ?_, ?_⟩
      · show (if useLog = true then _ else _) = _
        rw [if_pos hu]
      · show (if useLog = true then _ else _) = _
        rw [if_pos hu, hline]
    · refine ⟨[], ?_, ?_⟩
      · show (if useLog = true then _ else _) = _
        rw [if_neg hu, List.append_nil]
      · show (if useLog = true then _ else _) = _
        rw [if_neg hu, List.append_nil]

theorem gameLoopFrom_append {σ ρ V : Type} [Add V] (ops : GameOps σ ρ V) (numHands : Nat)
    (useLog useJournal : Bool) (fixedSeats : Nat) (seatName : Nat → List Char)
    (ios1 ios2 : List StepInput) :
    ∀ (st st1 : Live σ ρ V),
      gameLoopFrom ops numHands useLog useJournal fixedSeats seatName ios1 st = .running st1 →
      gameLoopFrom ops numHands useLog useJournal fixedSeats seatName (ios1 ++ ios2) st
        = gameLoopFrom ops numHands useLog useJournal fixedSeats seatName ios2 st1 := by
  induction ios1 with
  | nil =>
    intro st st1 h
    simp only [gameLoopFrom] at h
    injection h with h
    rw [List.nil_append, h]
  | cons io ios ih =>
    intro st st1 h
    rw [gameLoopFrom] at h
    rw [List.cons_append, gameLoopFrom]
    by_cases hf : ops.stateFinished st.m.state.state = true
    · rw [if_pos hf] at h ⊢
      cases hfin : finishHand ops useLog fixedSeats seatName io st with
      | none => rw [hfin] at h; exact absurd h (by simp)
      | some st2 =>
        rw [hfin] at h
        simp only at h ⊢
        by_cases hn : st2.m.handId ≥ numHands
        · rw [if_pos hn] at h
          exact absurd h (by simp)
        · rw [if_neg hn] at h ⊢
          exact ih _ _ h
    · rw [if_neg hf] at h ⊢
      cases hturn : playTurn ops useJournal io st with
      | none => rw [hturn] at h; exact absurd h (by simp)
      | some st2 =>
        rw [hturn] at h
        exact ih _ _ h

theorem gameLoopFrom_handId {σ ρ V : Type} [Add V] (ops : GameOps σ ρ V) (numHands : Nat)
    (useLog useJournal : Bool) (fixedSeats : Nat) (seatName : Nat → List Char)
    (ios : List StepInput) :
    ∀ (st : Live σ ρ V), st.m.handId < numHands →
      (∀ st1, gameLoopFrom ops numHands useLog useJournal fixedSeats seatName ios st
          = .running st1 → st1.m.handId < numHands)
      ∧ (∀ st1 score, gameLoopFrom ops numHands useLog useJournal fixedSeats seatName ios st
          = .finished st1 score →
          numHands ≤ st1.m.handId ∧ score = printFinalMessage ops seatName st1.m.totalValue) := by
  induction ios with
  | nil =>
    intro st hst
    simp only [gameLoopFrom]
    refine ⟨?_, ?_⟩
    · intro st1 h
      injection h with h
      rw [← h]; exact hst
    · intro st1 score h
      exact absurd h (by simp)
  | cons io ios ih =>
    intro st hst
    rw [gameLoopFrom]
    by_cases hf : ops.stateFinished st.m.state.state = true
    · rw [if_pos hf]
      cases hfin : finishHand ops useLog fixedSeats seatName io st with
      | none =>
        simp only
        exact ⟨fun _ h => absurd h (by simp), fun _ _ h => absurd h (by simp)⟩
      | some st2 =>
        simp only
        by_cases hn : st2.m.handId ≥ numHands
        · rw [if_pos hn]
          refine ⟨fun _ h => absurd h (by simp), ?_⟩
          intro st1 score h
          injection h with h1 h2
          rw [← h1, ← h2]
          exact ⟨hn, rfl⟩
        · rw [if_neg hn]
          exact ih st2 (by omega)
    · rw [if_neg hf]
      cases hturn : playTurn ops useJournal io st with
      | none =>
        simp only
        exact ⟨fun _ h => absurd h (by simp), fun _ _ h => absurd h (by simp)⟩
      | some st2 =>
        simp only
        obtain ⟨_, _, _, _, _, _, _, _, _, heq⟩ := playTurn_some ops useJournal io st st2 hturn
        exact ih st2 (by rw [heq]; exact hst)

theorem gameLoopFrom_resumed {σ ρ V : Type} [Add V] (ops : GameOps σ ρ V) (laws : GameLaws ops)
    (numHands : Nat) (useLog : Bool) (fixedSeats : Nat) (seatName : Nat → List Char)
    (ios : List StepInput) :
    ∀ (stU stR : Live σ ρ V), Resumed ops stU stR →
      (∀ stU1, gameLoopFrom ops numHands useLog true fixedSeats seatName ios stU = .running stU1 →
        ∃ stR1 lines,
          gameLoopFrom ops numHands useLog true fixedSeats seatName ios stR = .running stR1
          ∧ Resumed ops stU1 stR1
          ∧ stU1.log = stU.log ++ lines ∧ stR1.log = stR.log ++ lines)
      ∧ (∀ stU1 score,
          gameLoopFrom ops numHands useLog true fixedSeats seatName ios stU
            = .finished stU1 score →
          ∃ stR1 lines,
            gameLoopFrom ops numHands useLog true fixedSeats seatName ios stR
              = .finished stR1 score
            ∧ Resumed ops stU1 stR1
            ∧ stU1.log = stU.log ++ lines ∧ stR1.log = stR.log ++ lines) := by
  induction ios with
  | nil =>
    intro stU stR hR
    simp only [gameLoopFrom]
    refine ⟨?_, fun _ _ h => absurd h (by simp)⟩
    intro stU1 h
    injection h with h
    rw [← h]
    exact ⟨stR, [], rfl, hR, by simp, by simp⟩
  | cons io ios ih =>
    intro stU stR hR
    obtain ⟨s1, s2, s3, s4, s5⟩ := hR.hand
    rw [gameLoopFrom, gameLoopFrom, ← s3]
    by_cases hf : ops.stateFinished stU.m.state.state = true
    · rw [if_pos hf, if_pos hf]
      cases hfin : finishHand ops useLog fixedSeats seatName io stU with
      | none =>
        simp only
        exact ⟨fun _ h => absurd h (by simp), fun _ _ h => absurd h (by simp)⟩
      | some stU2 =>
        obtain ⟨stR2, hfinR, hR2, lines, hl1, hl2⟩ :=
          finishHand_resumed ops laws useLog fixedSeats seatName io stU stR stU2 hR hfin
        rw [hfinR]
        simp only
        rw [← hR2.hand.1]
        by_cases hn : stU2.m.handId ≥ numHands
        · rw [if_pos hn, if_pos hn]
          refine ⟨fun _ h => absurd h (by simp), ?_⟩
          intro stU1 score h
          injection h with h1 h2
          refine ⟨stR2, lines, ?_, ?_, ?_, hl2⟩
          · rw [← h2, hR2.hand.2.2.2.2]
          · rw [← h1]; exact hR2
          · rw [← h1]; exact hl1
        · rw [if_neg hn, if_neg hn]
          obtain ⟨i1, i2⟩ := ih stU2 stR2 hR2
          refine ⟨?_, ?_⟩
          · intro stU1 h
            obtain ⟨stR1, lines2, g1, g2, g3, g4⟩ := i1 stU1 h
            exact ⟨stR1, lines ++ lines2, g1, g2, by rw [g3, hl1, List.append_assoc],
              by rw [g4, hl2, List.append_assoc]⟩
          · intro stU1 score h
            obtain ⟨stR1, lines2, g1, g2, g3, g4⟩ := i2 stU1 score h
            exact ⟨stR1, lines ++ lines2, g1, g2, by rw [g3, hl1, List.append_assoc],
              by rw [g4, hl2, List.append_assoc]⟩
    · rw [if_neg hf, if_neg hf]
      cases hturn : playTurn ops true io stU with
      | none =>
        simp only
        exact ⟨fun _ h => absurd h (by simp), fun _ _ h => absurd h (by simp)⟩
      | some stU2 =>
        obtain ⟨stR2, hturnR, hR2, hl1, hl2⟩ :=
          playTurn_resumed ops laws io stU stR stU2 hR (by simpa using hf) hturn
        rw [hturnR]
        simp only
        obtain ⟨i1, i2⟩ := ih stU2 stR2 hR2
        refine ⟨?_, ?_⟩
        · intro stU1 h
          obtain ⟨stR1, lines2, g1, g2, g3, g4⟩ := i1 stU1 h
          exact ⟨stR1, lines2, g1, g2, by rw [g3, hl1], by rw [g4, hl2]⟩
        · intro stU1 score h
          obtain ⟨stR1, lines2, g1, g2, g3, g4⟩ := i2 stU1 score h
          exact ⟨stR1, lines2, g1, g2, by rw [g3, hl1], by rw [g4, hl2]⟩

theorem startMatch_spec {σ ρ V : Type} [Zero V] (ops : GameOps σ ρ V) (m : Match σ ρ V) :
    (startMatch ops m).1 = 0
    ∧ (startMatch ops m).2.handId = 0
    ∧ (startMatch ops m).2.player0Seat = 0
    ∧ (startMatch ops m).2.errorInfo = (checkErrorNewHand ops.numPlayers m.errorInfo).2
    ∧ (startMatch ops m).2.state.state = (ops.dealCards m.rng (ops.initState 0 m.state.state)).2 := by
  have hpass := (checkErrorNewHand_keeps ops.numPlayers ops.numPlayers m.errorInfo).2.2.2.2.2
  unfold startMatch
  simp only [hpass, if_false]
  trivial

theorem gameLoop_eq {σ ρ V : Type} [Add V] [Zero V] (ops : GameOps σ ρ V) (cfg : Config)
    (lines : List JournalLine) (ios : List StepInput) (init : Live σ ρ V) :
    gameLoop ops cfg (some lines) ios init
      = if (List.range ops.numPlayers).any
            (fun seat => decide ((checkVersion cfg.VERSION_MAJOR cfg.VERSION_MINOR
              (cfg.versions seat)).1 < 0)) = true then .failed
        else if (processTransactionFile ops cfg.fixedSeats lines cfg.loc
            (startMatch ops init.m).2).1 < 0 then .failed
        else if (processTransactionFile ops cfg.fixedSeats lines cfg.loc
            (startMatch ops init.m).2).2.handId ≥ cfg.numHands then
          .finished
            { init with
              m := (processTransactionFile ops cfg.fixedSeats lines cfg.loc
                (startMatch ops init.m).2).2
              sendTime := cfg.startTime
              journal := lines }
            (printFinalMessage ops cfg.seatName
              (processTransactionFile ops cfg.fixedSeats lines cfg.loc
                (startMatch ops init.m).2).2.totalValue)
        else
          gameLoopFrom ops cfg.numHands cfg.useLog true cfg.fixedSeats cfg.seatName ios
            { init with
              m := (processTransactionFile ops cfg.fixedSeats lines cfg.loc
                (startMatch ops init.m).2).2
              sendTime := cfg.startTime
              journal := lines } := by
  unfold gameLoop
  have hs := (startMatch_spec ops init.m).1
  simp only [hs, show ¬ ((0 : Int) < 0) by decide, if_false, Option.getD_some, Option.isSome_some]

theorem afterHand_handOpen {σ ρ V : Type} [Add V] (ops : GameOps σ ρ V) (laws : GameLaws ops)
    (fixedSeats : Nat) (m : Match σ ρ V) (h1 : ops.handId m.state.state = m.handId)
    (h2 : m.player0Seat < ops.numPlayers) (h3 : WithinBudget ops.numPlayers m.errorInfo)
    (h4 : LimitsFit m.errorInfo) : HandOpen ops (afterHand ops fixedSeats m) := by
  by_cases hf : ops.stateFinished m.state.state = true
  · have hafter : afterHand ops fixedSeats m
        = (setUpNewHand ops fixedSeats
            { m with totalValue := creditSeats ops m.player0Seat m.state.state m.totalValue }).2 := by
      unfold afterHand
      rw [if_pos hf]
    obtain ⟨-, a2, a3, a4, -, a6, -⟩ := setUpNewHand_spec ops fixedSeats
      { m with totalValue := creditSeats ops m.player0Seat m.state.state m.totalValue }
    rw [hafter]
    refine
      { handId_state := ?_
        seat_lt := ?_
        budget := ?_
        fit := ?_
        unfinished := ?_ }
    · rw [a6, a2, laws.handId_dealCards, laws.handId_initState]
    · rw [a3]
      split_ifs
      · exact lt_of_le_of_lt (Nat.mod_le _ _) (Nat.mod_lt _ laws.numPlayers_pos)
      · exact h2
    · rw [a4]
      exact (checkErrorNewHand_keeps ops.numPlayers ops.numPlayers m.errorInfo).1 h3
    · rw [a4]
      exact (checkErrorNewHand_keeps ops.numPlayers ops.numPlayers m.errorInfo).2.1 h4
    · rw [a6]
      exact laws.fresh_not_finished _ _ _
  · have hf2 : ops.stateFinished m.state.state = false := by
      cases hc : ops.stateFinished m.state.state with
      | true => exact absurd hc hf
      | false => rfl
    rw [afterHand_of_unfinished ops fixedSeats m hf2]
    exact ⟨h1, h2, h3, h4, hf2⟩

/-- A line the replay accepts: what the tests of `processTransactionFile` have
checked, and the match it leaves. -/
theorem replayLine_pass {σ ρ V : Type} [Add V] (ops : GameOps σ ρ V) (fixedSeats : Nat)
    (line : JournalLine) (loc : ReplayLocals) (m : Match σ ρ V)
    (hpass : ¬ (replayLine ops fixedSeats line loc m).1 < 0) :
    ∃ action, line.action = some action
      ∧ ¬ (checkErrorTimes
          (playerToSeat ops.numPlayers m.player0Seat (ops.currentPlayer m.state.state))
          loc.sendTime loc.recvTime m.errorInfo).1 < 0
      ∧ replayLine ops fixedSeats line loc m
        = (0, afterHand ops fixedSeats
            { m with
              errorInfo := (checkErrorTimes
                (playerToSeat ops.numPlayers m.player0Seat (ops.currentPlayer m.state.state))
                loc.sendTime loc.recvTime m.errorInfo).2
              state := { m.state with
                state := ops.doAction (ops.isValidAction m.state.state false action).2
                  m.state.state } }) := by
  have hneg : ¬ ¬ ((-1 : Int) < 0) := by decide
  cases ha : line.action with
  | none =>
    unfold replayLine at hpass
    rw [ha] at hpass
    exact absurd hpass hneg
  | some action =>
    by_cases h1 : line.fields < 4
    · unfold replayLine at hpass
      rw [ha] at hpass
      simp only [if_pos h1] at hpass
      exact absurd hpass hneg
    by_cases h2 : loc.h ≠ m.handId
    · unfold replayLine at hpass
      rw [ha] at hpass
      simp only [if_neg h1, if_pos h2] at hpass
      exact absurd hpass hneg
    by_cases h3 : (ops.isValidAction m.state.state false action).1 = false
    · unfold replayLine at hpass
      rw [ha] at hpass
      simp only [if_neg h1, if_neg h2, if_pos h3] at hpass
      exact absurd hpass hneg
    by_cases h4 : (checkErrorTimes
          (playerToSeat ops.numPlayers m.player0Seat (ops.currentPlayer m.state.state))
          loc.sendTime loc.recvTime m.errorInfo).1 < 0
    · unfold replayLine at hpass
      rw [ha] at hpass
      simp only [if_neg h1, if_neg h2, if_neg h3, if_pos h4] at hpass
      exact absurd hpass hneg
    refine ⟨action, rfl, h4, ?_⟩
    unfold replayLine
    rw [ha]
    simp only [if_neg h1, if_neg h2, if_neg h3, if_neg h4]
    unfold afterHand
    split_ifs with hf
    · apply Prod.ext
      · exact (setUpNewHand_spec ops fixedSeats _).1
      · rfl
    · rfl

theorem replayLine_handOpen {σ ρ V : Type} [Add V] (ops : GameOps σ ρ V) (laws : GameLaws ops)
    (fixedSeats : Nat) (line : JournalLine) (loc : ReplayLocals) (m : Match σ ρ V)
    (hm : HandOpen ops m) (hpass : ¬ (replayLine ops fixedSeats line loc m).1 < 0) :
    (replayLine ops fixedSeats line loc m).1 = 0
    ∧ HandOpen ops (replayLine ops fixedSeats line loc m).2 := by
  obtain ⟨action, -, htime, heq⟩ := replayLine_pass ops fixedSeats line loc m hpass
  have hseat := playerToSeat_lt ops.numPlayers m.player0Seat
    (ops.currentPlayer m.state.state) laws.numPlayers_pos laws.numPlayers_le
  obtain ⟨g1, g2, -⟩ := checkErrorTimes_step ops.numPlayers _ loc.sendTime loc.recvTime
    m.errorInfo hseat hm.budget hm.fit htime
  rw [heq]
  refine ⟨rfl, ?_⟩
  exact afterHand_handOpen ops laws fixedSeats _
    ((laws.handId_doAction _ m.state.state).trans hm.handId_state) hm.seat_lt g1 g2

/-- A replay that does not return `-1` returns `0`, and leaves a hand in
progress. -/
theorem processTransactionFile_handOpen {σ ρ V : Type} [Add V] (ops : GameOps σ ρ V)
    (laws : GameLaws ops) (fixedSeats : Nat) (lines : List JournalLine) :
    ∀ (loc : ReplayLocals) (m : Match σ ρ V), HandOpen ops m →
      ¬ (processTransactionFile ops fixedSeats lines loc m).1 < 0 →
      (processTransactionFile ops fixedSeats lines loc m).1 = 0
      ∧ HandOpen ops (processTransactionFile ops fixedSeats lines loc m).2 := by
  induction lines with
  | nil =>
    intro loc m hm _
    exact ⟨rfl, hm⟩
  | cons a lines ih =>
    intro loc m hm hpass
    simp only [processTransactionFile] at hpass ⊢
    by_cases hr : (replayLine ops fixedSeats a (scanStamp loc a) m).1 < 0
    · rw [if_pos hr] at hpass
      exact absurd (show (-1 : Int) < 0 by decide) hpass
    · rw [if_neg hr] at hpass ⊢
      exact ih _ _ (replayLine_handOpen ops laws fixedSeats a _ m hm hr).2 hpass

theorem startMatch_handOpen {σ ρ V : Type} [Zero V] (ops : GameOps σ ρ V)
    (laws : GameLaws ops) (m : Match σ ρ V)
    (hbudget : WithinBudget ops.numPlayers m.errorInfo) (hfit : LimitsFit m.errorInfo) :
    HandOpen ops (startMatch ops m).2 := by
  obtain ⟨-, a2, a3, a4, a5⟩ := startMatch_spec ops m
  obtain ⟨k1, k2, -, -, -, -⟩ :=
    checkErrorNewHand_keeps ops.numPlayers ops.numPlayers m.errorInfo
  refine
    { handId_state := ?_
      seat_lt := ?_
      budget := ?_
      fit := ?_
      unfinished := ?_ }
  · rw [a5, a2, laws.handId_dealCards, laws.handId_initState]
  · rw [a3]
    exact laws.numPlayers_pos
  · rw [a4]
    exact k1 hbudget
  · rw [a4]
    exact k2 hfit
  · rw [a5]
    exact laws.fresh_not_finished _ _ _

theorem startMatch_replayed {σ ρ V : Type} [Add V] [Zero V] (ops : GameOps σ ρ V)
    (laws : GameLaws ops) (cfg : Config) (init : Live σ ρ V) (lines : List JournalLine)
    (hbudget : WithinBudget ops.numPlayers init.m.errorInfo) (hfit : LimitsFit init.m.errorInfo)
    (hpass : ¬ (processTransactionFile ops cfg.fixedSeats lines cfg.loc
      (startMatch ops init.m).2).1 < 0) :
    Replayed ops cfg.fixedSeats cfg.loc (startMatch ops init.m).2
        { init with
          m := (processTransactionFile ops cfg.fixedSeats lines cfg.loc
            (startMatch ops init.m).2).2
          sendTime := cfg.startTime
          journal := lines }
    ∧ ops.stateFinished (processTransactionFile ops cfg.fixedSeats lines cfg.loc
        (startMatch ops init.m).2).2.state.state = false := by
  obtain ⟨hcode, hopen⟩ := processTransactionFile_handOpen ops laws cfg.fixedSeats lines cfg.loc
    _ (startMatch_handOpen ops laws init.m hbudget hfit) hpass
  refine ⟨?_, hopen.unfinished⟩
  refine
    { handId_state := hopen.handId_state
      seat_lt := hopen.seat_lt
      budget := hopen.budget
      fit := hopen.fit
      replay := ⟨(processTransactionFile ops cfg.fixedSeats lines cfg.loc
        (startMatch ops init.m).2).2, Prod.ext hcode rfl, ?_, ?_⟩ }
  · show SameHand (afterHand ops cfg.fixedSeats _) _
    rw [afterHand_of_unfinished ops cfg.fixedSeats _ hopen.unfinished]
    exact ⟨rfl, rfl, rfl, rfl, rfl⟩
  · show ChargedLess ops.numPlayers (afterHand ops cfg.fixedSeats _).errorInfo _
    rw [afterHand_of_unfinished ops cfg.fixedSeats _ hopen.unfinished]
    exact ChargedLess.refl_of _ _

theorem gameLoopFrom_finished_fresh {σ ρ V : Type} [Add V] (ops : GameOps σ ρ V)
    (laws : GameLaws ops) (numHands : Nat) (useLog useJournal : Bool) (fixedSeats : Nat)
    (seatName : Nat → List Char) (ios : List StepInput) :
    ∀ (st st1 : Live σ ρ V) (score : List V × List (List Char)),
      gameLoopFrom ops numHands useLog useJournal fixedSeats seatName ios st
        = .finished st1 score →
      ops.stateFinished st1.m.state.state = false := by
  induction ios with
  | nil =>
    intro st st1 score h
    simp [gameLoopFrom] at h
  | cons io ios ih =>
    intro st st1 score h
    rw [gameLoopFrom] at h
    by_cases hf : ops.stateFinished st.m.state.state = true
    · rw [if_pos hf] at h
      cases hfin : finishHand ops useLog fixedSeats seatName io st with
      | none => rw [hfin] at h; exact absurd h (by simp)
      | some st2 =>
        rw [hfin] at h
        simp only at h
        by_cases hn : st2.m.handId ≥ numHands
        · rw [if_pos hn] at h
          injection h with h1 h2
          obtain ⟨_, vp, _, _, heq⟩ := finishHand_some ops useLog fixedSeats seatName io st st2 hfin
          rw [← h1, heq]
          show ops.stateFinished (setUpNewHand ops fixedSeats _).2.state.state = false
          rw [(setUpNewHand_spec ops fixedSeats _).2.2.2.2.2.1]
          exact laws.fresh_not_finished _ _ _
        · rw [if_neg hn] at h
          exact ih _ _ _ h
    · rw [if_neg hf] at h
      cases hturn : playTurn ops useJournal io st with
      | none => rw [hturn] at h; exact absurd h (by simp)
      | some st2 =>
        rw [hturn] at h
        exact ih _ _ _ h

/-- C3 (amended): take a live run of `gameLoop`, started on any transaction
file, within budget and with limits that cannot wrap (`LimitsFit`), at a point
where it has not failed, and let every action it journalled pass strict
validation.  Then `processTransactionFile`, run on its journal from
the freshly dealt hand 0 with the same limits, returns `0` and gives the
`handId`, `player0Seat`, hand state, generator and totals that the live run
has once the code closing a finished hand has run (`afterHand`): the variables
of the live run itself when its hand is not finished.  A match that had
finished is finished again by the replay with the same `SCORE` line.  A dealer
resumed from the journal of a run cut between two turns, and given the same
further input, ends as the uninterrupted run does: same outcome, same `SCORE`
line, same hand variables, same transaction file, and the log lines it writes
are those the uninterrupted run writes after the cut. -/
theorem journal_replay_equivalence {σ ρ V : Type} [Add V] [Zero V] (ops : GameOps σ ρ V)
    (laws : GameLaws ops) (cfg : Config) (init : Live σ ρ V) (lines0 : List JournalLine)
    (ios1 : List StepInput) (stMid : Live σ ρ V)
    (hbudget : WithinBudget ops.numPlayers init.m.errorInfo)
    (hfit : LimitsFit init.m.errorInfo)
    (hmid : (gameLoop ops cfg (some lines0) ios1 init).state? = some stMid)
    (hstrict : ∀ sa ∈ stMid.history, (ops.isValidAction sa.1 false sa.2).1 = true) :
    ∃ mR,
      processTransactionFile ops cfg.fixedSeats stMid.journal cfg.loc (startMatch ops init.m).2
        = (0, mR)
      ∧ SameHand (afterHand ops cfg.fixedSeats stMid.m) mR
      ∧ (ops.stateFinished stMid.m.state.state = false → SameHand stMid.m mR)
      ∧ (∀ score, gameLoop ops cfg (some lines0) ios1 init = .finished stMid score →
          ∀ ios2, ∃ stR,
            gameLoop ops cfg (some stMid.journal) ios2 { init with readBuf := stMid.readBuf }
              = .finished stR score
            ∧ SameHand stMid.m stR.m)
      ∧ (gameLoop ops cfg (some lines0) ios1 init = .running stMid →
          ops.stateFinished stMid.m.state.state = false →
          ∀ ios2,
            (∀ stU score,
              gameLoop ops cfg (some lines0) (ios1 ++ ios2) init = .finished stU score →
              ∃ stR lines,
                gameLoop ops cfg (some stMid.journal) ios2
                    { init with readBuf := stMid.readBuf } = .finished stR score
                ∧ SameHand stU.m stR.m ∧ stR.journal = stU.journal
                ∧ stU.log = stMid.log ++ lines ∧ stR.log = init.log ++ lines)
            ∧ (∀ stU, gameLoop ops cfg (some lines0) (ios1 ++ ios2) init = .running stU →
              ∃ stR lines,
                gameLoop ops cfg (some stMid.journal) ios2
                    { init with readBuf := stMid.readBuf } = .running stR
                ∧ SameHand stU.m stR.m ∧ stR.journal = stU.journal
                ∧ stU.log = stMid.log ++ lines ∧ stR.log = init.log ++ lines)) := by
  have hvalid : ∀ sa ∈ stMid.history, ops.isValidAction sa.1 false sa.2 = (true, sa.2) :=
    fun sa hsa => Prod.ext (hstrict sa hsa) (laws.strict_keeps sa.1 sa.2)
  -- the live run up to the cut
  have hU := gameLoop_eq ops cfg lines0 ios1 init
  by_cases hver : (List.range ops.numPlayers).any
      (fun seat => decide ((checkVersion cfg.VERSION_MAJOR cfg.VERSION_MINOR
        (cfg.versions seat)).1 < 0)) = true
  · rw [hU, if_pos hver] at hmid
    simp [Outcome.state?] at hmid
  rw [if_neg hver] at hU
  by_cases hrep0 : (processTransactionFile ops cfg.fixedSeats lines0 cfg.loc
      (startMatch ops init.m).2).1 < 0
  · rw [hU, if_pos hrep0] at hmid
    simp [Outcome.state?] at hmid
  rw [if_neg hrep0] at hU
  obtain ⟨hst0, hunf0⟩ := startMatch_replayed ops laws cfg init lines0 hbudget hfit hrep0
  -- facts about the state at the cut
  have hfacts : Replayed ops cfg.fixedSeats cfg.loc (startMatch ops init.m).2 stMid
      ∧ (∀ score, gameLoop ops cfg (some lines0) ios1 init = .finished stMid score →
          ops.stateFinished stMid.m.state.state = false ∧ cfg.numHands ≤ stMid.m.handId
            ∧ score = printFinalMessage ops cfg.seatName stMid.m.totalValue)
      ∧ (gameLoop ops cfg (some lines0) ios1 init = .running stMid →
          stMid.m.handId < cfg.numHands
          ∧ ∀ ios2, gameLoop ops cfg (some lines0) (ios1 ++ ios2) init
              = gameLoopFrom ops cfg.numHands cfg.useLog true cfg.fixedSeats cfg.seatName
                  ios2 stMid) := by
    by_cases hn : (processTransactionFile ops cfg.fixedSeats lines0 cfg.loc
        (startMatch ops init.m).2).2.handId ≥ cfg.numHands
    · rw [if_pos hn] at hU
      rw [hU] at hmid ⊢
      simp only [Outcome.state?] at hmid
      injection hmid with hmid
      subst hmid
      refine ⟨hst0, ?_, fun h => absurd h (by simp)⟩
      intro score h
      injection h with _ h2
      exact ⟨hunf0, hn, h2.symm⟩
    · rw [if_neg hn] at hU
      have hU2 : ∀ ios2, gameLoop ops cfg (some lines0) (ios1 ++ ios2) init
          = gameLoopFrom ops cfg.numHands cfg.useLog true cfg.fixedSeats cfg.seatName
              (ios1 ++ ios2)
              { init with
                m := (processTransactionFile ops cfg.fixedSeats lines0 cfg.loc
                  (startMatch ops init.m).2).2
                sendTime := cfg.startTime
                journal := lines0 } := by
        intro ios2
        rw [gameLoop_eq, if_neg hver, if_neg hrep0, if_neg hn]
      rw [hU] at hmid ⊢
      obtain ⟨i1, i2⟩ := gameLoopFrom_handId ops cfg.numHands cfg.useLog true cfg.fixedSeats
        cfg.seatName ios1
        { init with
          m := (processTransactionFile ops cfg.fixedSeats lines0 cfg.loc
            (startMatch ops init.m).2).2
          sendTime := cfg.startTime
          journal := lines0 }
        (by
          show (processTransactionFile ops cfg.fixedSeats lines0 cfg.loc
            (startMatch ops init.m).2).2.handId < cfg.numHands
          omega)
      refine ⟨gameLoopFrom_replayed ops laws cfg.numHands cfg.useLog cfg.fixedSeats cfg.seatName
        cfg.loc _ ios1 _ stMid hst0 hmid hvalid, ?_, ?_⟩
      · intro score h
        exact ⟨gameLoopFrom_finished_fresh ops laws _ _ _ _ _ ios1 _ _ _ h, i2 _ _ h⟩
      · intro h
        refine ⟨i1 _ h, ?_⟩
        intro ios2
        rw [hU2 ios2]
        exact gameLoopFrom_append ops _ _ _ _ _ ios1 ios2 _ _ h
  obtain ⟨hrep, hfin, hrun⟩ := hfacts
  obtain ⟨mR, hreplay, hsame, hcharged⟩ := hrep.replay
  -- the resumed run after its replay
  have hR : ∀ ios2, gameLoop ops cfg (some stMid.journal) ios2
        { init with readBuf := stMid.readBuf }
      = if mR.handId ≥ cfg.numHands then
          .finished
            { init with readBuf := stMid.readBuf, m := mR, sendTime := cfg.startTime,
                        journal := stMid.journal }
            (printFinalMessage ops cfg.seatName mR.totalValue)
        else
          gameLoopFrom ops cfg.numHands cfg.useLog true cfg.fixedSeats cfg.seatName ios2
            { init with readBuf := stMid.readBuf, m := mR, sendTime := cfg.startTime,
                        journal := stMid.journal } := by
    intro ios2
    rw [gameLoop_eq, if_neg hver]
    show (if (processTransactionFile ops cfg.fixedSeats stMid.journal cfg.loc
        (startMatch ops init.m).2).1 < 0 then _ else _) = _
    rw [hreplay]
    simp only [show ¬ ((0 : Int) < 0) by decide, if_false]
  refine ⟨mR, hreplay, hsame, ?_, ?_, ?_⟩
  · intro hunf
    rw [afterHand_of_unfinished ops cfg.fixedSeats _ hunf] at hsame
    exact hsame
  · intro score h ios2
    obtain ⟨hunf, hn, hscore⟩ := hfin score h
    rw [afterHand_of_unfinished ops cfg.fixedSeats _ hunf] at hsame
    refine ⟨{ init with readBuf := stMid.readBuf, m := mR, sendTime := cfg.startTime,
                        journal := stMid.journal }, ?_, ?_⟩
    · rw [hR ios2, if_pos (by rw [← hsame.1]; exact hn), hscore, hsame.2.2.2.2]
    · exact hsame
  · intro h hunf ios2
    obtain ⟨hlt, hU2⟩ := hrun h
    rw [afterHand_of_unfinished ops cfg.fixedSeats _ hunf] at hsame hcharged
    have hres : Resumed ops stMid
        { init with readBuf := stMid.readBuf, m := mR, sendTime := cfg.startTime,
                    journal := stMid.journal } :=
      { hand := hsame
        charged := hcharged
        budget := hrep.budget
        fit := hrep.fit
        seat_lt := hrep.seat_lt
        readBuf := rfl
        journal := rfl }
    obtain ⟨i1, i2⟩ := gameLoopFrom_resumed ops laws cfg.numHands cfg.useLog cfg.fixedSeats
      cfg.seatName ios2 _ _ hres
    rw [hU2 ios2, hR ios2, if_neg (by rw [← hsame.1]; omega)]
    refine ⟨?_, ?_⟩
    · intro stU score hfinU
      obtain ⟨stR, lines, g1, g2, g3, g4⟩ := i2 stU score hfinU
      exact ⟨stR, lines, g1, g2.hand, g2.journal.symm, g3, g4⟩
    · intro stU hrunU
      obtain ⟨stR, lines, g1, g2, g3, g4⟩ := i1 stU hrunU
      exact ⟨stR, lines, g1, g2.hand, g2.journal.symm, g3, g4⟩

theorem toyOps_laws : GameLaws toyOps where
  strict_keeps := fun _ _ => rfl
  numPlayers_pos := by decide
  numPlayers_le := by decide
  handId_initState := fun _ _ => rfl
  handId_dealCards := fun _ _ => rfl
  handId_doAction := fun _ _ => rfl
  fresh_not_finished := fun _ _ _ => rfl
  currentPlayer_lt := fun s _ => Nat.mod_lt _ (by decide)

theorem Outcome.running_of_isRunning {σ ρ V : Type} (o : Outcome σ ρ V) (d : Live σ ρ V)
    (h : o.isRunning = true) : o = Outcome.running (o.state?.getD d) := by
  cases o <;> simp_all [Outcome.isRunning, Outcome.state?]

/-- Witness of C3: the example match cut after its first hand; the replay of
the two journalled actions reproduces the variables of the live run. -/
theorem journal_replay_equivalence_witness :
    ∃ mR,
      processTransactionFile toyOps toyConfig.fixedSeats toyCut.journal toyConfig.loc
          (startMatch toyOps (toyInit 1000000).m).2 = (0, mR)
      ∧ SameHand toyCut.m mR := by
  obtain ⟨mR, h1, -, h3, -⟩ := journal_replay_equivalence toyOps toyOps_laws toyConfig
    (toyInit 1000000) [] [toyStep 1, toyStep 1, toyStep 2] toyCut
    (by unfold WithinBudget; decide) (by unfold LimitsFit; decide)
    (by
      rw [Outcome.running_of_isRunning _ (toyInit 1000000)
        (by decide : (gameLoop toyOps toyConfig (some []) [toyStep 1, toyStep 1, toyStep 2]
          (toyInit 1000000)).isRunning = true)]
      rfl)
    (by decide)
  exact ⟨mR, h1, h3 (by decide)⟩

/-- C3 as stated fails, in two ways.  First, the journal of the example match,
whose second response took 499999 microseconds under a response limit of one
second, is rejected by `processTransactionFile` in a dealer with the same
game, seed, seats and `fixedSeats` whose response limit is 100 milliseconds,
although every journalled action passes strict validation.  Second, with the
limits unchanged: right after the action that ends hand 0 was journalled the
live run has `handId = 0` and the finished hand, while the replay of that
journal has already moved on to hand 1; the uninterrupted run then writes the
log line of hand 0, the dealer resumed from that journal never does. -/
theorem journal_replay_as_stated_fails :
    gameLoop toyOps toyConfig (some []) [toyStep 1, toyStep 1, toyStep 2] (toyInit 1000000)
        = Outcome.running toyCut
    ∧ (∀ sa ∈ toyCut.history, (toyOps.isValidAction sa.1 false sa.2).1 = true)
    ∧ (processTransactionFile toyOps toyConfig.fixedSeats toyCut.journal toyConfig.loc
        (startMatch toyOps (toyInit 100000).m).2).1 = -1
    ∧ gameLoop toyOps toyConfig (some []) [toyStep 1, toyStep 1] (toyInit 1000000)
        = Outcome.running toyOpen
    ∧ (∀ sa ∈ toyOpen.history, (toyOps.isValidAction sa.1 false sa.2).1 = true)
    ∧ toyOpen.m.handId = 0
    ∧ toyOpen.m.state.state = (0, 2)
    ∧ (processTransactionFile toyOps toyConfig.fixedSeats toyOpen.journal toyConfig.loc
        (startMatch toyOps (toyInit 1000000).m).2).1 = 0
    ∧ (processTransactionFile toyOps toyConfig.fixedSeats toyOpen.journal toyConfig.loc
        (startMatch toyOps (toyInit 1000000).m).2).2.handId = 1
    ∧ (processTransactionFile toyOps toyConfig.fixedSeats toyOpen.journal toyConfig.loc
        (startMatch toyOps (toyInit 1000000).m).2).2.state.state = (1, 0)
    ∧ (gameLoop toyOps toyConfig (some [])
        ([toyStep 1, toyStep 1] ++ [toyStep 2, toyStep 2, toyStep 3, toyStep 4])
        (toyInit 1000000)).logStates = some [(0, 2), (1, 2)]
    ∧ (gameLoop toyOps toyConfig (some toyOpen.journal) [toyStep 2, toyStep 3, toyStep 4]
        { toyInit 1000000 with readBuf := toyOpen.readBuf }).logStates = some [(1, 2)] :=
  ⟨Outcome.running_of_isRunning _ (toyInit 1000000) (by decide), by decide, by decide,
    Outcome.running_of_isRunning _ (toyInit 1000000) (by decide), by decide, by decide,
    by decide, by decide, by decide, by decide, by decide, by decide⟩

end Dealer

namespace Dealer

/-! ## Theorems: new hands and seat rotation -/

theorem ErrorInfo.eq_of_fields (a b : ErrorInfo)
    (h1 : a.maxInvalidActions = b.maxInvalidActions)
    (h2 : a.maxResponseMicros = b.maxResponseMicros)
    (h3 : a.maxUsedHandMicros = b.maxUsedHandMicros)
    (h4 : a.maxUsedMatchMicros = b.maxUsedMatchMicros)
    (h5 : a.numInvalidActions = b.numInvalidActions)
    (h6 : a.usedHandMicros = b.usedHandMicros)
    (h7 : a.usedMatchMicros = b.usedMatchMicros) : a = b := by
  cases a
  cases b
  simp only at h1 h2 h3 h4 h5 h6 h7
  subst h1 h2 h3 h4 h5 h6 h7
  rfl

/-- C11: `checkErrorNewHand` always returns `0`, and the `ErrorInfo` it leaves
is the one it was given with `usedHandMicros[p] = 0` for every
`p < numPlayers`: `usedMatchMicros`, `numInvalidActions`, the four limits, and
the hand counters of the seats from `numPlayers` on are as they were.
`setUpNewHand` passes its `ErrorInfo` through this function and returns `0`. -/
theorem checkErrorNewHand_resets_hand_budget_only {σ ρ V : Type} (ops : GameOps σ ρ V)
    (fixedSeats : Nat) (m : Match σ ρ V) (numPlayers : Nat) (info : ErrorInfo) :
    (checkErrorNewHand numPlayers info).1 = 0
    ∧ (checkErrorNewHand numPlayers info).2
        = { info with
            usedHandMicros := fun p => if p < numPlayers then 0 else info.usedHandMicros p }
    ∧ (setUpNewHand ops fixedSeats m).1 = 0
    ∧ (setUpNewHand ops fixedSeats m).2.errorInfo
        = (checkErrorNewHand ops.numPlayers m.errorInfo).2 := by
  obtain ⟨h1, h2, h3, h4, h5, h6⟩ := checkErrorNewHand_fold_limits (List.range numPlayers) info
  refine ⟨rfl, ?_, (setUpNewHand_spec ops fixedSeats m).1,
    (setUpNewHand_spec ops fixedSeats m).2.2.2.1⟩
  apply ErrorInfo.eq_of_fields
  · exact h1
  · exact h2
  · exact h3
  · exact h4
  · exact h5
  · funext p
    show ((List.range numPlayers).foldl checkErrorNewHandSeat info).usedHandMicros p = _
    rw [checkErrorNewHand_fold_hand]
    simp only [List.mem_range]
  · exact h6

/-- The example of C11 evaluated: two players, seat 2 is not a seat of the
game and keeps its hand counter. -/
theorem checkErrorNewHand_example :
    (List.range 4).map
        (checkErrorNewHand 2 ⟨5, 6, 7, 8, fun _ => 1, fun _ => 20, fun _ => 30⟩).2.usedHandMicros
      = [0, 0, 20, 20]
    ∧ (List.range 4).map
        (checkErrorNewHand 2 ⟨5, 6, 7, 8, fun _ => 1, fun _ => 20, fun _ => 30⟩).2.usedMatchMicros
      = [30, 30, 30, 30] := by
  decide

end Dealer

namespace Dealer

theorem setUpNewHands_spec {σ ρ V : Type} (ops : GameOps σ ρ V) (fixedSeats : Nat)
    (hN0 : 0 < ops.numPlayers) (hN : ops.numPlayers ≤ 256) (k : Nat) :
    ∀ m : Match σ ρ V, m.player0Seat < ops.numPlayers → m.handId < 2 ^ 32 →
      (setUpNewHands ops fixedSeats k m).handId = (m.handId + k) % 2 ^ 32
      ∧ (setUpNewHands ops fixedSeats k m).player0Seat
          = (if fixedSeats % 256 = 0 then (m.player0Seat + k) % ops.numPlayers
             else m.player0Seat) := by
  induction k with
  | zero =>
    intro m hm hh
    refine ⟨(Nat.mod_eq_of_lt hh).symm, ?_⟩
    show m.player0Seat = _
    split_ifs
    · exact (Nat.mod_eq_of_lt hm).symm
    · rfl
  | succ k ih =>
    intro m hm hh
    obtain ⟨-, a2, a3, -⟩ := setUpNewHand_spec ops fixedSeats m
    have hlt : (m.player0Seat + 1) % ops.numPlayers < ops.numPlayers := Nat.mod_lt _ hN0
    have hm1 : (setUpNewHand ops fixedSeats m).2.player0Seat < ops.numPlayers := by
      rw [a3]
      split_ifs
      · exact lt_of_le_of_lt (Nat.mod_le _ _) hlt
      · exact hm
    have hh1 : (setUpNewHand ops fixedSeats m).2.handId < 2 ^ 32 := by
      rw [a2]
      exact Nat.mod_lt _ (by decide)
    obtain ⟨i1, i2⟩ := ih (setUpNewHand ops fixedSeats m).2 hm1 hh1
    refine ⟨?_, ?_⟩
    · show (setUpNewHands ops fixedSeats k (setUpNewHand ops fixedSeats m).2).handId = _
      rw [i1, a2]
      omega
    · show (setUpNewHands ops fixedSeats k (setUpNewHand ops fixedSeats m).2).player0Seat = _
      rw [i2, a3]
      split_ifs
      · rw [Nat.mod_eq_of_lt (lt_of_lt_of_le hlt hN), Nat.mod_add_mod]
        congr 1
        omega
      · rfl

/-- C12: `setUpNewHand` replaces `handId` by its successor (a `uint32_t`; it is
`handId + 1` below `UINT32_MAX`); with `fixedSeats` zero it replaces
`player0Seat` by `(player0Seat + 1) mod numPlayers`, otherwise it leaves it
as it is.  So `k` hands after hand 0 with `player0Seat = 0` the hand id is
`k`, with rotation seat `s` plays position
`seatToPlayer = (s + N - k mod N) mod N`, and with fixed seats every seat
`s < N` plays position `s`. -/
theorem setUpNewHand_rotates_seats {σ ρ V : Type} (ops : GameOps σ ρ V) (fixedSeats : Nat)
    (m : Match σ ρ V) (k s : Nat)
    (hN0 : 0 < ops.numPlayers) (hN : ops.numPlayers ≤ 256)
    (hseat : m.player0Seat < ops.numPlayers) (hid : m.handId + 1 < 2 ^ 32) :
    (setUpNewHand ops fixedSeats m).2.handId = m.handId + 1
    ∧ (fixedSeats % 256 = 0 →
        (setUpNewHand ops fixedSeats m).2.player0Seat = (m.player0Seat + 1) % ops.numPlayers)
    ∧ (fixedSeats % 256 ≠ 0 → (setUpNewHand ops fixedSeats m).2.player0Seat = m.player0Seat)
    ∧ (m.handId = 0 → m.player0Seat = 0 → k < 2 ^ 32 →
        (setUpNewHands ops fixedSeats k m).handId = k
        ∧ (fixedSeats % 256 = 0 →
            seatToPlayer ops.numPlayers (setUpNewHands ops fixedSeats k m).player0Seat s
              = (s + ops.numPlayers - k % ops.numPlayers) % ops.numPlayers)
        ∧ (fixedSeats % 256 ≠ 0 → s < ops.numPlayers →
            seatToPlayer ops.numPlayers (setUpNewHands ops fixedSeats k m).player0Seat s = s)) := by
  obtain ⟨-, a2, a3, -⟩ := setUpNewHand_spec ops fixedSeats m
  have hlt : (m.player0Seat + 1) % ops.numPlayers < ops.numPlayers := Nat.mod_lt _ hN0
  refine ⟨?_, ?_, ?_, ?_⟩
  · rw [a2]
    exact Nat.mod_eq_of_lt hid
  · intro hf
    rw [a3, if_pos hf]
    exact Nat.mod_eq_of_lt (lt_of_lt_of_le hlt hN)
  · intro hf
    rw [a3, if_neg hf]
  · intro h0 hp0 hk
    obtain ⟨i1, i2⟩ := setUpNewHands_spec ops fixedSeats hN0 hN k m hseat (by omega)
    rw [hp0, Nat.zero_add] at i2
    refine ⟨?_, ?_, ?_⟩
    · rw [i1, h0, Nat.zero_add]
      exact Nat.mod_eq_of_lt hk
    · intro hf
      rw [i2, if_pos hf, seatToPlayer_eq _ _ _ hN (Nat.mod_lt _ hN0)]
    · intro hf hs
      rw [i2, if_neg hf, seatToPlayer_eq _ _ _ hN hN0, Nat.sub_zero, Nat.add_mod_right]
      exact Nat.mod_eq_of_lt hs

/-- Witness of C12: a three-player match with rotating seats; seat 0 plays
positions 0, 2, 1 in hands 0, 1, 2. -/
theorem setUpNewHand_rotates_seats_witness :
    seatToPlayer 3 (setUpNewHands toyOps3 0 0 toyMatch3).player0Seat 0 = 0
    ∧ seatToPlayer 3 (setUpNewHands toyOps3 0 1 toyMatch3).player0Seat 0 = 2
    ∧ seatToPlayer 3 (setUpNewHands toyOps3 0 2 toyMatch3).player0Seat 0 = 1
    ∧ (setUpNewHands toyOps3 0 2 toyMatch3).handId = 2 :=
  ⟨(((setUpNewHand_rotates_seats toyOps3 0 toyMatch3 0 0 (by decide) (by decide) (by decide)
      (by decide)).2.2.2 rfl rfl (by decide)).2.1 rfl).trans (by decide),
    (((setUpNewHand_rotates_seats toyOps3 0 toyMatch3 1 0 (by decide) (by decide) (by decide)
      (by decide)).2.2.2 rfl rfl (by decide)).2.1 rfl).trans (by decide),
    (((setUpNewHand_rotates_seats toyOps3 0 toyMatch3 2 0 (by decide) (by decide) (by decide)
      (by decide)).2.2.2 rfl rfl (by decide)).2.1 rfl).trans (by decide),
    ((setUpNewHand_rotates_seats toyOps3 0 toyMatch3 2 0 (by decide) (by decide) (by decide)
      (by decide)).2.2.2 rfl rfl (by decide)).1⟩

/-- The rotation evaluated on the code: the positions of seats 0, 1, 2 in
hands 0, 1, 2, 3 of the three-player example, and with fixed seats. -/
theorem setUpNewHands_example :
    (List.range 4).map (fun k =>
        (List.range 3).map (seatToPlayer 3 (setUpNewHands toyOps3 0 k toyMatch3).player0Seat))
      = [[0, 1, 2], [2, 0, 1], [1, 2, 0], [0, 1, 2]]
    ∧ (List.range 3).map (fun k =>
        (List.range 3).map (seatToPlayer 3 (setUpNewHands toyOps3 1 k toyMatch3).player0Seat))
      = [[0, 1, 2], [0, 1, 2], [0, 1, 2]] := by
  decide

end Dealer

namespace Dealer

/-! ## Theorems: the values of a log line -/

theorem dropZeros_append_le (l r : List Char) :
    ∀ k, k ≤ l.length → dropZeros (l ++ r) k = dropZeros l k := by
  intro k
  induction k with
  | zero => intro _; rfl
  | succ k ih =>
    intro hk
    simp only [dropZeros]
    rw [List.getD_append l r ' ' k (by omega), ih (by omega)]

theorem dropZeros_append_zeros (l : List Char) (n : Nat) :
    dropZeros (l ++ List.replicate n '0') (l.length + n) = dropZeros l l.length := by
  induction n with
  | zero => simp
  | succ n ih =>
    rw [List.replicate_succ', ← List.append_assoc, ← Nat.add_assoc]
    simp only [dropZeros]
    have hlen : (l ++ List.replicate n '0').length = l.length + n := by simp
    rw [List.getD_append_right _ _ _ _ (by omega), hlen, Nat.sub_self]
    simp only [List.getD_cons_zero, if_true]
    rw [← hlen, dropZeros_append_le _ _ _ (le_refl _), hlen, ih]

theorem dropZeros_of_last_ne (l : List Char) (a : Char) (ha : a ≠ '0') :
    dropZeros (l ++ [a]) (l.length + 1) = l.length + 1 := by
  simp only [dropZeros]
  rw [List.getD_append_right _ _ _ _ (le_refl _), Nat.sub_self]
  simp [ha]

theorem stripZeros_spec (fp : List Char) :
    fp = stripZeros fp ++ List.replicate (fp.length - (stripZeros fp).length) '0'
    ∧ (stripZeros fp = [] ∨ ∃ l a, stripZeros fp = l ++ [a] ∧ a ≠ '0' ∧ a ∈ fp) := by
  have hsplit := List.takeWhile_append_dropWhile (fun ch => decide (ch = '0')) fp.reverse
  have hrev : fp = stripZeros fp
      ++ (fp.reverse.takeWhile (fun ch => decide (ch = '0'))).reverse := by
    unfold stripZeros
    rw [← List.reverse_append, hsplit, List.reverse_reverse]
  have hzeros : (fp.reverse.takeWhile (fun ch => decide (ch = '0'))).reverse
      = List.replicate (fp.reverse.takeWhile (fun ch => decide (ch = '0'))).length '0' := by
    rw [List.eq_replicate_iff]
    refine ⟨by simp, ?_⟩
    intro b hb
    have := List.mem_takeWhile_imp (List.mem_reverse.mp hb)
    simpa using this
  have hlen : fp.length - (stripZeros fp).length
      = (fp.reverse.takeWhile (fun ch => decide (ch = '0'))).length := by
    have := congrArg List.length hrev
    rw [List.length_append, List.length_reverse] at this
    omega
  refine ⟨?_, ?_⟩
  · rw [hlen, ← hzeros]
    exact hrev
  · unfold stripZeros
    cases hd : fp.reverse.dropWhile (fun ch => decide (ch = '0')) with
    | nil => exact Or.inl rfl
    | cons b t =>
      refine Or.inr ⟨t.reverse, b, by simp, ?_, ?_⟩
      · have h := List.head_dropWhile_not (fun ch => decide (ch = '0')) fp.reverse
          (by rw [hd]; simp)
        simp only [hd, List.head_cons, decide_eq_false_iff_not] at h
        exact h
      · have hmem : b ∈ fp.reverse.dropWhile (fun ch => decide (ch = '0')) := by
          rw [hd]; simp
        exact List.mem_reverse.mp ((List.dropWhile_sublist _).subset hmem)

theorem isDigit_ne_point (ch : Char) (h : ch.isDigit = true) : ch ≠ '.' := by
  rintro rfl
  exact absurd h (by decide)

theorem isDigit_ne_minus (ch : Char) (h : ch.isDigit = true) : ch ≠ '-' := by
  rintro rfl
  exact absurd h (by decide)

/-- The text `trimValue` leaves for a line ending in `A.fp`: `A` alone when
`fp` is all zeros, `A.f` with `f` the digits of `fp` up to its last non-zero
digit otherwise. -/
theorem trimValue_eq (A fp : List Char) (hfp : ∀ ch ∈ fp, ch ≠ '.') :
    trimValue (A ++ '.' :: fp)
      = A ++ trimmedFraction fp := by
  unfold trimmedFraction
  obtain ⟨hdec, hlast⟩ := stripZeros_spec fp
  generalize hk : fp.length - (stripZeros fp).length = k at hdec
  generalize stripZeros fp = f at hdec hlast
  subst hdec
  unfold trimValue
  have hT : A ++ '.' :: (f ++ List.replicate k '0')
      = (A ++ '.' :: f) ++ List.replicate k '0' := by simp
  have hTlen : (A ++ '.' :: (f ++ List.replicate k '0')).length
      = (A ++ '.' :: f).length + k := by simp; omega
  rw [hTlen, hT, dropZeros_append_zeros]
  rcases hlast with rfl | ⟨l, a, rfl, ha, hmem⟩
  · have h1 : dropZeros (A ++ ['.']) (A ++ ['.']).length = A.length + 1 := by
      rw [List.length_append, List.length_singleton]
      exact dropZeros_of_last_ne A '.' (by decide)
    rw [h1]
    have h2 : dropPoint ((A ++ ['.']) ++ List.replicate k '0') (A.length + 1) = A.length := by
      unfold dropPoint
      rw [if_pos]
      · rfl
      · refine ⟨by omega, ?_⟩
        rw [Nat.add_sub_cancel, List.append_assoc, List.getD_append_right _ _ _ _ (le_refl _),
          Nat.sub_self]
        rfl
    rw [h2]
    simp
  · have hform : A ++ '.' :: (l ++ [a]) = (A ++ '.' :: l) ++ [a] := by simp
    have h1 : dropZeros (A ++ '.' :: (l ++ [a])) (A ++ '.' :: (l ++ [a])).length
        = (A ++ '.' :: l).length + 1 := by
      rw [hform, List.length_append, List.length_singleton]
      exact dropZeros_of_last_ne _ a ha
    rw [h1]
    have hap : a ≠ '.' := hfp a hmem
    have h2 : dropPoint ((A ++ '.' :: (l ++ [a])) ++ List.replicate k '0')
        ((A ++ '.' :: l).length + 1) = (A ++ '.' :: l).length + 1 := by
      unfold dropPoint
      rw [if_neg]
      rintro ⟨-, h⟩
      rw [Nat.add_sub_cancel, hform, List.append_assoc,
        List.getD_append_right _ _ _ _ (le_refl _), Nat.sub_self] at h
      exact hap h
    rw [h2, if_neg (by simp)]
    have hlen : (A ++ '.' :: l).length + 1 = (A ++ '.' :: (l ++ [a])).length := by simp; omega
    rw [hlen, List.take_left]


theorem microsOfUnsigned_eq (ip rest : List Char)
    (hip : ∀ ch ∈ ip, ch.isDigit = true) (hrest : rest = [] ∨ ∃ fp, rest = '.' :: fp) :
    microsOfUnsigned (ip ++ rest)
      = natOfDigits ip * 10 ^ 6
          + natOfDigits ((rest.tail ++ List.replicate 6 '0').take 6) := by
  have hpos : ∀ ch ∈ ip, decide (ch ≠ '.') = true := by
    intro ch hch
    simpa using isDigit_ne_point ch (hip ch hch)
  have htake : (ip ++ rest).takeWhile (fun ch => decide (ch ≠ '.')) = ip := by
    rw [List.takeWhile_append_of_pos hpos]
    rcases hrest with rfl | ⟨fp, rfl⟩
    · simp
    · simp [List.takeWhile]
  have hdrop : (ip ++ rest).dropWhile (fun ch => decide (ch ≠ '.')) = rest := by
    rw [List.dropWhile_append_of_pos hpos]
    rcases hrest with rfl | ⟨fp, rfl⟩
    · simp
    · simp [List.dropWhile]
  unfold microsOfUnsigned
  rw [htake, hdrop]

theorem microsOfText_eq (sign ip rest : List Char) (hsign : sign = [] ∨ sign = ['-'])
    (hip : ∀ ch ∈ ip, ch.isDigit = true) (hip0 : ip ≠ [])
    (hrest : rest = [] ∨ ∃ fp, rest = '.' :: fp) :
    microsOfText (sign ++ ip ++ rest)
      = (if sign = ['-'] then -1 else 1)
          * ((natOfDigits ip * 10 ^ 6
              + natOfDigits ((rest.tail ++ List.replicate 6 '0').take 6) : Nat) : Int) := by
  have hu := microsOfUnsigned_eq ip rest hip hrest
  obtain ⟨d, ds, rfl⟩ := List.exists_cons_of_ne_nil hip0
  have hd : d ≠ '-' := isDigit_ne_minus d (hip d (by simp))
  unfold microsOfText
  rcases hsign with rfl | rfl
  · have hhead : ([] ++ (d :: ds) ++ rest).head? ≠ some '-' := by
      simp [hd]
    rw [if_neg hhead, if_neg (by simp), List.nil_append, hu, one_mul]
  · have hhead : (['-'] ++ (d :: ds) ++ rest).head? = some '-' := by simp
    have htail : (['-'] ++ (d :: ds) ++ rest).tail = (d :: ds) ++ rest := by simp
    rw [if_pos hhead, if_pos rfl, htail, hu, neg_one_mul]

theorem pad_stripZeros (fp : List Char) (hlen : fp.length = 6) :
    ((trimmedFraction fp).tail ++ List.replicate 6 '0').take 6 = fp := by
  obtain ⟨hdec, -⟩ := stripZeros_spec fp
  have htail : (trimmedFraction fp).tail = stripZeros fp := by
    unfold trimmedFraction
    split_ifs with h
    · rw [h]; rfl
    · rfl
  rw [htail]
  have hle : (stripZeros fp).length ≤ 6 := by
    have := congrArg List.length hdec
    rw [List.length_append] at this
    omega
  have h6 : List.replicate 6 '0'
      = List.replicate (fp.length - (stripZeros fp).length) '0'
        ++ List.replicate (stripZeros fp).length '0' := by
    rw [← List.replicate_add]
    congr 1
    omega
  rw [h6, ← List.append_assoc, ← hdec, ← hlen, List.take_left]


theorem trimmedFraction_cases (fp : List Char) :
    trimmedFraction fp = []
    ∨ ∃ f a, trimmedFraction fp = '.' :: (f ++ [a]) ∧ a ≠ '0' ∧ a ∈ fp ∧ (f ++ [a]) <+: fp := by
  obtain ⟨hdec, hlast⟩ := stripZeros_spec fp
  unfold trimmedFraction
  rcases hlast with h | ⟨l, a, h, ha, hmem⟩
  · left
    rw [if_pos h]
  · right
    refine ⟨l, a, ?_, ha, hmem, ?_⟩
    · rw [if_neg (by rw [h]; simp), h]
    · rw [← h]
      exact ⟨_, hdec.symm⟩

/-- C13: a value printed with `%.6f` is an optional `-`, at least one digit, a
point and six digits.  On a line ending in such a value the two trimming
statements cut the text back to the sign and the integer digits followed by
`trimmedFraction` - nothing when the six digits are zeros, otherwise the
point and the digits up to the last non-zero one.  So no digit of the integer
part (and nothing before the value) is removed, the text left does not end in
`.`, it does not end in `0` when it still has a point, and it denotes the same
number of millionths. -/
theorem trimValue_keeps_number (pre sign ip fp : List Char)
    (hsign : sign = [] ∨ sign = ['-'])
    (hip : ∀ ch ∈ ip, ch.isDigit = true) (hip0 : ip ≠ [])
    (hfp : ∀ ch ∈ fp, ch.isDigit = true) (hlen : fp.length = 6) :
    trimValue (pre ++ (sign ++ ip ++ '.' :: fp)) = pre ++ (sign ++ ip ++ trimmedFraction fp)
    ∧ (trimmedFraction fp = []
        ∨ ∃ f a, trimmedFraction fp = '.' :: (f ++ [a]) ∧ a ≠ '0' ∧ (f ++ [a]) <+: fp)
    ∧ microsOfText (sign ++ ip ++ trimmedFraction fp) = microsOfText (sign ++ ip ++ '.' :: fp)
    ∧ (trimValue (pre ++ (sign ++ ip ++ '.' :: fp))).getLast? ≠ some '.'
    ∧ ('.' ∈ trimmedFraction fp →
        (trimValue (pre ++ (sign ++ ip ++ '.' :: fp))).getLast? ≠ some '0') := by
  have hne : ∀ ch ∈ fp, ch ≠ '.' := fun ch hch => isDigit_ne_point ch (hfp ch hch)
  have heq : trimValue (pre ++ (sign ++ ip ++ '.' :: fp))
      = pre ++ (sign ++ ip ++ trimmedFraction fp) := by
    have := trimValue_eq (pre ++ (sign ++ ip)) fp hne
    simpa [List.append_assoc] using this
  have hcases := trimmedFraction_cases fp
  have hlast : (pre ++ (sign ++ ip ++ trimmedFraction fp)).getLast? ≠ some '.'
      ∧ ('.' ∈ trimmedFraction fp →
          (pre ++ (sign ++ ip ++ trimmedFraction fp)).getLast? ≠ some '0') := by
    rcases hcases with h | ⟨f, a, h, ha, hmem, -⟩
    · rw [h, List.append_nil]
      obtain ⟨l, d, rfl⟩ := List.eq_nil_or_concat ip |>.resolve_left hip0
      have hd : d ≠ '.' := isDigit_ne_point d (hip d (by simp))
      refine ⟨?_, fun hc => absurd hc (by simp)⟩
      simp [List.getLast?_append, hd]
    · rw [h]
      have hd : a ≠ '.' := hne a hmem
      have hform : pre ++ (sign ++ ip ++ '.' :: (f ++ [a]))
          = (pre ++ (sign ++ ip ++ '.' :: f)) ++ [a] := by simp
      rw [hform, List.getLast?_append]
      simp [hd, ha]
  refine ⟨heq, ?_, ?_, ?_, ?_⟩
  · rcases hcases with h | ⟨f, a, h, ha, -, hpre⟩
    · exact Or.inl h
    · exact Or.inr ⟨f, a, h, ha, hpre⟩
  · rw [microsOfText_eq sign ip _ hsign hip hip0
        (by
          rcases hcases with h | ⟨f, a, h, -⟩
          · exact Or.inl h
          · exact Or.inr ⟨_, h⟩),
      microsOfText_eq sign ip _ hsign hip hip0 (Or.inr ⟨fp, rfl⟩), pad_stripZeros fp hlen]
    have : (('.' :: fp).tail ++ List.replicate 6 '0').take 6 = fp := by
      rw [List.tail_cons, ← hlen, List.take_left]
    rw [this]
  · rw [heq]
    exact hlast.1
  · rw [heq]
    exact hlast.2

/-- Witness of C13: the values `100.000000`, `0.500000` and `-2.250000` on a
log line become `100`, `0.5` and `-2.25`. -/
theorem trimValue_keeps_number_witness :
    trimValue ":100.000000".toList = ":100".toList
    ∧ trimValue ":100|0.500000".toList = ":100|0.5".toList
    ∧ trimValue "SCORE:-2.250000".toList = "SCORE:-2.25".toList :=
  ⟨(trimValue_keeps_number [':'] [] ['1', '0', '0'] ['0', '0', '0', '0', '0', '0']
      (Or.inl rfl) (by decide) (by decide) (by decide) rfl).1.trans (by decide),
    (trimValue_keeps_number ":100|".toList [] ['0'] ['5', '0', '0', '0', '0', '0']
      (Or.inl rfl) (by decide) (by decide) (by decide) rfl).1.trans (by decide),
    (trimValue_keeps_number "SCORE:".toList ['-'] ['2'] ['2', '5', '0', '0', '0', '0']
      (Or.inr rfl) (by decide) (by decide) (by decide) rfl).1.trans (by decide)⟩

end Dealer

namespace AllIn

/-! ## Theorems: which hands are rolled out -/

/-- The round the loop of lines 106-113 ends on: at most the round it starts
from, a round with an action unless it is 0, and no round after it up to the
starting round has an action. -/
theorem lastActionRound_spec (state : State) (r0 : Nat) :
    lastActionRound state r0 ≤ r0
    ∧ (lastActionRound state r0 ≠ 0 → state.numActions (lastActionRound state r0) ≠ 0)
    ∧ ∀ ρ, lastActionRound state r0 < ρ → ρ ≤ r0 → state.numActions ρ = 0 := by
  induction r0 with
  | zero =>
    refine ⟨le_refl _, fun h => absurd rfl h, ?_⟩
    intro ρ h1 h2
    simp only [lastActionRound] at h1
    omega
  | succ r ih =>
    simp only [lastActionRound]
    split_ifs with h
    · refine ⟨le_refl _, fun _ => h, ?_⟩
      intro ρ h1 h2
      omega
    · obtain ⟨i1, i2, i3⟩ := ih
      refine ⟨by omega, i2, ?_⟩
      intro ρ h1 h2
      by_cases hρ : ρ = r + 1
      · subst hρ
        simpa using h
      · exact i3 ρ h1 (by omega)

/-- C14: a line on which `readState` finds a state is rolled out exactly when
at least one player is all-in, at least two players have not folded
(`numFolded + 2 ≤ numPlayers`) and `r + 1 ≠ numRounds`, where `r` is the last
round up to `state.round` with an action (0 when rounds `1 .. state.round`
have none); in every other case the line is printed as it was read. -/
theorem processLine_rolls_out_iff {τ : Type} (game : Game) (ops : LineOps τ)
    (used deck : Nat → Nat) (line : List Char) (stateEnd : Nat) (state : τ)
    (hparsed : ops.readState line = some (stateEnd, state)) :
    ((processLine game ops used deck line).isRollout = true ↔
        (1 ≤ ops.numAllIn state ∧ ops.numFolded state + 2 ≤ game.numPlayers
          ∧ lastActionRound (ops.view state) (ops.view state).round + 1 ≠ game.numRounds))
    ∧ ((processLine game ops used deck line).isRollout = false →
        processLine game ops used deck line = LineOutcome.echoed line)
    ∧ lastActionRound (ops.view state) (ops.view state).round ≤ (ops.view state).round
    ∧ (lastActionRound (ops.view state) (ops.view state).round ≠ 0 →
        (ops.view state).numActions
          (lastActionRound (ops.view state) (ops.view state).round) ≠ 0)
    ∧ (∀ ρ, lastActionRound (ops.view state) (ops.view state).round < ρ →
        ρ ≤ (ops.view state).round → (ops.view state).numActions ρ = 0) := by
  obtain ⟨l1, l2, l3⟩ := lastActionRound_spec (ops.view state) (ops.view state).round
  refine ⟨?_, ?_, l1, l2, l3⟩
  · unfold processLine
    rw [hparsed]
    simp only
    by_cases h1 : ops.numAllIn state = 0 ∨ ops.numFolded state + 1 ≥ game.numPlayers
    · rw [if_pos h1]
      simp only [LineOutcome.isRollout]
      constructor
      · intro h; exact absurd h (by decide)
      · rintro ⟨a, b, -⟩
        rcases h1 with h1 | h1 <;> omega
    · rw [if_neg h1]
      by_cases h2 : lastActionRound (ops.view state) (ops.view state).round + 1 = game.numRounds
      · rw [if_pos h2]
        simp only [LineOutcome.isRollout]
        constructor
        · intro h; exact absurd h (by decide)
        · rintro ⟨-, -, c⟩
          exact absurd h2 c
      · rw [if_neg h2]
        simp only [LineOutcome.isRollout, true_iff]
        refine ⟨by omega, by omega, h2⟩
  · unfold processLine
    rw [hparsed]
    simp only
    by_cases h1 : ops.numAllIn state = 0 ∨ ops.numFolded state + 1 ≥ game.numPlayers
    · rw [if_pos h1]
      intro _; rfl
    · rw [if_neg h1]
      by_cases h2 : lastActionRound (ops.view state) (ops.view state).round + 1 = game.numRounds
      · rw [if_pos h2]
        intro _; rfl
      · rw [if_neg h2]
        intro h
        simp [LineOutcome.isRollout] at h

/-- Witness of C14: in the example game of two rounds a hand with one player
all-in, nobody folded and its last action in round 0 is rolled out. -/
theorem processLine_rolls_out_iff_witness :
    (processLine toyGame toyLineOps (fun _ => 0) (fun _ => 0)
      ['H', '1', '0', '1', '0', ':', 'x']).isRollout = true :=
  (processLine_rolls_out_iff toyGame toyLineOps (fun _ => 0) (fun _ => 0)
    ['H', '1', '0', '1', '0', ':', 'x'] 5
    (⟨1, fun ρ => if ρ = 0 then 1 else 0, fun p _ => p, fun i => 2 + i⟩, 1, 0) rfl).1.mpr
    (by decide)

/-- The branch evaluated on lines of the example: rolled out; nobody all-in;
one player folded; last action in the final round - the last three are
printed unchanged - and a line without a state, for which nothing is
printed. -/
theorem processLine_examples :
    (processLine toyGame toyLineOps (fun _ => 0) (fun _ => 0)
      ['H', '1', '0', '1', '0', ':', 'x']).isRollout = true
    ∧ (processLine toyGame toyLineOps (fun _ => 0) (fun _ => 0)
      ['H', '0', '0', '1', '0', ':', 'x']).text? = some ['H', '0', '0', '1', '0', ':', 'x']
    ∧ (processLine toyGame toyLineOps (fun _ => 0) (fun _ => 0)
      ['H', '1', '1', '1', '0', ':', 'x']).text? = some ['H', '1', '1', '1', '0', ':', 'x']
    ∧ (processLine toyGame toyLineOps (fun _ => 0) (fun _ => 0)
      ['H', '1', '0', '1', '1', ':', 'x']).text? = some ['H', '1', '0', '1', '1', ':', 'x']
    ∧ (processLine toyGame toyLineOps (fun _ => 0) (fun _ => 0)
      ['#', ' ', 'x']).text? = none
    ∧ (processLine toyGame toyLineOps (fun _ => 0) (fun _ => 0)
      ['#', ' ', 'x']).isRollout = false := by
  decide

end AllIn

namespace Dealer

/-! ## Theorems: the checks of the journal replay -/

theorem processTransactionFile_append {σ ρ V : Type} [Add V] (ops : GameOps σ ρ V)
    (fixedSeats : Nat) (pre rest : List JournalLine) :
    ∀ (loc : ReplayLocals) (m m1 : Match σ ρ V),
      processTransactionFile ops fixedSeats pre loc m = (0, m1) →
      processTransactionFile ops fixedSeats (pre ++ rest) loc m
        = processTransactionFile ops fixedSeats rest (pre.foldl scanStamp loc) m1 := by
  induction pre with
  | nil =>
    intro loc m m1 h
    simp only [processTransactionFile] at h
    injection h with _ h2
    subst h2
    rfl
  | cons a pre ih =>
    intro loc m m1 h
    simp only [List.cons_append, processTransactionFile, List.foldl_cons] at h ⊢
    by_cases hr : (replayLine ops fixedSeats a (scanStamp loc a) m).1 < 0
    · rw [if_pos hr] at h
      injection h with h1 _
      exact absurd h1 (by decide)
    · rw [if_neg hr] at h ⊢
      exact ih _ _ _ h

/-- The three ways `replayLine` ends: one of the first four tests fails and
the match is untouched; the time test fails and only the `ErrorInfo` has
changed; or all five tests pass. -/
theorem replayLine_cases {σ ρ V : Type} [Add V] (ops : GameOps σ ρ V) (fixedSeats : Nat)
    (line : JournalLine) (loc : ReplayLocals) (m : Match σ ρ V) :
    (replayLine ops fixedSeats line loc m = (-1, m)
      ∧ (line.action = none ∨ line.fields < 4 ∨ loc.h ≠ m.handId
          ∨ ∃ a, line.action = some a ∧ (ops.isValidAction m.state.state false a).1 = false))
    ∨ (replayLine ops fixedSeats line loc m
          = (-1, { m with
                   errorInfo := (checkErrorTimes
                     (playerToSeat ops.numPlayers m.player0Seat
                       (ops.currentPlayer m.state.state))
                     loc.sendTime loc.recvTime m.errorInfo).2 })
        ∧ (checkErrorTimes
            (playerToSeat ops.numPlayers m.player0Seat (ops.currentPlayer m.state.state))
            loc.sendTime loc.recvTime m.errorInfo).1 < 0)
    ∨ (¬ (replayLine ops fixedSeats line loc m).1 < 0
        ∧ ∃ a, line.action = some a ∧ 4 ≤ line.fields ∧ loc.h = m.handId
          ∧ (ops.isValidAction m.state.state false a).1 = true
          ∧ ¬ (checkErrorTimes
              (playerToSeat ops.numPlayers m.player0Seat (ops.currentPlayer m.state.state))
              loc.sendTime loc.recvTime m.errorInfo).1 < 0) := by
  cases ha : line.action with
  | none =>
    left
    refine ⟨?_, Or.inl rfl⟩
    unfold replayLine
    rw [ha]
  | some action =>
    by_cases h1 : line.fields < 4
    · left
      refine ⟨?_, Or.inr (Or.inl h1)⟩
      unfold replayLine
      rw [ha]
      simp only [if_pos h1]
    by_cases h2 : loc.h ≠ m.handId
    · left
      refine ⟨?_, Or.inr (Or.inr (Or.inl h2))⟩
      unfold replayLine
      rw [ha]
      simp only [if_neg h1, if_pos h2]
    by_cases h3 : (ops.isValidAction m.state.state false action).1 = false
    · left
      refine ⟨?_, Or.inr (Or.inr (Or.inr ⟨action, rfl, h3⟩))⟩
      unfold replayLine
      rw [ha]
      simp only [if_neg h1, if_neg h2, if_pos h3]
    by_cases h4 : (checkErrorTimes
          (playerToSeat ops.numPlayers m.player0Seat (ops.currentPlayer m.state.state))
          loc.sendTime loc.recvTime m.errorInfo).1 < 0
    · right
      left
      refine ⟨?_, h4⟩
      unfold replayLine
      rw [ha]
      simp only [if_neg h1, if_neg h2, if_neg h3, if_pos h4]
    · right
      right
      have hv : (ops.isValidAction m.state.state false action).1 = true := by
        cases hc : (ops.isValidAction m.state.state false action).1 with
        | true => rfl
        | false => exact absurd hc h3
      refine ⟨?_, action, rfl, by omega, not_not.mp h2, hv, h4⟩
      unfold replayLine
      rw [ha]
      simp only [if_neg h1, if_neg h2, if_neg h3, if_neg h4]
      split_ifs with hf
      · rw [(setUpNewHand_spec ops fixedSeats _).1]
        decide
      · show ¬ (0 : Int) < 0
        decide

end Dealer

namespace Dealer

/-- C15: let the entries before `bad` replay without failure, leaving the
match `m1`.  If, after the `sscanf` of `bad`, the hand id read differs from
the dealer's `handId`, or `isValidAction` with `tryFixing = 0` rejects the
action of `bad`, or `checkErrorTimes` fails on the time stamps for the seat of
the current player, then `processTransactionFile` returns `-1` whatever
follows `bad`, and the hand state, `handId`, `player0Seat`, the generator and
the totals it leaves are those of `m1`: `doAction` has not been applied for
`bad`.  On an entry with its five numbers the values compared are the
entry's own. -/
theorem processTransactionFile_strict {σ ρ V : Type} [Add V] (ops : GameOps σ ρ V)
    (fixedSeats : Nat) (pre : List JournalLine) (bad : JournalLine) (rest : List JournalLine)
    (loc : ReplayLocals) (m m1 : Match σ ρ V)
    (hpre : processTransactionFile ops fixedSeats pre loc m = (0, m1))
    (hbad : (scanStamp (pre.foldl scanStamp loc) bad).h ≠ m1.handId
      ∨ (∃ a, bad.action = some a ∧ (ops.isValidAction m1.state.state false a).1 = false)
      ∨ (checkErrorTimes
          (playerToSeat ops.numPlayers m1.player0Seat (ops.currentPlayer m1.state.state))
          (scanStamp (pre.foldl scanStamp loc) bad).sendTime
          (scanStamp (pre.foldl scanStamp loc) bad).recvTime m1.errorInfo).1 < 0) :
    (processTransactionFile ops fixedSeats (pre ++ bad :: rest) loc m).1 = -1
    ∧ (processTransactionFile ops fixedSeats (pre ++ bad :: rest) loc m).2.state = m1.state
    ∧ (processTransactionFile ops fixedSeats (pre ++ bad :: rest) loc m).2.handId = m1.handId
    ∧ (processTransactionFile ops fixedSeats (pre ++ bad :: rest) loc m).2.player0Seat
        = m1.player0Seat
    ∧ (processTransactionFile ops fixedSeats (pre ++ bad :: rest) loc m).2.rng = m1.rng
    ∧ (processTransactionFile ops fixedSeats (pre ++ bad :: rest) loc m).2.totalValue
        = m1.totalValue
    ∧ (bad.fields = 5 →
        scanStamp (pre.foldl scanStamp loc) bad = ⟨bad.handId, bad.sendTime, bad.recvTime⟩) := by
  rw [processTransactionFile_append ops fixedSeats pre (bad :: rest) loc m m1 hpre]
  have hlast : bad.fields = 5 →
      scanStamp (pre.foldl scanStamp loc) bad = ⟨bad.handId, bad.sendTime, bad.recvTime⟩ := by
    intro h5
    simp [scanStamp, h5]
  simp only [processTransactionFile]
  rcases replayLine_cases ops fixedSeats bad (scanStamp (pre.foldl scanStamp loc) bad) m1 with
    ⟨heq, -⟩ | ⟨heq, -⟩ | ⟨-, a, ha, -, hh, hv, ht⟩
  · rw [heq, if_pos (show ((-1 : Int) < 0) by decide)]
    exact ⟨rfl, rfl, rfl, rfl, rfl, rfl, hlast⟩
  · rw [heq, if_pos (show ((-1 : Int) < 0) by decide)]
    exact ⟨rfl, rfl, rfl, rfl, rfl, rfl, hlast⟩
  · exfalso
    rcases hbad with h | ⟨a1, ha1, h⟩ | h
    · exact h hh
    · rw [ha] at ha1
      injection ha1 with ha1
      subst ha1
      rw [hv] at h
      exact absurd h (by decide)
    · exact ht h

/-- Witness of C15: after the journal of the first hand of the example match
the dealer is at hand 1; an entry stamped with hand 0 makes the replay fail. -/
theorem processTransactionFile_strict_witness :
    (processTransactionFile toyOps toyConfig.fixedSeats
      (toyCut.journal
        ++ [⟨some ⟨ActionType.a_call, 0⟩, 5, 0, ⟨102, 1⟩, ⟨102, 500⟩⟩])
      toyConfig.loc (startMatch toyOps (toyInit 1000000).m).2).1 = -1 :=
  (processTransactionFile_strict toyOps toyConfig.fixedSeats toyCut.journal
    ⟨some ⟨ActionType.a_call, 0⟩, 5, 0, ⟨102, 1⟩, ⟨102, 500⟩⟩ [] toyConfig.loc
    (startMatch toyOps (toyInit 1000000).m).2
    (processTransactionFile toyOps toyConfig.fixedSeats toyCut.journal toyConfig.loc
      (startMatch toyOps (toyInit 1000000).m).2).2
    (Prod.ext (by decide) rfl) (Or.inl (by decide))).1

/-- The three rejections evaluated on the example match, each on an entry
with its five numbers: a wrong hand id, a fold (never valid in the example
game), and a response of two seconds under a response limit of one second;
the entry stamped with hand 1 and taking 499 microseconds is accepted. -/
theorem processTransactionFile_strict_examples :
    (processTransactionFile toyOps toyConfig.fixedSeats
      (toyCut.journal ++ [⟨some ⟨ActionType.a_call, 0⟩, 5, 0, ⟨102, 1⟩, ⟨102, 500⟩⟩])
      toyConfig.loc (startMatch toyOps (toyInit 1000000).m).2).1 = -1
    ∧ (processTransactionFile toyOps toyConfig.fixedSeats
      (toyCut.journal ++ [⟨some ⟨ActionType.a_fold, 0⟩, 5, 1, ⟨102, 1⟩, ⟨102, 500⟩⟩])
      toyConfig.loc (startMatch toyOps (toyInit 1000000).m).2).1 = -1
    ∧ (processTransactionFile toyOps toyConfig.fixedSeats
      (toyCut.journal ++ [⟨some ⟨ActionType.a_call, 0⟩, 5, 1, ⟨102, 1⟩, ⟨104, 1⟩⟩])
      toyConfig.loc (startMatch toyOps (toyInit 1000000).m).2).1 = -1
    ∧ (processTransactionFile toyOps toyConfig.fixedSeats
      (toyCut.journal ++ [⟨some ⟨ActionType.a_call, 0⟩, 5, 1, ⟨102, 1⟩, ⟨102, 500⟩⟩])
      toyConfig.loc (startMatch toyOps (toyInit 1000000).m).2).1 = 0
    ∧ (processTransactionFile toyOps toyConfig.fixedSeats
      (toyCut.journal ++ [⟨some ⟨ActionType.a_fold, 0⟩, 5, 1, ⟨102, 1⟩, ⟨102, 500⟩⟩])
      toyConfig.loc (startMatch toyOps (toyInit 1000000).m).2).2.state.state = (1, 0) := by
  decide

end Dealer

namespace Dealer

/-- An entry on which `sscanf` converts four numbers passes the test
`< 4` of line 424, and is replayed with the microseconds of the receive time
left in the local by an earlier line. -/
theorem replayLine_four_fields {σ ρ V : Type} [Add V] (ops : GameOps σ ρ V)
    (fixedSeats : Nat) (line : JournalLine) (loc : ReplayLocals) (m : Match σ ρ V)
    (h4 : line.fields = 4) :
    scanStamp loc line
        = ⟨line.handId, line.sendTime, ⟨line.recvTime.tv_sec, loc.recvTime.tv_usec⟩⟩
    ∧ ((replayLine ops fixedSeats line (scanStamp loc line) m).1 < 0 →
        line.action = none ∨ line.handId ≠ m.handId
          ∨ (∃ a, line.action = some a ∧ (ops.isValidAction m.state.state false a).1 = false)
          ∨ (checkErrorTimes
              (playerToSeat ops.numPlayers m.player0Seat (ops.currentPlayer m.state.state))
              line.sendTime ⟨line.recvTime.tv_sec, loc.recvTime.tv_usec⟩ m.errorInfo).1 < 0) := by
  have hscan : scanStamp loc line
      = ⟨line.handId, line.sendTime, ⟨line.recvTime.tv_sec, loc.recvTime.tv_usec⟩⟩ := by
    simp [scanStamp, h4]
  refine ⟨hscan, ?_⟩
  rw [hscan]
  intro hneg
  rcases replayLine_cases ops fixedSeats line
      ⟨line.handId, line.sendTime, ⟨line.recvTime.tv_sec, loc.recvTime.tv_usec⟩⟩ m with
    ⟨-, h | h | h | h⟩ | ⟨-, h⟩ | ⟨h, -⟩
  · exact Or.inl h
  · omega
  · exact Or.inr (Or.inl h)
  · exact Or.inr (Or.inr (Or.inl h))
  · exact Or.inr (Or.inr (Or.inr h))
  · exact absurd hneg h

/-- C16 at a failing input: the journal line `c 0 101.000000 101`, on which
`sscanf` converts four numbers (the microseconds of the receive time are
missing), is accepted: `processTransactionFile` returns `0` and has applied
the action.  The time charged to the seat, 700000 microseconds, comes from
the value the local `recvTime.tv_usec` happened to hold.  The same line cut
after the send time (three numbers) is rejected. -/
theorem processTransactionFile_accepts_four_fields :
    (processTransactionFile toyOps toyConfig.fixedSeats
      [⟨some ⟨ActionType.a_call, 0⟩, 4, 0, ⟨101, 0⟩, ⟨101, 0⟩⟩]
      ⟨0, ⟨0, 0⟩, ⟨0, 700000⟩⟩ (startMatch toyOps (toyInit 1000000).m).2).1 = 0
    ∧ (processTransactionFile toyOps toyConfig.fixedSeats
      [⟨some ⟨ActionType.a_call, 0⟩, 4, 0, ⟨101, 0⟩, ⟨101, 0⟩⟩]
      ⟨0, ⟨0, 0⟩, ⟨0, 700000⟩⟩ (startMatch toyOps (toyInit 1000000).m).2).2.state.state
        = (0, 1)
    ∧ (processTransactionFile toyOps toyConfig.fixedSeats
      [⟨some ⟨ActionType.a_call, 0⟩, 4, 0, ⟨101, 0⟩, ⟨101, 0⟩⟩]
      ⟨0, ⟨0, 0⟩, ⟨0, 700000⟩⟩
      (startMatch toyOps (toyInit 1000000).m).2).2.errorInfo.usedMatchMicros 0 = 700000
    ∧ (processTransactionFile toyOps toyConfig.fixedSeats
      [⟨some ⟨ActionType.a_call, 0⟩, 3, 0, ⟨101, 0⟩, ⟨0, 0⟩⟩]
      ⟨0, ⟨0, 0⟩, ⟨0, 700000⟩⟩ (startMatch toyOps (toyInit 1000000).m).2).1 = -1 := by
  decide

end Dealer

namespace Dealer

/-! ## Theorems: the lines read for one response -/

theorem readPlayerResponse_cons {σ ρ V : Type} (ops : GameOps σ ρ V) (state : MatchState σ)
    (seat : Nat) (sendTime : Timeval) (errorInfo : ErrorInfo) (line : List Char)
    (recvTime : Timeval) (rest : List (List Char × Timeval)) :
    readPlayerResponse ops state seat sendTime errorInfo ((line, recvTime) :: rest)
      = responseStep ops state seat sendTime line recvTime rest
          (fun e => readPlayerResponse ops state seat sendTime e rest) errorInfo := by
  rw [readPlayerResponse]
  unfold responseStep
  by_cases hc : line.head? = some '#' ∨ line.head? = some ';'
  · have hb : isComment line = true := decide_eq_true hc
    rw [if_pos hc, if_pos hb]
  · have hb : ¬ isComment line = true := by
      intro h
      exact hc (of_decide_eq_true h)
    rw [if_neg hc, if_neg hb]
    simp only
    by_cases ht : (checkErrorTimes seat sendTime recvTime errorInfo).1 < 0
    · rw [if_pos ht, if_pos ht]
    · rw [if_neg ht, if_neg ht]
      cases hs : ops.readMatchState line with
      | none => rfl
      | some ct =>
        obtain ⟨c, tempState⟩ := ct
        simp only
        by_cases he : ops.matchStatesEqual state tempState = false
        · rw [if_pos he, if_pos he]
        · rw [if_neg he, if_neg he]
          rfl

end Dealer

namespace Dealer

/-- On success `acceptLine` hands back the time stamp and the unread lines it
was given, and an `ErrorInfo` that differs from the one it was given at most
in `numInvalidActions[seat]`. -/
theorem acceptLine_success {σ ρ V : Type} (ops : GameOps σ ρ V) (state : MatchState σ)
    (seat : Nat) (line : List Char) (c : Nat) (recvTime : Timeval)
    (rest : List (List Char × Timeval)) (e : ErrorInfo) (action : Action) (recvTime1 : Timeval)
    (e1 : ErrorInfo) (rest1 : List (List Char × Timeval))
    (h : acceptLine ops state seat line c recvTime rest e
      = ReadOutcome.success action recvTime1 e1 rest1) :
    recvTime1 = recvTime ∧ rest1 = rest
    ∧ (e1 = e ∨ e1 = (checkErrorInvalidAction seat e).2) := by
  unfold acceptLine at h
  cases hact : (if line.getD c (Char.ofNat 0) ≠ ':' then none
      else ops.readAction (line.drop (c + 1))) with
  | none =>
    rw [hact] at h
    simp only at h
    injection h with h1 h2 h3 h4
    exact ⟨h2.symm, h4.symm, Or.inr h3.symm⟩
  | some ra =>
    obtain ⟨r, parsed⟩ := ra
    rw [hact] at h
    simp only at h
    by_cases hvalid : (ops.isValidAction state.state true parsed).1 = false
    · rw [if_pos hvalid] at h
      by_cases hinv : (checkErrorInvalidAction seat e).1 < 0
      · rw [if_pos hinv] at h
        exact absurd h (by simp)
      · rw [if_neg hinv] at h
        injection h with h1 h2 h3 h4
        exact ⟨h2.symm, h4.symm, Or.inr h3.symm⟩
    · rw [if_neg hvalid] at h
      injection h with h1 h2 h3 h4
      exact ⟨h2.symm, h4.symm, Or.inl h3.symm⟩

/-- A successful `readPlayerResponse` has passed over some lines, each after
its time check unless it is a comment, and has then accepted a line whose
match state is the state sent. -/
theorem readPlayerResponse_success {σ ρ V : Type} (ops : GameOps σ ρ V)
    (state : MatchState σ) (seat : Nat) (sendTime : Timeval)
    (input : List (List Char × Timeval)) :
    ∀ (e : ErrorInfo) (action : Action) (recvTime : Timeval) (e1 : ErrorInfo)
      (rest : List (List Char × Timeval)),
      readPlayerResponse ops state seat sendTime e input
        = ReadOutcome.success action recvTime e1 rest →
      ∃ ignored line c tempState,
        input = ignored ++ (line, recvTime) :: rest
        ∧ (∀ l ∈ ignored, ignoredLine ops state l.1 = true)
        ∧ isComment line = false
        ∧ ops.readMatchState line = some (c, tempState)
        ∧ ops.matchStatesEqual state tempState = true
        ∧ ¬ (checkErrorTimes seat sendTime recvTime
              (chargeLines seat sendTime ignored e)).1 < 0
        ∧ acceptLine ops state seat line c recvTime rest
            (checkErrorTimes seat sendTime recvTime (chargeLines seat sendTime ignored e)).2
          = ReadOutcome.success action recvTime e1 rest := by
  induction input with
  | nil =>
    intro e action recvTime e1 rest h
    simp [readPlayerResponse] at h
  | cons hd tl ih =>
    obtain ⟨line, recv⟩ := hd
    intro e action recvTime e1 rest h
    rw [readPlayerResponse_cons] at h
    unfold responseStep at h
    by_cases hc : isComment line = true
    · rw [if_pos hc] at h
      obtain ⟨ignored, ln, c, ts, g1, g2, g3, g4, g5, g6, g7⟩ := ih e action recvTime e1 rest h
      refine ⟨(line, recv) :: ignored, ln, c, ts, by rw [g1]; rfl, ?_, g3, g4, g5, ?_, ?_⟩
      · intro l hl
        rcases List.mem_cons.mp hl with rfl | hl
        · simp [ignoredLine, hc]
        · exact g2 l hl
      · simpa [chargeLines, hc] using g6
      · simpa [chargeLines, hc] using g7
    · rw [if_neg hc] at h
      simp only at h
      by_cases ht : (checkErrorTimes seat sendTime recv e).1 < 0
      · rw [if_pos ht] at h
        exact absurd h (by simp)
      · rw [if_neg ht] at h
        have hskip : readPlayerResponse ops state seat sendTime
              (checkErrorTimes seat sendTime recv e).2 tl
              = ReadOutcome.success action recvTime e1 rest →
            ignoredLine ops state line = true →
            ∃ ignored ln c tempState,
              (line, recv) :: tl = ignored ++ (ln, recvTime) :: rest
              ∧ (∀ l ∈ ignored, ignoredLine ops state l.1 = true)
              ∧ isComment ln = false
              ∧ ops.readMatchState ln = some (c, tempState)
              ∧ ops.matchStatesEqual state tempState = true
              ∧ ¬ (checkErrorTimes seat sendTime recvTime
                    (chargeLines seat sendTime ignored e)).1 < 0
              ∧ acceptLine ops state seat ln c recvTime rest
                  (checkErrorTimes seat sendTime recvTime
                    (chargeLines seat sendTime ignored e)).2
                = ReadOutcome.success action recvTime e1 rest := by
          intro h1 hig
          obtain ⟨ignored, ln, c, ts, g1, g2, g3, g4, g5, g6, g7⟩ :=
            ih _ action recvTime e1 rest h1
          refine ⟨(line, recv) :: ignored, ln, c, ts, by rw [g1]; rfl, ?_, g3, g4, g5, ?_, ?_⟩
          · intro l hl
            rcases List.mem_cons.mp hl with rfl | hl
            · exact hig
            · exact g2 l hl
          · simpa [chargeLines, hc] using g6
          · simpa [chargeLines, hc] using g7
        cases hs : ops.readMatchState line with
        | none =>
          rw [hs] at h
          exact hskip h (by simp [ignoredLine, hs])
        | some ct =>
          obtain ⟨c, tempState⟩ := ct
          rw [hs] at h
          simp only at h
          by_cases he : ops.matchStatesEqual state tempState = false
          · rw [if_pos he] at h
            exact hskip h (by simp [ignoredLine, hs, he])
          · rw [if_neg he] at h
            obtain ⟨k1, k2, -⟩ := acceptLine_success ops state seat line c recv tl _ action
              recvTime e1 rest h
            subst k1 k2
            have he1 : ops.matchStatesEqual state tempState = true := by
              cases hb : ops.matchStatesEqual state tempState with
              | true => rfl
              | false => exact absurd hb he
            have hc1 : isComment line = false := by
              cases hb : isComment line with
              | true => exact absurd hb hc
              | false => rfl
            exact ⟨[], line, c, tempState, rfl, by simp, hc1, hs, he1, ht, h⟩

end Dealer

namespace Dealer

end Dealer

namespace Dealer

theorem ReadOutcome.eq_success_of_code (o : ReadOutcome) (a : Action) (t : Timeval)
    (h : o.code = 0) :
    o = ReadOutcome.success (o.action?.getD a) (o.recvTime?.getD t) o.errorInfo
      (o.rest?.getD []) := by
  cases o with
  | failure e => exact absurd h (show ¬ ((-1 : Int) = 0) by decide)
  | success action recvTime e rest => rfl

end Dealer

namespace Dealer

theorem acceptLine_mapRest {σ ρ V : Type} (ops : GameOps σ ρ V) (state : MatchState σ)
    (seat : Nat) (line : List Char) (c : Nat) (recvTime : Timeval)
    (rest : List (List Char × Timeval)) (e : ErrorInfo)
    (f : List (List Char × Timeval) → List (List Char × Timeval)) :
    (acceptLine ops state seat line c recvTime rest e).mapRest f
      = acceptLine ops state seat line c recvTime (f rest) e := by
  unfold acceptLine
  cases hact : (if line.getD c (Char.ofNat 0) ≠ ':' then none
      else ops.readAction (line.drop (c + 1))) with
  | none => rfl
  | some ra =>
    obtain ⟨r, parsed⟩ := ra
    simp only
    by_cases hvalid : (ops.isValidAction state.state true parsed).1 = false
    · rw [if_pos hvalid, if_pos hvalid]
      by_cases hinv : (checkErrorInvalidAction seat e).1 < 0
      · rw [if_pos hinv, if_pos hinv]
        rfl
      · rw [if_neg hinv, if_neg hinv]
        rfl
    · rw [if_neg hvalid, if_neg hvalid]
      rfl

theorem responseStep_mapRest {σ ρ V : Type} (ops : GameOps σ ρ V) (state : MatchState σ)
    (seat : Nat) (sendTime : Timeval) (line : List Char) (recvTime : Timeval)
    (rest : List (List Char × Timeval)) (k : ErrorInfo → ReadOutcome) (e : ErrorInfo)
    (f : List (List Char × Timeval) → List (List Char × Timeval)) :
    (responseStep ops state seat sendTime line recvTime rest k e).mapRest f
      = responseStep ops state seat sendTime line recvTime (f rest)
          (fun e1 => (k e1).mapRest f) e := by
  unfold responseStep
  by_cases hc : isComment line = true
  · rw [if_pos hc, if_pos hc]
  · rw [if_neg hc, if_neg hc]
    simp only
    by_cases ht : (checkErrorTimes seat sendTime recvTime e).1 < 0
    · rw [if_pos ht, if_pos ht]
      rfl
    · rw [if_neg ht, if_neg ht]
      cases hs : ops.readMatchState line with
      | none => rfl
      | some ct =>
        obtain ⟨c, tempState⟩ := ct
        simp only
        by_cases he : ops.matchStatesEqual state tempState = false
        · rw [if_pos he, if_pos he]
        · rw [if_neg he, if_neg he]
          exact acceptLine_mapRest ops state seat line c recvTime rest _ f

theorem readPlayerResponse_filter {σ ρ V : Type} (ops : GameOps σ ρ V) (state : MatchState σ)
    (seat : Nat) (sendTime : Timeval) (input : List (List Char × Timeval)) :
    ∀ e : ErrorInfo,
      readPlayerResponse ops state seat sendTime e (input.filter (fun l => !isComment l.1))
        = (readPlayerResponse ops state seat sendTime e input).mapRest
            (List.filter (fun l => !isComment l.1)) := by
  induction input with
  | nil =>
    intro e
    simp only [List.filter_nil, readPlayerResponse]
    rfl
  | cons hd tl ih =>
    obtain ⟨line, recv⟩ := hd
    intro e
    by_cases hc : isComment line = true
    · have hf : ((line, recv) :: tl).filter (fun l => !isComment l.1)
          = tl.filter (fun l => !isComment l.1) := by
        simp [List.filter, hc]
      rw [hf, ih e, readPlayerResponse_cons ops state seat sendTime e line recv tl]
      unfold responseStep
      rw [if_pos hc]
    · have hf : ((line, recv) :: tl).filter (fun l => !isComment l.1)
          = (line, recv) :: tl.filter (fun l => !isComment l.1) := by
        simp [List.filter, hc]
      rw [hf, readPlayerResponse_cons, readPlayerResponse_cons, responseStep_mapRest]
      congr 1
      funext e1
      exact ih e1

/-- C18: a line whose first character is `#` or `;` makes `readPlayerResponse`
go on to the next line with the `ErrorInfo` untouched, and on any sequence of
lines the function returns what it returns on the sequence without its
comment lines: the same code, action, time stamp and `ErrorInfo`, and the
same unread lines up to the comments among them. -/
theorem readPlayerResponse_ignores_comments {σ ρ V : Type} (ops : GameOps σ ρ V)
    (state : MatchState σ) (seat : Nat) (sendTime : Timeval) (e : ErrorInfo)
    (input : List (List Char × Timeval)) :
    readPlayerResponse ops state seat sendTime e (input.filter (fun l => !isComment l.1))
        = (readPlayerResponse ops state seat sendTime e input).mapRest
            (List.filter (fun l => !isComment l.1))
    ∧ (readPlayerResponse ops state seat sendTime e
          (input.filter (fun l => !isComment l.1))).code
        = (readPlayerResponse ops state seat sendTime e input).code
    ∧ (readPlayerResponse ops state seat sendTime e
          (input.filter (fun l => !isComment l.1))).action?
        = (readPlayerResponse ops state seat sendTime e input).action?
    ∧ (readPlayerResponse ops state seat sendTime e
          (input.filter (fun l => !isComment l.1))).recvTime?
        = (readPlayerResponse ops state seat sendTime e input).recvTime?
    ∧ (readPlayerResponse ops state seat sendTime e
          (input.filter (fun l => !isComment l.1))).errorInfo
        = (readPlayerResponse ops state seat sendTime e input).errorInfo
    ∧ (∀ line recvTime, isComment line = true →
        readPlayerResponse ops state seat sendTime e ((line, recvTime) :: input)
          = readPlayerResponse ops state seat sendTime e input) := by
  have h := readPlayerResponse_filter ops state seat sendTime input e
  refine ⟨h, ?_, ?_, ?_, ?_, ?_⟩
  · rw [h]
    cases readPlayerResponse ops state seat sendTime e input <;> rfl
  · rw [h]
    cases readPlayerResponse ops state seat sendTime e input <;> rfl
  · rw [h]
    cases readPlayerResponse ops state seat sendTime e input <;> rfl
  · rw [h]
    cases readPlayerResponse ops state seat sendTime e input <;> rfl
  · intro line recvTime hc
    rw [readPlayerResponse_cons]
    unfold responseStep
    rw [if_pos hc]

/-- The example match of C18 evaluated: seat 0 sends a comment before its
answer in hand 1; with and without the comment the dealer hands back the
same action and has charged the same 10 microseconds. -/
theorem readPlayerResponse_comment_example :
    (readPlayerResponse toyOps ⟨(1, 1), 1⟩ 0 ⟨103, 0⟩
        ⟨2 ^ 32 - 1, 1000000, 1500000, 9000000, fun _ => 0, fun _ => 0, fun _ => 0⟩
        [(['#', ' ', 'h', 'i'], ⟨102, 0⟩), ([';'], ⟨103, 5⟩),
          (['S', '1', '1', ':', 'r'], ⟨103, 10⟩)]).action? = some ⟨ActionType.a_raise, 0⟩
    ∧ (readPlayerResponse toyOps ⟨(1, 1), 1⟩ 0 ⟨103, 0⟩
        ⟨2 ^ 32 - 1, 1000000, 1500000, 9000000, fun _ => 0, fun _ => 0, fun _ => 0⟩
        [(['#', ' ', 'h', 'i'], ⟨102, 0⟩), ([';'], ⟨103, 5⟩),
          (['S', '1', '1', ':', 'r'], ⟨103, 10⟩)]).errorInfo.usedMatchMicros 0 = 10
    ∧ (readPlayerResponse toyOps ⟨(1, 1), 1⟩ 0 ⟨103, 0⟩
        ⟨2 ^ 32 - 1, 1000000, 1500000, 9000000, fun _ => 0, fun _ => 0, fun _ => 0⟩
        [(['S', '1', '1', ':', 'r'], ⟨103, 10⟩)]).errorInfo.usedMatchMicros 0 = 10 := by
  decide

end Dealer

namespace Net

/-! ## Theorems: reading a line from a socket -/

/-- The value `getLine` hands to `select` once it has a start time: the time
left while the elapsed time is within the timeout, and the difference
wrapped around `2 ^ 64` once the elapsed time is above it (`timeoutMicros` is
an `int64_t`, the elapsed time a `long`). -/
theorem timeLeft_spec (timeoutMicros : Int) (start now : Dealer.Timeval)
    (h0 : 0 ≤ timeoutMicros) (h1 : timeoutMicros < 2 ^ 63)
    (he0 : 0 ≤ (now.tv_sec - start.tv_sec) * 1000000 + (now.tv_usec - start.tv_usec))
    (he1 : (now.tv_sec - start.tv_sec) * 1000000 + (now.tv_usec - start.tv_usec) < 2 ^ 63) :
    ((now.tv_sec - start.tv_sec) * 1000000 + (now.tv_usec - start.tv_usec) ≤ timeoutMicros →
      (timeLeft timeoutMicros true start now : Int)
        = timeoutMicros
          - ((now.tv_sec - start.tv_sec) * 1000000 + (now.tv_usec - start.tv_usec)))
    ∧ (timeoutMicros < (now.tv_sec - start.tv_sec) * 1000000 + (now.tv_usec - start.tv_usec) →
      (timeLeft timeoutMicros true start now : Int)
        = 2 ^ 64 + timeoutMicros
          - ((now.tv_sec - start.tv_sec) * 1000000 + (now.tv_usec - start.tv_usec))) := by
  unfold timeLeft
  generalize (now.tv_sec - start.tv_sec) * 1000000 + (now.tv_usec - start.tv_usec) = el
    at he0 he1 ⊢
  simp only [if_true, Nat.not_lt_zero, if_false]
  have e1 : timeoutMicros % 2 ^ 64 = timeoutMicros :=
    Int.emod_eq_of_lt h0 (by norm_num at h1 ⊢; omega)
  have e2 : el % 2 ^ 64 = el := Int.emod_eq_of_lt he0 (by norm_num at he1 ⊢; omega)
  rw [e1, e2]
  norm_num at h1 he1 ⊢
  constructor
  · intro hle
    omega
  · intro hlt
    omega

/-- C19 at a failing input: `getLine` is called with a timeout of one second;
its first `select` returns with the bytes `ab` and no newline, and when the
buffer is empty again the clock reads one second and one microsecond after
the start.  The second `select` is handed `2 ^ 64 - 1` microseconds
(18446744073709 seconds in `tv_sec`), not 0. -/
theorem getLine_wait_after_deadline :
    timeLeft 1000000 true ⟨10, 0⟩ ⟨11, 1⟩ = 18446744073709551615
    ∧ (getLine ⟨[], 0, 0⟩ 4096 1000000
        [⟨⟨10, 0⟩, true, some ['a', 'b']⟩, ⟨⟨11, 1⟩, false, none⟩]).map (fun r => r.waits)
      = some [1000000, 18446744073709551615]
    ∧ 18446744073709551615 / 1000000 = 18446744073709
    ∧ timeLeft 1000000 true ⟨10, 0⟩ ⟨10, 999999⟩ = 1 := by
  decide

end Net

namespace Dealer

/-! ## Theorems: what a time check may change -/

/-- C30: for timestamps with the receive time not earlier than the send time,
`checkErrorTimes` for seat `seat` replaces `usedHandMicros[seat]` and
`usedMatchMicros[seat]` by the old value plus `responseMicros` as a `uint64_t`
(the exact sum whenever it fits 64 bits), whatever code it returns; the hand
and match counters of every other seat, all of `numInvalidActions` and the four
limits are as they were. -/
theorem checkErrorTimes_charges_only_its_seat (seat : Nat) (sendTime recvTime : Timeval)
    (info : ErrorInfo)
    (h : ¬ (recvTime.tv_sec < sendTime.tv_sec
        ∨ (recvTime.tv_sec = sendTime.tv_sec ∧ recvTime.tv_usec < sendTime.tv_usec))) :
    (checkErrorTimes seat sendTime recvTime info).2.usedHandMicros seat
        = (info.usedHandMicros seat + responseMicros sendTime recvTime) % 2 ^ 64
    ∧ (checkErrorTimes seat sendTime recvTime info).2.usedMatchMicros seat
        = (info.usedMatchMicros seat + responseMicros sendTime recvTime) % 2 ^ 64
    ∧ (info.usedHandMicros seat + responseMicros sendTime recvTime < 2 ^ 64 →
        (checkErrorTimes seat sendTime recvTime info).2.usedHandMicros seat
          = info.usedHandMicros seat + responseMicros sendTime recvTime)
    ∧ (info.usedMatchMicros seat + responseMicros sendTime recvTime < 2 ^ 64 →
        (checkErrorTimes seat sendTime recvTime info).2.usedMatchMicros seat
          = info.usedMatchMicros seat + responseMicros sendTime recvTime)
    ∧ (∀ p, p ≠ seat →
        (checkErrorTimes seat sendTime recvTime info).2.usedHandMicros p
            = info.usedHandMicros p
        ∧ (checkErrorTimes seat sendTime recvTime info).2.usedMatchMicros p
            = info.usedMatchMicros p)
    ∧ (checkErrorTimes seat sendTime recvTime info).2.numInvalidActions
        = info.numInvalidActions
    ∧ (checkErrorTimes seat sendTime recvTime info).2.maxInvalidActions
        = info.maxInvalidActions
    ∧ (checkErrorTimes seat sendTime recvTime info).2.maxResponseMicros
        = info.maxResponseMicros
    ∧ (checkErrorTimes seat sendTime recvTime info).2.maxUsedHandMicros
        = info.maxUsedHandMicros
    ∧ (checkErrorTimes seat sendTime recvTime info).2.maxUsedMatchMicros
        = info.maxUsedMatchMicros := by
  rw [checkErrorTimes_info seat sendTime recvTime info h]
  refine ⟨Function.update_same _ _ _, Function.update_same _ _ _, fun hfit => ?_, fun hfit => ?_,
    fun p hp => ⟨Function.update_noteq hp _ _, Function.update_noteq hp _ _⟩,
    rfl, rfl, rfl, rfl, rfl⟩
  · exact (Function.update_same _ _ _).trans (Nat.mod_eq_of_lt hfit)
  · exact (Function.update_same _ _ _).trans (Nat.mod_eq_of_lt hfit)

/-- Witness of C30: a response of 2.5 seconds against a limit of 2 seconds for
the match: the call fails, seat 1 is charged 2500000 microseconds on both
counters, and seat 0 keeps its 7 and 9 microseconds. -/
theorem checkErrorTimes_charges_only_its_seat_witness :
    (checkErrorTimes 1 ⟨10, 600000⟩ ⟨13, 100000⟩
        ⟨0, 3000000, 3000000, 2000000, fun _ => 0, fun _ => 7, fun _ => 9⟩).1 = -1
    ∧ (checkErrorTimes 1 ⟨10, 600000⟩ ⟨13, 100000⟩
        ⟨0, 3000000, 3000000, 2000000, fun _ => 0, fun _ => 7, fun _ => 9⟩).2.usedHandMicros 1
      = 7 + 2500000
    ∧ (checkErrorTimes 1 ⟨10, 600000⟩ ⟨13, 100000⟩
        ⟨0, 3000000, 3000000, 2000000, fun _ => 0, fun _ => 7, fun _ => 9⟩).2.usedMatchMicros 1
      = 9 + 2500000
    ∧ (checkErrorTimes 1 ⟨10, 600000⟩ ⟨13, 100000⟩
        ⟨0, 3000000, 3000000, 2000000, fun _ => 0, fun _ => 7, fun _ => 9⟩).2.usedHandMicros 0
      = 7 := by
  have h := checkErrorTimes_charges_only_its_seat 1 ⟨10, 600000⟩ ⟨13, 100000⟩
    ⟨0, 3000000, 3000000, 2000000, fun _ => 0, fun _ => 7, fun _ => 9⟩ (by decide)
  refine ⟨by decide, ?_, ?_, ?_⟩
  · rw [h.1]; decide
  · rw [h.2.1]; decide
  · rw [(h.2.2.2.2.1 0 (by decide)).1]

end Dealer

namespace Dealer

/-! ## Theorems: seats and player positions -/

/-- C23: for `1 ≤ numPlayers` (at most 256, the range of the `uint8_t` results)
and `player0Seat < numPlayers`, `seatToPlayer` and `playerToSeat` map
`{0..numPlayers-1}` into itself and are inverse to each other there, hence
both are bijections of that set. -/
theorem seatToPlayer_playerToSeat_inverse (numPlayers player0Seat : Nat)
    (hN0 : 1 ≤ numPlayers) (hN : numPlayers ≤ 256) (hp : player0Seat < numPlayers) :
    (∀ seat, seat < numPlayers →
        seatToPlayer numPlayers player0Seat seat < numPlayers
        ∧ playerToSeat numPlayers player0Seat (seatToPlayer numPlayers player0Seat seat) = seat)
    ∧ (∀ player, player < numPlayers →
        playerToSeat numPlayers player0Seat player < numPlayers
        ∧ seatToPlayer numPlayers player0Seat (playerToSeat numPlayers player0Seat player)
            = player)
    ∧ Set.BijOn (seatToPlayer numPlayers player0Seat) {s | s < numPlayers} {p | p < numPlayers}
    ∧ Set.BijOn (playerToSeat numPlayers player0Seat) {p | p < numPlayers}
        {s | s < numPlayers} := by
  have h1 : ∀ seat, seat < numPlayers →
      seatToPlayer numPlayers player0Seat seat < numPlayers
      ∧ playerToSeat numPlayers player0Seat (seatToPlayer numPlayers player0Seat seat) = seat :=
    fun seat hs => ⟨seatToPlayer_lt _ _ _ hN hp, playerToSeat_seatToPlayer _ _ _ hN hp hs⟩
  have h2 : ∀ player, player < numPlayers →
      playerToSeat numPlayers player0Seat player < numPlayers
      ∧ seatToPlayer numPlayers player0Seat (playerToSeat numPlayers player0Seat player)
          = player :=
    fun player hs => ⟨playerToSeat_lt _ _ _ hN0 hN, seatToPlayer_playerToSeat _ _ _ hN hp hs⟩
  refine ⟨h1, h2, ?_, ?_⟩
  · exact Set.InvOn.bijOn ⟨fun s hs => (h1 s hs).2, fun p hp1 => (h2 p hp1).2⟩
      (fun s hs => (h1 s hs).1) (fun p hp1 => (h2 p hp1).1)
  · exact Set.InvOn.bijOn ⟨fun p hp1 => (h2 p hp1).2, fun s hs => (h1 s hs).2⟩
      (fun p hp1 => (h2 p hp1).1) (fun s hs => (h1 s hs).1)

/-- Witness of C23: three players with player 0 in seat 2; seat 0 holds
player 1, and player 1 sits in seat 0. -/
theorem seatToPlayer_playerToSeat_inverse_witness :
    seatToPlayer 3 2 0 = 1
    ∧ playerToSeat 3 2 (seatToPlayer 3 2 0) = 0
    ∧ seatToPlayer 3 2 (playerToSeat 3 2 1) = 1 :=
  ⟨by decide,
    ((seatToPlayer_playerToSeat_inverse 3 2 (by decide) (by decide) (by decide)).1 0
      (by decide)).2,
    ((seatToPlayer_playerToSeat_inverse 3 2 (by decide) (by decide) (by decide)).2.1 1
      (by decide)).2⟩

/-! ## Theorems: the send time of a turn -/

theorem foldl_broadcast_same (numPlayers player0Seat currentP : Nat) (remember : Bool)
    (hr : remember = true) (sendTimes : Nat → Option Timeval) (l : List Nat) :
    ∀ (s : Timeval) (v : Nat) (t : Timeval) (w : Nat),
      l.foldl
        (fun (acc : Option (Timeval × Nat)) seat =>
          match acc with
          | none => none
          | some (sendTime, _) =>
            match sendTimes seat with
            | none => none
            | some t =>
              some (if remember = true ∧ seatToPlayer numPlayers player0Seat seat = currentP then t
                    else sendTime,
                seatToPlayer numPlayers player0Seat seat))
        (some (s, v)) = some (t, w) →
      (∀ seat ∈ l, seatToPlayer numPlayers player0Seat seat = currentP →
        sendTimes seat = some s) →
      t = s := by
  induction l with
  | nil =>
    intro s v t w h _
    simp only [List.foldl_nil] at h
    injection h with h
    injection h with h1 h2
    exact h1.symm
  | cons a l ih =>
    intro s v t w h hall
    simp only [List.foldl_cons] at h
    cases hsend : sendTimes a with
    | none =>
      rw [hsend] at h
      simp only at h
      rw [foldl_broadcast_none] at h
      exact absurd h (by simp)
    | some ta =>
      rw [hsend] at h
      simp only at h
      have hs1 : (if remember = true ∧ seatToPlayer numPlayers player0Seat a = currentP then ta
          else s) = s := by
        by_cases hm : seatToPlayer numPlayers player0Seat a = currentP
        · have := hall a (List.mem_cons_self _ _) hm
          rw [hsend] at this
          injection this with this
          rw [if_pos ⟨hr, hm⟩, this]
        · rw [if_neg (fun hh => hm hh.2)]
      rw [hs1] at h
      exact ih s _ t w h (fun seat hseat hm => hall seat (List.mem_cons_of_mem _ hseat) hm)

theorem foldl_broadcast_sendTime (numPlayers player0Seat currentP : Nat) (remember : Bool)
    (hr : remember = true) (sendTimes : Nat → Option Timeval) (seat0 : Nat)
    (h0 : seatToPlayer numPlayers player0Seat seat0 = currentP) (l : List Nat) :
    ∀ (s : Timeval) (v : Nat) (t : Timeval) (w : Nat),
      l.foldl
        (fun (acc : Option (Timeval × Nat)) seat =>
          match acc with
          | none => none
          | some (sendTime, _) =>
            match sendTimes seat with
            | none => none
            | some t =>
              some (if remember = true ∧ seatToPlayer numPlayers player0Seat seat = currentP then t
                    else sendTime,
                seatToPlayer numPlayers player0Seat seat))
        (some (s, v)) = some (t, w) →
      seat0 ∈ l →
      (∀ seat ∈ l, seatToPlayer numPlayers player0Seat seat = currentP → seat = seat0) →
      sendTimes seat0 = some t := by
  induction l with
  | nil =>
    intro s v t w _ hmem _
    simp at hmem
  | cons a l ih =>
    intro s v t w h hmem huniq
    simp only [List.foldl_cons] at h
    cases hsend : sendTimes a with
    | none =>
      rw [hsend] at h
      simp only at h
      rw [foldl_broadcast_none] at h
      exact absurd h (by simp)
    | some ta =>
      rw [hsend] at h
      simp only at h
      by_cases ha : a = seat0
      · subst ha
        rw [if_pos ⟨hr, h0⟩] at h
        have := foldl_broadcast_same numPlayers player0Seat currentP remember hr sendTimes l ta _ t w h
          (fun seat hseat hm => by
            rw [huniq seat (List.mem_cons_of_mem _ hseat) hm]
            exact hsend)
        rw [this]
        exact hsend
      · rcases List.mem_cons.mp hmem with hm | hm
        · exact absurd hm.symm ha
        · exact ih _ _ t w h hm
            (fun seat hseat hmt => huniq seat (List.mem_cons_of_mem _ hseat) hmt)

/-- C22: in a turn of `gameLoop` with `player0Seat < numPlayers` and the
current player `currentP < numPlayers` (at most 256 players, the range of
`uint8_t`), the seats `seat < numPlayers` of the broadcast loop with
`seatToPlayer(seat) = currentP` are exactly the one seat
`playerToSeat(currentP)`; whatever `sendTime` held before the turn, a broadcast
that completes leaves in it the time of this turn's send to that seat; and a
turn that completes has charged the response of that seat from that time (the
`sendTime` the turn leaves behind and writes to the journal). -/
theorem playTurn_sendTime_of_awaited_seat {σ ρ V : Type} (ops : GameOps σ ρ V)
    (useJournal : Bool) (io : StepInput) (st : Live σ ρ V)
    (hN : ops.numPlayers ≤ 256) (hp0 : st.m.player0Seat < ops.numPlayers)
    (hc : ops.currentPlayer st.m.state.state < ops.numPlayers) :
    (∀ seat, seat < ops.numPlayers →
        (seatToPlayer ops.numPlayers st.m.player0Seat seat = ops.currentPlayer st.m.state.state
          ↔ seat = playerToSeat ops.numPlayers st.m.player0Seat
              (ops.currentPlayer st.m.state.state)))
    ∧ playerToSeat ops.numPlayers st.m.player0Seat (ops.currentPlayer st.m.state.state)
        < ops.numPlayers
    ∧ (∀ (old : Timeval) (vp : Nat) (t : Timeval) (w : Nat),
        broadcast ops.numPlayers st.m.player0Seat (ops.currentPlayer st.m.state.state) true
            io.sendTimes old vp = some (t, w) →
        io.sendTimes (playerToSeat ops.numPlayers st.m.player0Seat
            (ops.currentPlayer st.m.state.state)) = some t)
    ∧ (∀ st1, playTurn ops useJournal io st = some st1 →
        io.sendTimes (playerToSeat ops.numPlayers st.m.player0Seat
            (ops.currentPlayer st.m.state.state)) = some st1.sendTime
        ∧ ∃ action recvTime errorInfo rest,
            readPlayerResponse ops ⟨st.m.state.state, ops.currentPlayer st.m.state.state⟩
              (playerToSeat ops.numPlayers st.m.player0Seat
                (ops.currentPlayer st.m.state.state))
              st1.sendTime st.m.errorInfo
              (st.readBuf (playerToSeat ops.numPlayers st.m.player0Seat
                (ops.currentPlayer st.m.state.state)))
            = ReadOutcome.success action recvTime errorInfo rest) := by
  have hN0 : 0 < ops.numPlayers := by omega
  have huniq : ∀ seat, seat < ops.numPlayers →
      (seatToPlayer ops.numPlayers st.m.player0Seat seat = ops.currentPlayer st.m.state.state
        ↔ seat = playerToSeat ops.numPlayers st.m.player0Seat
            (ops.currentPlayer st.m.state.state)) := by
    intro seat hs
    constructor
    · intro h
      rw [← h, playerToSeat_seatToPlayer _ _ _ hN hp0 hs]
    · intro h
      rw [h, seatToPlayer_playerToSeat _ _ _ hN hp0 hc]
  have hlt := playerToSeat_lt ops.numPlayers st.m.player0Seat
    (ops.currentPlayer st.m.state.state) hN0 hN
  have hb : ∀ (old : Timeval) (vp : Nat) (t : Timeval) (w : Nat),
      broadcast ops.numPlayers st.m.player0Seat (ops.currentPlayer st.m.state.state) true
          io.sendTimes old vp = some (t, w) →
      io.sendTimes (playerToSeat ops.numPlayers st.m.player0Seat
          (ops.currentPlayer st.m.state.state)) = some t := by
    intro old vp t w h
    unfold broadcast at h
    exact foldl_broadcast_sendTime ops.numPlayers st.m.player0Seat
      (ops.currentPlayer st.m.state.state) true rfl io.sendTimes _
      (seatToPlayer_playerToSeat _ _ _ hN hp0 hc) (List.range ops.numPlayers) old vp t w h
      (List.mem_range.mpr hlt)
      (fun seat hseat hm => (huniq seat (List.mem_range.mp hseat)).mp hm)
  refine ⟨huniq, hlt, hb, ?_⟩
  intro st1 h
  obtain ⟨sendTime, vp, action, recvTime, errorInfo, rest, h1, h2, -, h4⟩ :=
    playTurn_some ops useJournal io st st1 h
  have hst : st1.sendTime = sendTime := by rw [h4]
  rw [hst]
  exact ⟨hb _ _ _ _ h1, action, recvTime, errorInfo, rest, h2⟩

/-- Witness of C22: the first turn of the example match.  Player 0 acts and
sits in seat 0; `sendTime` held second 0 before the turn and holds the time
of the send to seat 0, second 101 microsecond 0, after the broadcast. -/
theorem playTurn_sendTime_of_awaited_seat_witness :
    broadcast 2 0 0 true (toyStep 1).sendTimes ⟨0, 0⟩ 0 = some (⟨101, 0⟩, 1)
    ∧ (toyStep 1).sendTimes (playerToSeat 2 0 0) = some ⟨101, 0⟩ :=
  ⟨by decide,
    (playTurn_sendTime_of_awaited_seat toyOps true (toyStep 1) (toyInit 1000000)
      (by decide) (by decide) (by decide)).2.2.1 ⟨0, 0⟩ 0 ⟨101, 0⟩ 1 (by decide)⟩

end Dealer

namespace Dealer

/-! ## Theorems: the values of a finished hand -/

/-- C26: the line `addToLogFile` prints has `numPlayers` values and
`numPlayers` names; for every player `p < numPlayers` the `p`-th value is
`value[p]` and the `p`-th name is `seatName[playerToSeat(player0Seat, p)]`, the
name of the seat whose player is `p`; the line `gameLoop` logs for a finished
hand carries the state of the hand and as `p`-th value `valueOfState(state, p)`;
and in the `SCORE` line of `printFinalMessage` the `s`-th total is
`totalValue[s]` and the `s`-th name is `seatName[s]`. -/
theorem addToLogFile_player_order {σ ρ V : Type} [Add V] (ops : GameOps σ ρ V)
    (hN : ops.numPlayers ≤ 256) (player0Seat : Nat) (hp : player0Seat < ops.numPlayers) :
    (∀ (state : σ) (value : Nat → V) (seatName : Nat → List Char),
        (addToLogFile ops state value player0Seat seatName).values.length = ops.numPlayers
        ∧ (addToLogFile ops state value player0Seat seatName).names.length = ops.numPlayers
        ∧ ∀ p, p < ops.numPlayers →
            (addToLogFile ops state value player0Seat seatName).values[p]? = some (value p)
            ∧ (addToLogFile ops state value player0Seat seatName).names[p]?
                = some (seatName (playerToSeat ops.numPlayers player0Seat p))
            ∧ playerToSeat ops.numPlayers player0Seat p < ops.numPlayers
            ∧ seatToPlayer ops.numPlayers player0Seat
                (playerToSeat ops.numPlayers player0Seat p) = p)
    ∧ (∀ (fixedSeats : Nat) (seatName : Nat → List Char) (io : StepInput) (st st1 : Live σ ρ V),
        st.m.player0Seat = player0Seat →
        finishHand ops true fixedSeats seatName io st = some st1 →
        ∃ line, st1.log = st.log ++ [line]
          ∧ line.state = st.m.state.state
          ∧ ∀ p, p < ops.numPlayers →
              line.values[p]? = some (ops.valueOfState st.m.state.state p)
              ∧ line.names[p]?
                  = some (seatName (playerToSeat ops.numPlayers player0Seat p)))
    ∧ (∀ (seatName : Nat → List Char) (totalValue : Nat → V),
        (printFinalMessage ops seatName totalValue).1.length = ops.numPlayers
        ∧ (printFinalMessage ops seatName totalValue).2.length = ops.numPlayers
        ∧ ∀ s, s < ops.numPlayers →
            (printFinalMessage ops seatName totalValue).1[s]? = some (totalValue s)
            ∧ (printFinalMessage ops seatName totalValue).2[s]? = some (seatName s)) := by
  have hlog : ∀ (state : σ) (value : Nat → V) (seatName : Nat → List Char),
      (addToLogFile ops state value player0Seat seatName).values.length = ops.numPlayers
      ∧ (addToLogFile ops state value player0Seat seatName).names.length = ops.numPlayers
      ∧ ∀ p, p < ops.numPlayers →
          (addToLogFile ops state value player0Seat seatName).values[p]? = some (value p)
          ∧ (addToLogFile ops state value player0Seat seatName).names[p]?
              = some (seatName (playerToSeat ops.numPlayers player0Seat p))
          ∧ playerToSeat ops.numPlayers player0Seat p < ops.numPlayers
          ∧ seatToPlayer ops.numPlayers player0Seat
              (playerToSeat ops.numPlayers player0Seat p) = p := by
    intro state value seatName
    refine ⟨by simp [addToLogFile], by simp [addToLogFile], ?_⟩
    intro p hp1
    refine ⟨?_, ?_, playerToSeat_lt _ _ _ (by omega) hN,
      seatToPlayer_playerToSeat _ _ _ hN hp hp1⟩
    · simp [addToLogFile, List.getElem?_map, List.getElem?_range hp1]
    · simp [addToLogFile, List.getElem?_map, List.getElem?_range hp1]
  refine ⟨hlog, ?_, ?_⟩
  · intro fixedSeats seatName io st st1 hp0 h
    obtain ⟨sendTime, vp, -, -, h4⟩ := finishHand_some ops true fixedSeats seatName io st st1 h
    refine ⟨addToLogFile ops st.m.state.state
      (creditPlayers ops st.m.player0Seat st.m.state.state st.value st.m.totalValue).1
      st.m.player0Seat seatName, ?_, rfl, ?_⟩
    · rw [h4]
      simp
    · intro p hp1
      rw [hp0]
      obtain ⟨-, -, h3⟩ := hlog st.m.state.state
        (creditPlayers ops player0Seat st.m.state.state st.value st.m.totalValue).1 seatName
      refine ⟨?_, (h3 p hp1).2.1⟩
      rw [(h3 p hp1).1,
        (creditPlayers_spec ops player0Seat st.m.state.state st.value st.m.totalValue
          hN hp).2 p hp1]
  · intro seatName totalValue
    refine ⟨by simp [printFinalMessage], by simp [printFinalMessage], ?_⟩
    intro s hs
    constructor
    · simp [printFinalMessage, List.getElem?_map, List.getElem?_range hs]
    · simp [printFinalMessage, List.getElem?_map, List.getElem?_range hs]

/-- Witness of C26: the log line of the second hand of a two-player match, in
which player 0 sits in seat 1: the values are those of players 0 and 1, the
names those of seats 1 and 0; the `SCORE` line is in seat order. -/
theorem addToLogFile_player_order_witness :
    (addToLogFile toyOps (1, 2) (fun p => if p = 0 then (1 : Int) else -1) 1
        toyConfig.seatName).values = [1, -1]
    ∧ (addToLogFile toyOps (1, 2) (fun p => if p = 0 then (1 : Int) else -1) 1
        toyConfig.seatName).names = [['B'], ['A']]
    ∧ (addToLogFile toyOps (1, 2) (fun p => if p = 0 then (1 : Int) else -1) 1
        toyConfig.seatName).names[0]? = some (toyConfig.seatName (playerToSeat 2 1 0))
    ∧ printFinalMessage toyOps toyConfig.seatName (fun s => if s = 0 then (0 : Int) else 0)
        = ([0, 0], [['A'], ['B']]) :=
  ⟨by decide, by decide,
    (((addToLogFile_player_order toyOps (by decide) 1 (by decide)).1 (1, 2)
      (fun p => if p = 0 then (1 : Int) else -1) toyConfig.seatName).2.2 0 (by decide)).2.1,
    by decide⟩

end Dealer

namespace Dealer

/-! ## Theorems: the action handed back -/

theorem checkErrorInvalidAction_code (seat : Nat) (e : ErrorInfo) :
    ((checkErrorInvalidAction seat e).1 < 0
      ↔ (e.numInvalidActions seat + 1) % 2 ^ 32 > e.maxInvalidActions) := by
  unfold checkErrorInvalidAction
  simp only [Function.update_same]
  by_cases h : (e.numInvalidActions seat + 1) % 2 ^ 32 > e.maxInvalidActions
  · rw [if_pos h]
    exact ⟨fun _ => h, fun _ => show (-1 : Int) < 0 by decide⟩
  · rw [if_neg h]
    exact ⟨fun h0 => absurd (show (0 : Int) < 0 from h0) (by decide), fun h1 => absurd h1 h⟩

theorem acceptLine_cases {σ ρ V : Type} (ops : GameOps σ ρ V) (state : MatchState σ)
    (seat : Nat) (line : List Char) (c : Nat) (recvTime : Timeval)
    (rest : List (List Char × Timeval)) (e : ErrorInfo) :
    (actionText ops line c = none →
        acceptLine ops state seat line c recvTime rest e
          = ReadOutcome.success ⟨ActionType.a_call, 0⟩ recvTime
              (checkErrorInvalidAction seat e).2 rest)
    ∧ (∀ n a, actionText ops line c = some (n, a) →
        (ops.isValidAction state.state true a).1 = true →
        acceptLine ops state seat line c recvTime rest e
          = ReadOutcome.success (ops.isValidAction state.state true a).2 recvTime e rest)
    ∧ (∀ n a, actionText ops line c = some (n, a) →
        (ops.isValidAction state.state true a).1 = false →
        (e.numInvalidActions seat + 1) % 2 ^ 32 ≤ e.maxInvalidActions →
        acceptLine ops state seat line c recvTime rest e
          = ReadOutcome.success ⟨ActionType.a_call, 0⟩ recvTime
              (checkErrorInvalidAction seat e).2 rest)
    ∧ (∀ n a, actionText ops line c = some (n, a) →
        (ops.isValidAction state.state true a).1 = false →
        (e.numInvalidActions seat + 1) % 2 ^ 32 > e.maxInvalidActions →
        acceptLine ops state seat line c recvTime rest e
          = ReadOutcome.failure (checkErrorInvalidAction seat e).2) := by
  unfold actionText acceptLine
  refine ⟨?_, ?_, ?_, ?_⟩
  · intro h
    rw [h]
  · intro n a h hv
    rw [h]
    simp only
    rw [if_neg (by rw [hv]; decide)]
  · intro n a h hv hle
    rw [h]
    simp only
    rw [if_pos hv, if_neg (fun hh => absurd ((checkErrorInvalidAction_code seat e).mp hh)
      (by omega))]
  · intro n a h hv hgt
    rw [h]
    simp only
    rw [if_pos hv, if_pos ((checkErrorInvalidAction_code seat e).mpr hgt)]

/-- What `readPlayerResponse` hands back, as the code is written: when it
returns success it has passed over some lines and accepted a line whose
match state is the state sent, and the action handed back is either the action `isValidAction` leaves (called with
`tryFixing = 1`, the spec's `fixBadSize`) for the action parsed from that line,
which it accepted, with no invalid action counted; or `call` with size 0, with
one invalid action counted for the seat, and then the action text was
unparseable, or the parsed action was rejected and the incremented count of
the seat is at most `maxInvalidActions`.  Conversely, for a line that reaches
the parsing of the action (not a comment, in time, with the state sent): an
unparseable action text is always replaced by `call` with size 0, also when
the incremented count is above `maxInvalidActions`; a rejected action is
replaced when the incremented count is at most `maxInvalidActions` and fails
the call when it is above; and an accepted action is handed back. -/
theorem readPlayerResponse_action_or_call {σ ρ V : Type} (ops : GameOps σ ρ V)
    (state : MatchState σ) (seat : Nat) (sendTime : Timeval)
    (input : List (List Char × Timeval)) (e : ErrorInfo) (action : Action)
    (recvTime : Timeval) (e1 : ErrorInfo) (rest : List (List Char × Timeval))
    (h : readPlayerResponse ops state seat sendTime e input
      = ReadOutcome.success action recvTime e1 rest) :
    (∃ ignored line c tempState,
      input = ignored ++ (line, recvTime) :: rest
      ∧ (∀ l ∈ ignored, ignoredLine ops state l.1 = true)
      ∧ ops.readMatchState line = some (c, tempState)
      ∧ ops.matchStatesEqual state tempState = true
      ∧ ((∃ n a, actionText ops line c = some (n, a)
            ∧ (ops.isValidAction state.state true a).1 = true
            ∧ action = (ops.isValidAction state.state true a).2
            ∧ e1 = (checkErrorTimes seat sendTime recvTime
                (chargeLines seat sendTime ignored e)).2)
          ∨ (action = ⟨ActionType.a_call, 0⟩
            ∧ e1 = (checkErrorInvalidAction seat
                (checkErrorTimes seat sendTime recvTime
                  (chargeLines seat sendTime ignored e)).2).2
            ∧ (actionText ops line c = none
                ∨ ∃ n a, actionText ops line c = some (n, a)
                    ∧ (ops.isValidAction state.state true a).1 = false
                    ∧ ((checkErrorTimes seat sendTime recvTime
                          (chargeLines seat sendTime ignored e)).2.numInvalidActions seat + 1)
                        % 2 ^ 32
                      ≤ (checkErrorTimes seat sendTime recvTime
                          (chargeLines seat sendTime ignored e)).2.maxInvalidActions))))
    ∧ (∀ (line : List Char) (c : Nat) (tempState : MatchState σ) (rt : Timeval)
        (tl : List (List Char × Timeval)) (e0 : ErrorInfo),
        isComment line = false →
        ¬ (checkErrorTimes seat sendTime rt e0).1 < 0 →
        ops.readMatchState line = some (c, tempState) →
        ops.matchStatesEqual state tempState = true →
        (actionText ops line c = none →
            readPlayerResponse ops state seat sendTime e0 ((line, rt) :: tl)
              = ReadOutcome.success ⟨ActionType.a_call, 0⟩ rt
                  (checkErrorInvalidAction seat (checkErrorTimes seat sendTime rt e0).2).2 tl)
        ∧ (∀ n a, actionText ops line c = some (n, a) →
            (ops.isValidAction state.state true a).1 = true →
            readPlayerResponse ops state seat sendTime e0 ((line, rt) :: tl)
              = ReadOutcome.success (ops.isValidAction state.state true a).2 rt
                  (checkErrorTimes seat sendTime rt e0).2 tl)
        ∧ (∀ n a, actionText ops line c = some (n, a) →
            (ops.isValidAction state.state true a).1 = false →
            ((checkErrorTimes seat sendTime rt e0).2.numInvalidActions seat + 1) % 2 ^ 32
              ≤ (checkErrorTimes seat sendTime rt e0).2.maxInvalidActions →
            readPlayerResponse ops state seat sendTime e0 ((line, rt) :: tl)
              = ReadOutcome.success ⟨ActionType.a_call, 0⟩ rt
                  (checkErrorInvalidAction seat (checkErrorTimes seat sendTime rt e0).2).2 tl)
        ∧ (∀ n a, actionText ops line c = some (n, a) →
            (ops.isValidAction state.state true a).1 = false →
            ((checkErrorTimes seat sendTime rt e0).2.numInvalidActions seat + 1) % 2 ^ 32
              > (checkErrorTimes seat sendTime rt e0).2.maxInvalidActions →
            readPlayerResponse ops state seat sendTime e0 ((line, rt) :: tl)
              = ReadOutcome.failure
                  (checkErrorInvalidAction seat (checkErrorTimes seat sendTime rt e0).2).2)) := by
  constructor
  · obtain ⟨ignored, line, c, tempState, g1, g2, -, g4, g5, -, g7⟩ :=
      readPlayerResponse_success ops state seat sendTime input e action recvTime e1 rest h
    refine ⟨ignored, line, c, tempState, g1, g2, g4, g5, ?_⟩
    generalize (checkErrorTimes seat sendTime recvTime
      (chargeLines seat sendTime ignored e)).2 = et at g7 ⊢
    obtain ⟨k1, k2, k3, k4⟩ := acceptLine_cases ops state seat line c recvTime rest et
    cases hact : actionText ops line c with
    | none =>
      rw [k1 hact] at g7
      injection g7 with j1 j2 j3 j4
      exact Or.inr ⟨j1.symm, j3.symm, Or.inl rfl⟩
    | some na =>
      obtain ⟨n, a⟩ := na
      cases hv : (ops.isValidAction state.state true a).1 with
      | true =>
        rw [k2 n a hact hv] at g7
        injection g7 with j1 j2 j3 j4
        exact Or.inl ⟨n, a, rfl, hv, j1.symm, j3.symm⟩
      | false =>
        by_cases hle : (et.numInvalidActions seat + 1) % 2 ^ 32 ≤ et.maxInvalidActions
        · rw [k3 n a hact hv hle] at g7
          injection g7 with j1 j2 j3 j4
          exact Or.inr ⟨j1.symm, j3.symm, Or.inr ⟨n, a, rfl, hv, hle⟩⟩
        · rw [k4 n a hact hv (by omega)] at g7
          exact absurd g7 (by simp)
  · intro line c tempState rt tl e0 hc ht hs he
    have hstep : readPlayerResponse ops state seat sendTime e0 ((line, rt) :: tl)
        = acceptLine ops state seat line c rt tl (checkErrorTimes seat sendTime rt e0).2 := by
      rw [readPlayerResponse_cons]
      unfold responseStep
      rw [if_neg (by rw [hc]; decide)]
      simp only
      rw [if_neg ht, hs]
      simp only
      rw [if_neg (by rw [he]; decide)]
    rw [hstep]
    exact acceptLine_cases ops state seat line c rt tl (checkErrorTimes seat sendTime rt e0).2

/-- The fold of `toyRejected` is rejected by the example game; the call
succeeds, hands back `call` with size 0 and counts one invalid action for
seat 0. -/
theorem readPlayerResponse_action_or_call_example :
    toyRejected.action? = some ⟨ActionType.a_call, 0⟩
    ∧ toyRejected.errorInfo.numInvalidActions 0 = 1
    ∧ ∃ ignored line c tempState,
      [(['S', '0', '0', ':', 'f'], (⟨100, 5⟩ : Timeval))]
        = ignored ++ (line, toyRejected.recvTime?.getD ⟨0, 0⟩) :: toyRejected.rest?.getD []
      ∧ (∀ l ∈ ignored, ignoredLine toyOps ⟨(0, 0), 0⟩ l.1 = true)
      ∧ toyOps.readMatchState line = some (c, tempState)
      ∧ toyOps.matchStatesEqual ⟨(0, 0), 0⟩ tempState = true := by
  obtain ⟨ignored, line, c, tempState, g1, g2, g3, g4, -⟩ :=
    (readPlayerResponse_action_or_call toyOps ⟨(0, 0), 0⟩ 0 ⟨100, 0⟩
      [(['S', '0', '0', ':', 'f'], ⟨100, 5⟩)]
      ⟨2 ^ 32 - 1, 1000000, 1500000, 9000000, fun _ => 0, fun _ => 0, fun _ => 0⟩
      (toyRejected.action?.getD ⟨ActionType.a_fold, 0⟩) (toyRejected.recvTime?.getD ⟨0, 0⟩)
      toyRejected.errorInfo (toyRejected.rest?.getD [])
      (ReadOutcome.eq_success_of_code toyRejected _ _ (by decide))).1
  exact ⟨by decide, by decide, ignored, line, c, tempState, g1, g2, g3, g4⟩


end Dealer

namespace AllIn

/-! ## Theorems: the round and the board slots of a rollout -/

theorem sumBoardCards_eq_sum (game : Game) (round : Nat) :
    sumBoardCards game round = ∑ ρ in Finset.range (round + 1), game.numBoardCards ρ := by
  unfold sumBoardCards
  generalize round + 1 = n
  induction n with
  | zero => rfl
  | succ n ih =>
    rw [List.range_succ, List.map_append, List.sum_append, ih, Finset.sum_range_succ]
    simp

theorem foldl_storeIndex_frame (deck : Nat → Nat) (bcStart : Nat) (v : Nat → Nat) (l : List Nat)
    (c : Cursor) (j : Nat) (hj : ∀ i ∈ l, bcStart + i ≠ j) :
    (l.foldl (fun c i => storeIndex deck bcStart c i (v i)) c).boardCards j
      = c.boardCards j := by
  induction l generalizing c with
  | nil => rfl
  | cons a l ih =>
    rw [List.foldl_cons, ih _ (fun i hi => hj i (List.mem_cons_of_mem _ hi))]
    simp only [storeIndex]
    exact Function.update_noteq (fun h => hj a (List.mem_cons_self _ _) h.symm) _ _

theorem initBoard_frame (deck : Nat → Nat) (deckSize bcStart numCards : Nat) (c : Cursor)
    (j : Nat) (hj : j < bcStart ∨ bcStart + numCards ≤ j) :
    (initBoard deck deckSize bcStart numCards c).boardCards j = c.boardCards j := by
  unfold initBoard
  apply foldl_storeIndex_frame deck bcStart
    (fun i => (((deckSize : Int) - (numCards : Int) + (i : Int)) % 256).toNat)
  intro i hi
  have := List.mem_range.mp hi
  omega

/-- C28: for a line on which `readState` finds a state of the game
(`state.round < numRounds`) and which is rolled out, the round `r` of the rollout
is at most `state.round`, is 0 or has an action, and no round after it up to
`state.round` has one; `bcStart` is `sumBoardCards(r)`, and `numCards` is a
number `K ≥ 0` with `K = sumBoardCards(numRounds-1) - sumBoardCards(r)`, the sum
of `numBoardCards` over the rounds `ρ` with `r < ρ < numRounds`; the loop of
lines 142-146 writes the board slots `sumBoardCards(r) + i` for `i < K`, the last
of which is slot `sumBoardCards(numRounds-1) - 1`, and no other board slot. -/
theorem processLine_round_and_slots {τ : Type} (game : Game) (ops : LineOps τ)
    (used deck : Nat → Nat) (line : List Char) (stateEnd : Nat) (state : τ)
    (hparsed : ops.readState line = some (stateEnd, state))
    (hround : (ops.view state).round < game.numRounds)
    (hroll : (processLine game ops used deck line).isRollout = true) :
    ∃ r K : Nat,
      (processLine game ops used deck line).round? = some r
      ∧ (processLine game ops used deck line).slots? = some (sumBoardCards game r, (K : Int))
      ∧ r ≤ (ops.view state).round
      ∧ (r = 0 ∨ (ops.view state).numActions r ≠ 0)
      ∧ (∀ ρ, r < ρ → ρ ≤ (ops.view state).round → (ops.view state).numActions ρ = 0)
      ∧ r + 1 < game.numRounds
      ∧ (K : Int) = (sumBoardCards game (game.numRounds - 1) : Int) - (sumBoardCards game r : Int)
      ∧ K = ∑ ρ in Finset.Ioo r game.numRounds, game.numBoardCards ρ
      ∧ sumBoardCards game r + K = sumBoardCards game (game.numRounds - 1)
      ∧ ∀ (cards : Nat → Nat) (deckSize : Nat) (c : Cursor),
          (∀ j, j < sumBoardCards game r ∨ sumBoardCards game (game.numRounds - 1) ≤ j →
            (initBoard cards deckSize (sumBoardCards game r) K c).boardCards j
              = c.boardCards j)
          ∧ (K ≤ deckSize → deckSize ≤ 256 → ∀ i, i < K →
            (initBoard cards deckSize (sumBoardCards game r) K c).boardCards
                (sumBoardCards game r + i)
              = cards (deckSize - K + i)) := by
  obtain ⟨l1, l2, l3⟩ := lastActionRound_spec (ops.view state) (ops.view state).round
  have hsplit : sumBoardCards game (lastActionRound (ops.view state) (ops.view state).round)
      + ∑ ρ in Finset.Ioo (lastActionRound (ops.view state) (ops.view state).round)
          game.numRounds, game.numBoardCards ρ
      = sumBoardCards game (game.numRounds - 1) := by
    rw [sumBoardCards_eq_sum, sumBoardCards_eq_sum,
      show game.numRounds - 1 + 1 = game.numRounds by omega, ← Nat.Ico_succ_left,
      Finset.sum_range_add_sum_Ico _ (by omega)]
  unfold processLine at hroll ⊢
  rw [hparsed] at hroll ⊢
  simp only at hroll ⊢
  by_cases h1 : ops.numAllIn state = 0 ∨ ops.numFolded state + 1 ≥ game.numPlayers
  · rw [if_pos h1] at hroll
    simp [LineOutcome.isRollout] at hroll
  · rw [if_neg h1] at hroll ⊢
    by_cases h2 : lastActionRound (ops.view state) (ops.view state).round + 1 = game.numRounds
    · rw [if_pos h2] at hroll
      simp [LineOutcome.isRollout] at hroll
    · rw [if_neg h2]
      have h0 : ¬ game.numRounds = 0 := by omega
      refine ⟨lastActionRound (ops.view state) (ops.view state).round,
        ∑ ρ in Finset.Ioo (lastActionRound (ops.view state) (ops.view state).round)
          game.numRounds, game.numBoardCards ρ, rfl, ?_, l1, ?_, l3, by omega, ?_, rfl, hsplit,
        ?_⟩
      · simp only [LineOutcome.slots?, if_neg h0]
        rw [← hsplit]
        push_cast
        simp
      · by_cases hz : lastActionRound (ops.view state) (ops.view state).round = 0
        · exact Or.inl hz
        · exact Or.inr (l2 hz)
      · rw [← hsplit]
        push_cast
        ring
      · intro cards deckSize c
        constructor
        · intro j hj
          exact initBoard_frame cards deckSize _ _ c j (by rw [hsplit]; exact hj)
        · intro hK hD i hi
          exact (initBoard_spec cards deckSize _ _ c hD hK i hi).2

/-- Witness of C28: the hand of the example game with its last action in
round 0 is rolled out from round 0, from board slot 0, with one card. -/
theorem processLine_round_and_slots_witness :
    ∃ r K : Nat,
      (processLine toyGame toyLineOps (fun _ => 0) (fun _ => 0)
        ['H', '1', '0', '1', '0', ':', 'x']).round? = some r
      ∧ (processLine toyGame toyLineOps (fun _ => 0) (fun _ => 0)
        ['H', '1', '0', '1', '0', ':', 'x']).slots? = some (sumBoardCards toyGame r, (K : Int))
      ∧ r + 1 < toyGame.numRounds
      ∧ sumBoardCards toyGame r + K = sumBoardCards toyGame (toyGame.numRounds - 1) := by
  obtain ⟨r, K, h1, h2, -, -, -, h6, -, -, h9, -⟩ :=
    processLine_round_and_slots toyGame toyLineOps (fun _ => 0) (fun _ => 0)
      ['H', '1', '0', '1', '0', ':', 'x'] 5
      (⟨1, fun ρ => if ρ = 0 then 1 else 0, fun p _ => p, fun i => 2 + i⟩, 1, 0) rfl
      (by decide) (by decide)
  exact ⟨r, K, h1, h2, h6, h9⟩

/-- The values in the example of the witness of C28: `r = 0`, `bcStart = 0`,
`numCards = 1`. -/
theorem processLine_round_and_slots_example :
    (processLine toyGame toyLineOps (fun _ => 0) (fun _ => 0)
      ['H', '1', '0', '1', '0', ':', 'x']).round? = some 0
    ∧ (processLine toyGame toyLineOps (fun _ => 0) (fun _ => 0)
      ['H', '1', '0', '1', '0', ':', 'x']).slots? = some (0, 1) := by
  decide

end AllIn

namespace AllIn

/-! ## Theorems: the boards evaluated by the rollout -/

theorem refill_frame (deck : Nat → Nat) (bcStart : Nat) (i : Nat) (c : Cursor) (j : Nat)
    (hj : j < bcStart ∨ bcStart + i ≤ j) :
    (refill deck bcStart i c).boardCards j = c.boardCards j := by
  induction i generalizing c with
  | zero => rfl
  | succ i ih =>
    rw [refill, ih _ (by omega)]
    simp only [storeIndex]
    exact Function.update_noteq (by omega) _ _

theorem nextBoard_frame {deck : Nat → Nat} {bcStart numCards : Nat} {c c1 : Cursor}
    (h : nextBoard deck bcStart numCards c = some c1) (j : Nat)
    (hj : j < bcStart ∨ bcStart + numCards ≤ j) : c1.boardCards j = c.boardCards j := by
  unfold nextBoard at h
  simp only at h
  obtain ⟨h1, -, -⟩ := firstDecrementable_spec c.used numCards
  generalize firstDecrementable c.used numCards = i0 at h h1
  split_ifs at h with hi
  injection h with h
  rw [← h, refill_frame _ _ _ _ _ (by omega)]
  simp only [storeIndex]
  exact Function.update_noteq (by omega) _ _

theorem boardsFrom_inv {deck : Nat → Nat} {deckSize bcStart numCards : Nat}
    (hD : deckSize ≤ 256) (fuel : Nat) :
    ∀ c : Cursor, CursorInv deck deckSize bcStart numCards c →
      ∀ c1 ∈ boardsFrom deck bcStart numCards fuel c,
        CursorInv deck deckSize bcStart numCards c1
        ∧ ∀ j, j < bcStart ∨ bcStart + numCards ≤ j → c1.boardCards j = c.boardCards j := by
  induction fuel with
  | zero =>
    intro c _ c1 hc1
    simp [boardsFrom] at hc1
  | succ fuel ih =>
    intro c hinv c1 hc1
    rw [boardsFrom] at hc1
    cases hnext : nextBoard deck bcStart numCards c with
    | none =>
      rw [hnext] at hc1
      rw [List.mem_singleton.mp hc1]
      exact ⟨hinv, fun _ _ => rfl⟩
    | some c2 =>
      rw [hnext] at hc1
      rcases List.mem_cons.mp hc1 with hc1 | hc1
      · rw [hc1]
        exact ⟨hinv, fun _ _ => rfl⟩
      · obtain ⟨g1, g2⟩ := ih c2 (nextBoard_some hD hinv hnext).1 c1 hc1
        exact ⟨g1, fun j hj => (g2 j hj).trans (nextBoard_frame hnext j hj)⟩

theorem rolloutLoop_boardsFrom (deck : Nat → Nat) (bcStart numCards : Nat) (fuel : Nat) :
    ∀ (c : Cursor) (numBoards : Int) (r : Int × List (List Nat × List Nat)),
      rolloutLoop deck bcStart numCards fuel c numBoards = some r →
      r.2 = (boardsFrom deck bcStart numCards fuel c).map (snapshot bcStart numCards) := by
  induction fuel with
  | zero =>
    intro c numBoards r h
    simp [rolloutLoop] at h
  | succ fuel ih =>
    intro c numBoards r h
    rw [rolloutLoop] at h
    rw [boardsFrom]
    cases hnext : nextBoard deck bcStart numCards c with
    | none =>
      rw [hnext] at h
      simp only at h ⊢
      injection h with h
      rw [← h]
      rfl
    | some c1 =>
      rw [hnext] at h
      simp only at h ⊢
      cases hrec : rolloutLoop deck bcStart numCards fuel c1 (incrInt numBoards) with
      | none => rw [hrec] at h; simp at h
      | some r1 =>
        rw [hrec] at h
        simp only [Option.map_some'] at h
        injection h with h
        rw [← h, List.map_cons, ← ih c1 (incrInt numBoards) r1 hrec]

theorem CursorInv.add_le {deck : Nat → Nat} {deckSize bcStart numCards : Nat} {c : Cursor}
    (h : CursorInv deck deckSize bcStart numCards c) (i d : Nat) (hd : i + d < numCards) :
    c.used i + d ≤ c.used (i + d) := by
  induction d with
  | zero => exact le_refl _
  | succ d ih =>
    have h1 := ih (by omega)
    have h2 := h.mono (i + d) (by omega)
    rw [show i + (d + 1) = i + d + 1 by omega]
    omega

theorem CursorInv.le_top {deck : Nat → Nat} {deckSize bcStart numCards : Nat} {c : Cursor}
    (h : CursorInv deck deckSize bcStart numCards c) (i : Nat) (hi : i < numCards) :
    c.used i ≤ deckSize - numCards + i := by
  have h1 := h.add_le i (numCards - 1 - i) (by omega)
  have h2 := h.lt (i + (numCards - 1 - i)) (by omega)
  omega

theorem buildDeck_eq_filter (game : Game) (state : State) (r : Nat) (used deck : Nat → Nat)
    (hN : game.numSuits * game.numRanks ≤ 256) :
    (List.range (buildDeck game (getUsedCards game state r used) deck).2).map
        (buildDeck game (getUsedCards game state r used) deck).1
      = (List.range (game.numSuits * game.numRanks)).filter
          (fun c => decide (c ∉ usedCards game state r)) := by
  obtain ⟨h1, -, h3⟩ := buildDeck_fold (getUsedCards game state r used)
    (List.range (game.numSuits * game.numRanks)) (deck, 0)
  rw [filter_unused_eq] at h1 h3
  simp only [Nat.zero_add] at h1 h3
  have hsize : (buildDeck game (getUsedCards game state r used) deck).2
      = ((List.range (game.numSuits * game.numRanks)).filter
          (fun c => decide (c ∉ usedCards game state r))).length := h1
  apply List.ext_getElem
  · rw [List.length_map, List.length_range, hsize]
  · intro k hk1 hk2
    rw [List.getElem_map, List.getElem_range]
    have := h3 k hk2
    rw [List.getD_eq_getElem _ _ hk2] at this
    have hmem := List.getElem_mem hk2
    have hlt := List.mem_range.mp (List.mem_filter.mp hmem).1
    rw [Nat.mod_eq_of_lt (by omega)] at this
    exact this

theorem buildDeck_cards (game : Game) (state : State) (r : Nat) (used deck : Nat → Nat)
    (hN : game.numSuits * game.numRanks ≤ 256) :
    (buildDeck game (getUsedCards game state r used) deck).2 ≤ game.numSuits * game.numRanks
    ∧ (∀ k, k < (buildDeck game (getUsedCards game state r used) deck).2 →
        (buildDeck game (getUsedCards game state r used) deck).1 k
            < game.numSuits * game.numRanks
        ∧ (buildDeck game (getUsedCards game state r used) deck).1 k
            ∉ usedCards game state r)
    ∧ (∀ a b, a < b → b < (buildDeck game (getUsedCards game state r used) deck).2 →
        (buildDeck game (getUsedCards game state r used) deck).1 a
          < (buildDeck game (getUsedCards game state r used) deck).1 b) := by
  have hf := buildDeck_eq_filter game state r used deck hN
  generalize (buildDeck game (getUsedCards game state r used) deck).1 = cards at hf ⊢
  generalize (buildDeck game (getUsedCards game state r used) deck).2 = n at hf ⊢
  refine ⟨?_, ?_, ?_⟩
  · have := congrArg List.length hf
    rw [List.length_map, List.length_range] at this
    rw [this]
    exact (List.length_filter_le _ _).trans (by rw [List.length_range])
  · intro k hk
    have hmem : cards k ∈ (List.range n).map cards :=
      List.mem_map.mpr ⟨k, List.mem_range.mpr hk, rfl⟩
    rw [hf, List.mem_filter] at hmem
    exact ⟨List.mem_range.mp hmem.1, by simpa using hmem.2⟩
  · intro a b hab hb
    have hs : ((List.range n).map cards).Pairwise (· < ·) := by
      rw [hf]
      exact (List.pairwise_lt_range _).filter _
    rw [List.pairwise_map] at hs
    have := List.pairwise_iff_getElem.mp hs a b (by simpa using by omega) (by simpa using hb) hab
    simpa using this

/-- C27: let the deck be built for a rollout from round `r` (at most 256 card
values, cards being `uint8_t`), with `numCards` cards to roll out, at most the
size `D` of the deck.  The loop returns when given `C(D, numCards)` iterations
or more, and the boards it evaluates are the snapshots of `rolloutBoards`.  At
each of them the index vector is strictly increasing with
`i ≤ idx[i] ≤ D - numCards + i`, slot `bcStart + i` holds `deck[idx[i]]`, the
cards in the slots `bcStart .. bcStart + numCards - 1` are pairwise distinct,
none of them is a hole card of a player or one of the first `bcStart` board
cards of the state, and every board slot outside that range holds what the
state read from the line holds.  The hole cards are not among the arrays the
loop writes. -/
theorem rollout_boards_distinct_unused (game : Game) (state : State) (r numCards : Nat)
    (used deck : Nat → Nat) (fuel : Nat)
    (hN : game.numSuits * game.numRanks ≤ 256)
    (hK : numCards ≤ (buildDeck game (getUsedCards game state r used) deck).2) :
    (((buildDeck game (getUsedCards game state r used) deck).2).choose numCards ≤ fuel →
      (rolloutBoards game state r numCards used deck fuel).length
          = ((buildDeck game (getUsedCards game state r used) deck).2).choose numCards
      ∧ ∃ numBoards,
        rolloutLoop (buildDeck game (getUsedCards game state r used) deck).1
            (sumBoardCards game r) numCards fuel
            (initBoard (buildDeck game (getUsedCards game state r used) deck).1
              (buildDeck game (getUsedCards game state r used) deck).2 (sumBoardCards game r)
              numCards ⟨getUsedCards game state r used, state.boardCards⟩) 0
          = some (numBoards,
              (rolloutBoards game state r numCards used deck fuel).map
                (snapshot (sumBoardCards game r) numCards)))
    ∧ ∀ c ∈ rolloutBoards game state r numCards used deck fuel,
        (∀ i, i < numCards →
          i ≤ c.used i
          ∧ c.used i ≤ (buildDeck game (getUsedCards game state r used) deck).2 - numCards + i
          ∧ c.boardCards (sumBoardCards game r + i)
              = (buildDeck game (getUsedCards game state r used) deck).1 (c.used i))
        ∧ (∀ i j, i < j → j < numCards →
          c.used i < c.used j
          ∧ c.boardCards (sumBoardCards game r + i) ≠ c.boardCards (sumBoardCards game r + j))
        ∧ (∀ i, i < numCards →
          (∀ p, p < game.numPlayers → ∀ k, k < game.numHoleCards →
            c.boardCards (sumBoardCards game r + i) ≠ state.holeCards p k)
          ∧ (∀ j, j < sumBoardCards game r →
            c.boardCards (sumBoardCards game r + i) ≠ c.boardCards j))
        ∧ (∀ j, j < sumBoardCards game r ∨ sumBoardCards game r + numCards ≤ j →
          c.boardCards j = state.boardCards j) := by
  obtain ⟨d1, d2, d3⟩ := buildDeck_cards game state r used deck hN
  unfold rolloutBoards
  generalize (buildDeck game (getUsedCards game state r used) deck).1 = cards at *
  generalize (buildDeck game (getUsedCards game state r used) deck).2 = D at *
  have hD : D ≤ 256 := by omega
  obtain ⟨hinv, hrank⟩ := initBoard_inv cards D (sumBoardCards game r) numCards
    ⟨getUsedCards game state r used, state.boardCards⟩ hD hK
  constructor
  · intro hfuel
    obtain ⟨trace, h1, h2, -⟩ := rolloutLoop_spec cards D (sumBoardCards game r) numCards hD
      (rank (initBoard cards D (sumBoardCards game r) numCards
        ⟨getUsedCards game state r used, state.boardCards⟩).used numCards)
      (initBoard cards D (sumBoardCards game r) numCards
        ⟨getUsedCards game state r used, state.boardCards⟩) 0 fuel hinv rfl (by omega)
    have hlink := rolloutLoop_boardsFrom cards (sumBoardCards game r) numCards fuel _ _ _ h1
    simp only at hlink
    have hlen : trace.length = D.choose numCards := by
      have := congrArg List.length h2
      rw [List.length_map, List.length_reverse, List.length_range] at this
      omega
    refine ⟨?_, incrInt^[rank (initBoard cards D (sumBoardCards game r) numCards
      ⟨getUsedCards game state r used, state.boardCards⟩).used numCards + 1] 0, ?_⟩
    · rw [← hlen, hlink, List.length_map]
    · rw [h1, hlink]
  · intro c hc
    obtain ⟨ci, cf⟩ := boardsFrom_inv hD fuel _ hinv c hc
    have hframe : ∀ j, j < sumBoardCards game r ∨ sumBoardCards game r + numCards ≤ j →
        c.boardCards j = state.boardCards j := by
      intro j hj
      rw [cf j hj, initBoard_frame _ _ _ _ _ j hj]
    refine ⟨?_, ?_, ?_, hframe⟩
    · intro i hi
      exact ⟨ci.ge i hi, ci.le_top i hi, ci.board i hi⟩
    · intro i j hij hj
      have hlt := ci.strictMono i j hij hj
      refine ⟨hlt, ?_⟩
      rw [ci.board i (by omega), ci.board j hj]
      exact Nat.ne_of_lt (d3 _ _ hlt (ci.lt j hj))
    · intro i hi
      have hun := (d2 (c.used i) (ci.lt i hi)).2
      rw [← ci.board i hi, mem_usedCards] at hun
      constructor
      · intro p hp k hk heq
        exact hun (Or.inl ⟨p, hp, k, hk, heq.symm⟩)
      · intro j hj heq
        exact hun (Or.inr ⟨j, hj, by rw [heq, hframe j (Or.inl hj)]⟩)

end AllIn

namespace AllIn

/-- Witness of C27: the rollout of `toyState` from round 0 with two cards; the
deck is `[0, 2, 3, 5]` and six boards are evaluated. -/
theorem rollout_boards_distinct_unused_witness :
    (rolloutBoards toyGame3 toyState 0 2 (fun _ => 7) (fun _ => 0) 6).length
        = ((buildDeck toyGame3 (getUsedCards toyGame3 toyState 0 (fun _ => 7))
            (fun _ => 0)).2).choose 2
    ∧ ∀ c ∈ rolloutBoards toyGame3 toyState 0 2 (fun _ => 7) (fun _ => 0) 6,
        ∀ i j, i < j → j < 2 →
          c.used i < c.used j
          ∧ c.boardCards (sumBoardCards toyGame3 0 + i)
              ≠ c.boardCards (sumBoardCards toyGame3 0 + j) :=
  ⟨((rollout_boards_distinct_unused toyGame3 toyState 0 2 (fun _ => 7) (fun _ => 0) 6
      (by decide) (by decide)).1 (by decide)).1,
    fun c hc =>
      ((rollout_boards_distinct_unused toyGame3 toyState 0 2 (fun _ => 7) (fun _ => 0) 6
        (by decide) (by decide)).2 c hc).2.1⟩

/-- The boards of the witness of C27, as index vector and cards of the slots
0 and 1, in the order of their evaluation. -/
theorem rolloutBoards_example :
    (rolloutBoards toyGame3 toyState 0 2 (fun _ => 7) (fun _ => 0) 6).map (snapshot 0 2)
      = [([2, 3], [3, 5]), ([1, 3], [2, 5]), ([0, 3], [0, 5]), ([1, 2], [2, 3]),
          ([0, 2], [0, 3]), ([0, 1], [0, 2])] := by
  decide

end AllIn

namespace Net

/-! ## Theorems: opening the listening socket -/

theorem bindLoop_all_fail (K : Nat) (rnd : Nat) :
    ∀ (n t port : Nat) (tried : List Nat) (extra : Nat), t + n = K →
      (bindLoop K t port (List.replicate (n + 1 + extra) (rnd, false)) tried).map
          (fun r => (r.1, r.2.2.length))
        = some (false, tried.length + n + 1) := by
  intro n
  induction n with
  | zero =>
    intro t port tried extra ht
    rw [show 0 + 1 + extra = extra + 1 by omega, List.replicate_succ, bindLoop]
    rw [if_neg (by decide), if_neg (by omega)]
    simp
  | succ n ih =>
    intro t port tried extra ht
    rw [show n + 1 + 1 + extra = (n + 1 + extra) + 1 by omega, List.replicate_succ, bindLoop]
    rw [if_neg (by decide), if_pos (by omega), ih (t + 1) _ _ extra (by omega)]
    simp
    omega

theorem bindLoop_ports_le (K : Nat) :
    ∀ (binds : List (Nat × Bool)) (t port : Nat) (tried : List Nat) (r : Bool × Nat × List Nat),
      t ≤ K → bindLoop K t port binds tried = some r →
      r.2.2.length + t ≤ tried.length + K + 1 := by
  intro binds
  induction binds with
  | nil =>
    intro t port tried r _ h
    simp [bindLoop] at h
  | cons b rest ih =>
    obtain ⟨rnd, ok⟩ := b
    intro t port tried r ht h
    rw [bindLoop] at h
    by_cases hok : ok = true
    · rw [if_pos hok] at h
      injection h with h
      rw [← h]
      simp
      omega
    · rw [if_neg hok] at h
      by_cases hlt : t < K
      · rw [if_pos hlt] at h
        have := ih (t + 1) _ _ r (by omega) h
        simp at this
        omega
      · rw [if_neg hlt] at h
        injection h with h
        rw [← h]
        simp
        omega

/-- C21 fails on the code: with port 0 asked for and every call of `bind`
failing, `getListenSocket` returns `-1` only after `NUM_PORT_CREATION_ATTEMPTS + 1`
calls of `bind`, for every value of the constant (the counter `t` is 0 at the
first failure and the loop gives up at the first failure that finds
`t = NUM_PORT_CREATION_ATTEMPTS`); `NUM_PORT_CREATION_ATTEMPTS + 1` is also the most
calls it ever makes.  With the constant at 3 and three failures followed by a
success, the fourth `bind` is made and the call succeeds on its port. -/
theorem getListenSocket_binds_once_more :
    (∀ (K sock rnd extra : Nat) (listenOk : Bool),
        (getListenSocket K 0 ⟨some sock, List.replicate (K + 1 + extra) (rnd, false),
            listenOk⟩).map (fun r => (r.code, r.ports.length))
          = some (-1, K + 1))
    ∧ (∀ (K : Nat) (env : SocketEnv) (r : ListenResult),
        getListenSocket K 0 env = some r → r.ports.length ≤ K + 1)
    ∧ getListenSocket 3 0 ⟨some 5, [(0, false), (1, false), (2, false), (3, true)], true⟩
        = some ⟨5, 1027, [1024, 1025, 1026, 1027]⟩
    ∧ getListenSocket 3 0 ⟨some 5, [(0, false), (1, false), (2, false), (3, false), (4, true)],
          true⟩
        = some ⟨-1, 1027, [1024, 1025, 1026, 1027]⟩ := by
  refine ⟨?_, ?_, by decide, by decide⟩
  · intro K sock rnd extra listenOk
    have h := bindLoop_all_fail K rnd K 0 0 [] extra (by omega)
    unfold getListenSocket
    simp only [ne_eq, not_true_eq_false, if_false]
    cases hb : bindLoop K 0 0 (List.replicate (K + 1 + extra) (rnd, false)) [] with
    | none => rw [hb] at h; simp at h
    | some r =>
      obtain ⟨bound, port, tried⟩ := r
      rw [hb] at h
      simp only [Option.map_some', Option.some.injEq, Prod.mk.injEq, List.length_nil,
        Nat.zero_add] at h
      simp only [h.1, if_true, Option.map_some', h.2]
  · intro K env r h
    unfold getListenSocket at h
    cases hs : env.sock with
    | none =>
      rw [hs] at h
      simp only at h
      injection h with h
      rw [← h]
      simp
    | some sock =>
      rw [hs] at h
      simp only [ne_eq, not_true_eq_false, if_false] at h
      cases hb : bindLoop K 0 0 env.binds [] with
      | none => rw [hb] at h; simp at h
      | some r1 =>
        obtain ⟨bound, port, tried⟩ := r1
        have hle := bindLoop_ports_le K env.binds 0 0 [] _ (Nat.zero_le _) hb
        rw [hb] at h
        simp only at h
        simp only [List.length_nil, Nat.zero_add, Nat.add_zero] at hle
        split_ifs at h <;>
        · injection h with h
          rw [← h]
          exact hle

end Net

namespace Net

/-! ## Theorems: the length of a line -/

theorem fillBuffer_eof (t : Int) (hs : Bool) (start : Dealer.Timeval) (rb : ReadBuf)
    (polls : List Poll) (waits : List Nat) (rb1 : ReadBuf) (ps : List Poll) (ws : List Nat)
    (h : fillBuffer t hs start rb polls waits = Fill.eof rb1 ps ws) :
    rb.bufStart ≥ rb.bufEnd ∧ ∃ p, polls = p :: ps ∧ p.data = some [] := by
  unfold fillBuffer at h
  by_cases hempty : rb.bufStart ≥ rb.bufEnd
  · rw [if_pos hempty] at h
    refine ⟨hempty, ?_⟩
    cases polls with
    | nil => exact absurd h (by simp)
    | cons p ps1 =>
      simp only at h
      by_cases hto : t ≥ 0 ∧ p.ready = false
      · rw [if_pos hto] at h
        exact absurd h (by simp)
      · rw [if_neg hto] at h
        cases hd : p.data with
        | none =>
          rw [hd] at h
          exact absurd h (by simp)
        | some bytes =>
          rw [hd] at h
          simp only at h
          by_cases hb : bytes.length = 0
          · rw [if_pos hb] at h
            injection h with h1 h2 h3
            rw [h2]
            exact ⟨p, rfl, by rw [hd, List.length_eq_zero.mp hb]⟩
          · rw [if_neg hb] at h
            exact absurd h (by simp)
  · rw [if_neg hempty] at h
    exact absurd h (by simp)

theorem getLineLoop_shape (t : Int) (fuel : Nat) :
    ∀ (hs : Bool) (start : Dealer.Timeval) (rb : ReadBuf) (polls : List Poll) (line : List Char)
      (waits : List Nat) (res : LineResult),
      getLineLoop t fuel hs start rb polls line waits = some res →
      ∃ suffix, res.line = line ++ suffix ∧ suffix.length ≤ fuel
        ∧ (res.code = -1 ∨ res.code = (res.line.length : Int))
        ∧ ∀ c ∈ suffix.dropLast, c ≠ Char.ofNat 10 := by
  induction fuel with
  | zero =>
    intro hs start rb polls line waits res h
    simp only [getLineLoop, Option.some.injEq] at h
    subst h
    exact ⟨[], by simp, le_refl _, Or.inr rfl, by simp⟩
  | succ fuel ih =>
    intro hs start rb polls line waits res h
    rw [getLineLoop] at h
    cases hf : fillBuffer t hs start rb polls waits with
    | blocked =>
      rw [hf] at h
      exact absurd h (by simp)
    | fail rb1 ps ws =>
      rw [hf] at h
      simp only [Option.some.injEq] at h
      subst h
      exact ⟨[], by simp, Nat.zero_le _, Or.inl rfl, by simp⟩
    | eof rb1 ps ws =>
      rw [hf] at h
      simp only [Option.some.injEq] at h
      subst h
      exact ⟨[], by simp, Nat.zero_le _, Or.inr rfl, by simp⟩
    | ok h1 s1 rb1 ps ws =>
      rw [hf] at h
      simp only at h
      by_cases hc : rb1.buf.getD rb1.bufStart (Char.ofNat 0) = Char.ofNat 10
      · rw [if_pos hc] at h
        simp only [Option.some.injEq] at h
        subst h
        refine ⟨[rb1.buf.getD rb1.bufStart (Char.ofNat 0)], rfl, by simp, Or.inr ?_, by simp⟩
        simp
      · rw [if_neg hc] at h
        obtain ⟨suffix, k1, k2, k3, k4⟩ := ih h1 s1 _ ps _ ws res h
        refine ⟨rb1.buf.getD rb1.bufStart (Char.ofNat 0) :: suffix, ?_, ?_, k3, ?_⟩
        · rw [k1, List.append_assoc, List.singleton_append]
        · simp only [List.length_cons]
          omega
        · intro c hmem
          cases suffix with
          | nil => simp at hmem
          | cons a as =>
            rw [List.dropLast_cons₂] at hmem
            rcases List.mem_cons.mp hmem with hmem | hmem
            · rw [hmem]; exact hc
            · exact k4 c hmem

/-- For a buffer of at least one byte `getLine` stays within it: whatever it
returns it has copied at most `maxLen - 1` characters, a value returned that
is not `-1` is their number (so the terminator is written at an index below
`maxLen`), and no character before the last one is a newline.  For
`maxLen ≥ 2` a return of 0 happens only when the buffer was empty and the
first `read` of the call delivered no byte. -/
theorem getLine_within_maxLen (rb : ReadBuf) (maxLen : Nat) (t : Int) (polls : List Poll)
    (res : LineResult) (hmax : 1 ≤ maxLen) (h : getLine rb maxLen t polls = some res) :
    res.line.length + 1 ≤ maxLen
    ∧ (res.code = -1 ∨ res.code = (res.line.length : Int))
    ∧ (∀ c ∈ res.line.dropLast, c ≠ Char.ofNat 10)
    ∧ (2 ≤ maxLen → res.code = 0 →
        res.line = [] ∧ rb.bufStart ≥ rb.bufEnd
        ∧ ∃ p, polls = p :: res.polls ∧ p.data = some []) := by
  have hloop : getLineLoop t (maxLen - 1) false ⟨0, 0⟩ rb polls [] [] = some res := by
    rw [← h]
    unfold getLine
    rw [if_neg (Nat.not_lt_zero _), if_neg (by omega)]
  obtain ⟨suffix, k1, k2, k3, k4⟩ := getLineLoop_shape t (maxLen - 1) false ⟨0, 0⟩ rb polls []
    [] res hloop
  rw [List.nil_append] at k1
  refine ⟨by rw [k1]; omega, k3, by rw [k1]; exact k4, ?_⟩
  intro h2 hcode
  obtain ⟨fuel, hfuel⟩ : ∃ f, maxLen - 1 = f + 1 := ⟨maxLen - 2, by omega⟩
  rw [hfuel, getLineLoop] at hloop
  cases hf : fillBuffer t false ⟨0, 0⟩ rb polls [] with
  | blocked =>
    rw [hf] at hloop
    exact absurd hloop (by simp)
  | fail rb1 ps ws =>
    rw [hf] at hloop
    simp only [Option.some.injEq] at hloop
    rw [← hloop] at hcode
    exact absurd (show (-1 : Int) = 0 from hcode) (by decide)
  | eof rb1 ps ws =>
    obtain ⟨g1, p, g2, g3⟩ := fillBuffer_eof t false ⟨0, 0⟩ rb polls [] rb1 ps ws hf
    rw [hf] at hloop
    simp only [Option.some.injEq] at hloop
    rw [← hloop]
    exact ⟨rfl, g1, p, g2, g3⟩
  | ok h1 s1 rb1 ps ws =>
    rw [hf] at hloop
    simp only at hloop
    by_cases hc : rb1.buf.getD rb1.bufStart (Char.ofNat 0) = Char.ofNat 10
    · rw [if_pos hc] at hloop
      simp only [Option.some.injEq] at hloop
      rw [← hloop] at hcode
      simp at hcode
    · rw [if_neg hc] at hloop
      obtain ⟨s2, j1, -, j3, -⟩ := getLineLoop_shape t fuel h1 s1 _ ps _ ws res hloop
      rw [hcode] at j3
      rcases j3 with j3 | j3
      · exact absurd j3 (by decide)
      · rw [j1] at j3
        simp at j3
        omega

/-- C29 fails on the code at `maxLen = 0`: `--maxLen` on the `size_t` gives
`2 ^ 64 - 1`, the test `maxLen < 0` is never true, and a call with a buffer of
no byte copies the line `ab` with its newline and the terminator, four bytes,
and returns 3 instead of `-1`.  And at `maxLen = 1`, a buffer with room for the
terminator only, the call returns 0 with input waiting, not at the end of
the input. -/
theorem getLine_zero_maxLen_writes :
    getLine ⟨[], 0, 0⟩ 0 (-1) [⟨⟨10, 0⟩, true, some ['a', 'b', Char.ofNat 10]⟩]
      = some ⟨3, ['a', 'b', Char.ofNat 10], ⟨['a', 'b', Char.ofNat 10], 3, 3⟩, [], []⟩
    ∧ getLine ⟨[], 0, 0⟩ 1 (-1) [⟨⟨10, 0⟩, true, some ['a', 'b', Char.ofNat 10]⟩]
      = some ⟨0, [], ⟨[], 0, 0⟩, [⟨⟨10, 0⟩, true, some ['a', 'b', Char.ofNat 10]⟩], []⟩
    ∧ getLine ⟨[], 0, 0⟩ 2 (-1) [⟨⟨10, 0⟩, true, some ['a', 'b', Char.ofNat 10]⟩]
      = some ⟨1, ['a'], ⟨['a', 'b', Char.ofNat 10], 1, 3⟩, [], []⟩ := by
  decide

end Net
